import Mathlib

/-!
Servo mask controller (`src/main.cpp`): shallow embedding and verified properties

The firmware keeps a table of 8 poses with 8 servo angles each, mutates it through
text commands received over a BLE characteristic, and writes it to the `Preferences`
key/value store at most once per `SAVE_INTERVAL`.

Conventions of the embedding.

* An Arduino `String` is a `List Char` (one `Char` per byte).  The `String` library
  calls used by the source (`indexOf`, `substring`, `toInt`, `startsWith`) and the
  `constrain` macro are embedded after the ESP32 Arduino core.
* `int` values are `Int`; the only arithmetic the program does on them is comparison,
  `+ 1` on string offsets, and `toInt`, whose result is saturated to 32 bits as
  `strtol` does.
* An `int` passed for an `unsigned int` parameter (the offsets given to `indexOf` and
  `substring`) is converted with `Int.toNat`; it is never negative at the call sites.
* `unsigned long` times are `Nat` below `2 ^ 32`, with explicit `% 2 ^ 32`.
* Array accesses with an index that the code does not check are fallible: the
  function returns `none` when the index is outside the array.
* Effects on collaborators are logged in the state: `servoWrites` (calls of
  `Servo::write`), `notifications` (values notified on the characteristic),
  `storageWrites` (passes of `saveConfig` that reached the store).
  `Serial` diagnostics are not modelled.
* The JSON document of `getConfigJson` is filled in the memory pool of its
  `StaticJsonDocument<2048>`, embedded after ArduinoJson 6 on a 32-bit target: every
  object member and array element takes a slot of 16 bytes, an Arduino `String` value
  is copied into the pool, and an addition that does not fit is dropped.
-/

namespace IronManMask

/-! ## Arduino `String` primitives -/

/-- Arduino `String`, as the list of its characters. -/
abbrev Str := List Char

/-- Offset of the first occurrence of `ch` in a C string (`strchr`), if any. -/
def strchr (ch : Char) : Str → Option Nat
  | [] => none
  | c :: cs => if c = ch then some 0 else (strchr ch cs).map (· + 1)

/-- `String::indexOf(char ch, unsigned int fromIndex)`: `-1` when `fromIndex` is past
the end or `ch` does not occur from there on. -/
def indexOf (s : Str) (ch : Char) (fromIndex : Nat) : Int :=
  if fromIndex ≥ s.length then -1
  else
    match strchr ch (s.drop fromIndex) with
    | none => -1
    | some k => ((fromIndex + k : Nat) : Int)

/-- `String::substring(unsigned int left, unsigned int right)`. -/
def substring (s : Str) (left right : Nat) : Str :=
  let l := if left > right then right else left
  let r := if left > right then left else right
  if l ≥ s.length then []
  else
    let r := if r > s.length then s.length else r
    (s.drop l).take (r - l)

/-- `String::substring(unsigned int beginIndex)`, which is
`substring(beginIndex, len)`. -/
def substringFrom (s : Str) (beginIndex : Nat) : Str :=
  substring s beginIndex s.length

/-- `String::startsWith(const String&)`. -/
def startsWith : Str → Str → Bool
  | _, [] => true
  | [], _ :: _ => false
  | c :: cs, p :: ps => c == p && startsWith cs ps

/-- C `isspace` in the "C" locale. -/
def isSpace (c : Char) : Bool :=
  c.toNat = 32 || (9 ≤ c.toNat && c.toNat ≤ 13)

/-- Value of the longest prefix of decimal digits, continuing from accumulator
`acc`. -/
def digitsValue : Str → Nat → Nat
  | [], acc => acc
  | c :: cs, acc =>
    if c.isDigit then digitsValue cs (acc * 10 + (c.toNat - 48)) else acc

/-- Saturation of `strtol` to the 32-bit `long` of the ESP32. -/
def saturate (v : Int) : Int :=
  if v > 2147483647 then 2147483647 else if v < -2147483648 then -2147483648 else v

/-- `String::toInt()`, that is `atol`: skip white space, read an optional sign and
the leading decimal digits; no digits give 0. -/
def toInt (s : Str) : Int :=
  match s.dropWhile isSpace with
  | '-' :: r => saturate (-(digitsValue r 0 : Int))
  | '+' :: r => saturate (digitsValue r 0 : Int)
  | r => saturate (digitsValue r 0 : Int)

/-- The Arduino macro `constrain(amt, low, high)`. -/
def constrain (amt low high : Int) : Int :=
  if amt < low then low else if amt > high then high else amt

/-- `String(value.c_str())`: the bytes of `value` up to its first NUL. -/
def cString (value : List Char) : Str :=
  value.takeWhile (fun c => c.toNat ≠ 0)

/-! ## Data model -/

abbrev NUM_SERVOS : Nat := 8

abbrev NUM_POSES : Nat := 8

/-- `SAVE_INTERVAL`, in milliseconds. -/
def SAVE_INTERVAL : Nat := 5000

@[ext]
structure ServoConfig where
  position : Int := 90

@[ext]
structure Pose where
  name : Str
  servos : Fin NUM_SERVOS → ServoConfig

@[ext]
structure Config where
  poses : Fin NUM_POSES → Pose
  currentPose : Int := 0

/-- The constructor `Pose()`. -/
def Pose.new : Pose :=
  { name := "New Pose".toList, servos := fun _ => { position := 90 } }

/-- The default-constructed global `currentConfig`. -/
def Config.new : Config :=
  { poses := fun _ => Pose.new, currentPose := 0 }

/-- A value held by the `Preferences` store under a key. -/
inductive PrefValue where
  | int (v : Int)
  | str (s : Str)
deriving DecidableEq

/-- Content of the `Preferences` namespace `"servomask"`. -/
abbrev Preferences := Str → Option PrefValue

/-- `Preferences::putInt`. -/
def putInt (p : Preferences) (key : Str) (v : Int) : Preferences :=
  Function.update p key (some (PrefValue.int v))

/-- `Preferences::putString`. -/
def putString (p : Preferences) (key : Str) (v : Str) : Preferences :=
  Function.update p key (some (PrefValue.str v))

/-- `Preferences::getInt(key, defaultValue)`. -/
def getInt (p : Preferences) (key : Str) (defaultValue : Int) : Int :=
  match p key with
  | some (PrefValue.int v) => v
  | _ => defaultValue

/-- `Preferences::getString(key, defaultValue)`. -/
def getString (p : Preferences) (key : Str) (defaultValue : Str) : Str :=
  match p key with
  | some (PrefValue.str v) => v
  | _ => defaultValue

/-- `sprintf` conversion `%d` of a loop counter, and `String(int)`. -/
def fmtInt (n : Nat) : Str := (Nat.repr n).toList

/-- `sprintf(keyName, "pose_%d_name", poseIndex)`. -/
def keyName (poseIndex : Nat) : Str :=
  "pose_".toList ++ fmtInt poseIndex ++ "_name".toList

/-- `sprintf(keyPos, "pose_%d_servo_%d", poseIndex, servoIndex)`. -/
def keyPos (poseIndex servoIndex : Nat) : Str :=
  "pose_".toList ++ fmtInt poseIndex ++ "_servo_".toList ++ fmtInt servoIndex

/-- The key `"currentPose"`. -/
def keyCurrentPose : Str := "currentPose".toList

/-- One servo entry of the JSON document built by `getConfigJson`: an object whose
member `position` is absent when the document had no room for it. -/
structure ServoJson where
  position : Option Int
deriving DecidableEq

/-- One pose entry of the JSON document.  The member `name` is absent (`none`), null
(`some none`, the text could not be copied) or a text; the member `servos` is absent or
an array. -/
structure PoseJson where
  name : Option (Option Str)
  servos : Option (List ServoJson)
deriving DecidableEq

/-- The JSON document built by `getConfigJson`: object members by name (`none` for a
member the document had no room for), arrays as lists in insertion order. -/
structure ConfigJson where
  currentPose : Option Int
  poses : Option (List PoseJson)
deriving DecidableEq

/-- Program state: the globals `currentConfig`, `needsSave`, `lastSaveTime`, the
store, and the logs of the effects on the collaborators. -/
structure State where
  currentConfig : Config
  needsSave : Bool
  lastSaveTime : Nat
  preferences : Preferences
  servoWrites : List (Fin NUM_SERVOS × Int)
  notifications : List ConfigJson
  storageWrites : List Nat

/-! ## Operations -/

/-- The assignment `cfg.poses[p].servos[i].position = v`. -/
def Config.setPosition (cfg : Config) (p : Fin NUM_POSES) (i : Fin NUM_SERVOS) (v : Int) :
    Config :=
  { cfg with
    poses := Function.update cfg.poses p
      { cfg.poses p with
        servos := Function.update (cfg.poses p).servos i { position := v } } }

/-- The assignment `cfg.poses[p].name = n`. -/
def Config.setName (cfg : Config) (p : Fin NUM_POSES) (n : Str) : Config :=
  { cfg with poses := Function.update cfg.poses p { cfg.poses p with name := n } }

/-- The `try` block of `saveConfig`: the key/value writes, in program order. -/
def saveWrites (cfg : Config) (prefs : Preferences) : Preferences :=
  (List.finRange NUM_POSES).foldl
    (fun pr (poseIndex : Fin NUM_POSES) =>
      (List.finRange NUM_SERVOS).foldl
        (fun pr (servoIndex : Fin NUM_SERVOS) =>
          putInt pr (keyPos poseIndex servoIndex)
            ((cfg.poses poseIndex).servos servoIndex).position)
        (putString pr (keyName poseIndex) (cfg.poses poseIndex).name))
    (putInt prefs keyCurrentPose cfg.currentPose)

/-- `saveConfig()`, called at real time `t` (milliseconds since boot, so that
`millis()` reads `t % 2 ^ 32`), with a store that takes every write: no call in the
`try` block throws.  A pass that reaches the store is logged with its real time. -/
def saveConfig (t : Nat) (s : State) : State :=
  let currentTime := t % 2 ^ 32
  let s := { s with needsSave := true }
  if (currentTime + 2 ^ 32 - s.lastSaveTime) % 2 ^ 32 < SAVE_INTERVAL then s
  else
    { s with
      needsSave := false
      lastSaveTime := currentTime
      preferences := saveWrites s.currentConfig s.preferences
      storageWrites := s.storageWrites ++ [t] }

/-- `loadConfig()` on the global configuration `cfg`, reading the store `prefs`. -/
def loadConfig (prefs : Preferences) (cfg : Config) : Config :=
  (List.finRange NUM_POSES).foldl
    (fun c (poseIndex : Fin NUM_POSES) =>
      (List.finRange NUM_SERVOS).foldl
        (fun c (servoIndex : Fin NUM_SERVOS) =>
          c.setPosition poseIndex servoIndex (getInt prefs (keyPos poseIndex servoIndex) 90))
        (c.setName poseIndex
          (getString prefs (keyName poseIndex) ("Pose ".toList ++ fmtInt (poseIndex + 1)))))
    { cfg with currentPose := getInt prefs keyCurrentPose 0 }

/-- `updateServos()`. -/
def updateServos (s : State) : State :=
  let poseIndex := s.currentConfig.currentPose
  if h : poseIndex < 0 ∨ poseIndex ≥ NUM_POSES then s
  else
    let p : Fin NUM_POSES := ⟨poseIndex.toNat, by omega⟩
    (List.finRange NUM_SERVOS).foldl
      (fun s (i : Fin NUM_SERVOS) =>
        let position := ((s.currentConfig.poses p).servos i).position
        let position := constrain position 0 180
        { s with servoWrites := s.servoWrites ++ [(i, position)] })
      s

/-- Bytes taken in the memory pool of an ArduinoJson 6 document by one object member
or one array element (a "slot") on a 32-bit target such as the ESP32. -/
def SLOT_SIZE : Nat := 16

/-- The memory pool of a `StaticJsonDocument` (ArduinoJson 6, the library whose
`StaticJsonDocument`, `createNestedArray` and `createNestedObject` the source calls):
the bytes still free, and the texts copied into the pool so far. -/
structure MemoryPool where
  free : Nat
  strings : List Str
deriving DecidableEq

/-- The pool of `StaticJsonDocument<capacity>` before anything is added. -/
def MemoryPool.new (capacity : Nat) : MemoryPool :=
  { free := capacity, strings := [] }

/-- `allocVariant()`, the allocation of one slot for a new object member or array
element: `none` when fewer than `SLOT_SIZE` bytes are free. -/
def MemoryPool.allocVariant (pool : MemoryPool) : Option MemoryPool :=
  if SLOT_SIZE ≤ pool.free then some { pool with free := pool.free - SLOT_SIZE } else none

/-- `saveString()`, the copy of an Arduino `String` into the pool: a text equal to one
already stored is shared; a new one takes its length plus the terminator; `none` when
that does not fit. -/
def MemoryPool.saveString (pool : MemoryPool) (s : Str) : Option MemoryPool :=
  if s ∈ pool.strings then some pool
  else if s.length + 1 ≤ pool.free then
    some { free := pool.free - (s.length + 1), strings := pool.strings ++ [s] }
  else none

/-- One pass of the inner loop of `getConfigJson()`, on a non-null `servosArray` with
the elements `acc.2`: `servosArray.createNestedObject()` and `servo["position"] = ...`.
Without room for the element the object is null and the assignment does nothing;
without room for the member the element stays empty. -/
def addServoJson (position : Int) (acc : MemoryPool × List ServoJson) :
    MemoryPool × List ServoJson :=
  match acc.1.allocVariant with
  | none => acc
  | some pool1 =>
    match pool1.allocVariant with
    | none => (pool1, acc.2 ++ [{ position := none }])
    | some pool2 => (pool2, acc.2 ++ [{ position := some position }])

/-- The assignment `pose["name"] = name` on a non-null `pose`: the slot of the member,
then the copy of the text. -/
def addNameJson (name : Str) (pool : MemoryPool) : MemoryPool × Option (Option Str) :=
  match pool.allocVariant with
  | none => (pool, none)
  | some pool1 =>
    match pool1.saveString name with
    | none => (pool1, some none)
    | some pool2 => (pool2, some (some name))

/-- The statements `pose.createNestedArray("servos")` and the inner loop, on a non-null
`pose`: without room for the member the array is null and the loop adds nothing. -/
def addServosJson (pose : Pose) (pool : MemoryPool) : MemoryPool × Option (List ServoJson) :=
  match pool.allocVariant with
  | none => (pool, none)
  | some pool1 =>
    let r := (List.finRange NUM_SERVOS).foldl
      (fun acc (servoIndex : Fin NUM_SERVOS) =>
        addServoJson (pose.servos servoIndex).position acc)
      (pool1, [])
    (r.1, some r.2)

/-- One pass of the outer loop of `getConfigJson()`, on a non-null `posesArray` with
the elements `acc.2`: `posesArray.createNestedObject()`, the name, the servo array.
Without room for the element, `pose` is null and the whole pass adds nothing. -/
def addPoseJson (pose : Pose) (acc : MemoryPool × List PoseJson) :
    MemoryPool × List PoseJson :=
  match acc.1.allocVariant with
  | none => acc
  | some pool1 =>
    let n := addNameJson pose.name pool1
    let sv := addServosJson pose n.1
    (sv.1, acc.2 ++ [{ name := n.2, servos := sv.2 }])

/-- The body of `getConfigJson()` on a document of `capacity` bytes
(`StaticJsonDocument<capacity> doc`): the document it fills, statement by statement.
Its rendering as text by `serializeJson` is not modelled. -/
def buildConfigJson (capacity : Nat) (cfg : Config) : ConfigJson :=
  let pool0 := MemoryPool.new capacity
  -- doc["currentPose"] = currentConfig.currentPose
  let cp : MemoryPool × Option Int :=
    match pool0.allocVariant with
    | none => (pool0, none)
    | some pool1 => (pool1, some cfg.currentPose)
  -- JsonArray posesArray = doc.createNestedArray("poses")
  match cp.1.allocVariant with
  | none => { currentPose := cp.2, poses := none }
  | some pool2 =>
    { currentPose := cp.2
      poses := some ((List.finRange NUM_POSES).foldl
        (fun acc (poseIndex : Fin NUM_POSES) => addPoseJson (cfg.poses poseIndex) acc)
        (pool2, [])).2 }

/-- `getConfigJson()`, with its `StaticJsonDocument<2048> doc`. -/
def getConfigJson (cfg : Config) : ConfigJson :=
  buildConfigJson 2048 cfg

/-- The `while (servoIndex < NUM_SERVOS)` loop of `handlePoseCommand`.  The first
argument bounds the number of iterations; `NUM_SERVOS` is enough since `servoIndex`
grows by one per iteration. -/
def poseLoop (positionsStr : Str) (poseIndex : Fin NUM_POSES) :
    Nat → Nat → Int → Config → Config
  | 0, _, _, cfg => cfg
  | fuel + 1, servoIndex, lastColon, cfg =>
    if h : servoIndex < NUM_SERVOS then
      let nextColon := indexOf positionsStr ':' lastColon.toNat
      let positionStr :=
        if nextColon = -1 then substringFrom positionsStr lastColon.toNat
        else substring positionsStr lastColon.toNat nextColon.toNat
      let position := toInt positionStr
      let position := constrain position 0 180
      let cfg := cfg.setPosition poseIndex ⟨servoIndex, h⟩ position
      if nextColon = -1 then cfg
      else poseLoop positionsStr poseIndex fuel (servoIndex + 1) (nextColon + 1) cfg
    else cfg

/-- `handlePoseCommand(command)`. -/
def handlePoseCommand (command : Str) (s : State) : State :=
  let firstColon := indexOf command ':' 0
  if firstColon = -1 then s
  else
    let secondColon := indexOf command ':' (firstColon + 1).toNat
    if secondColon = -1 then s
    else
      let poseIndex := toInt (substring command (firstColon + 1).toNat secondColon.toNat)
      if h : poseIndex < 0 ∨ poseIndex ≥ NUM_POSES then s
      else
        let p : Fin NUM_POSES := ⟨poseIndex.toNat, by omega⟩
        let positionsStr := substringFrom command (secondColon + 1).toNat
        let cfg := poseLoop positionsStr p NUM_SERVOS 0 0 s.currentConfig
        let s := { s with currentConfig := { cfg with currentPose := poseIndex } }
        let s := updateServos s
        { s with needsSave := true }

/-- `handleServoCommand(command)`.  The write to `poses[poseIndex]` is not guarded
by the source: the result is `none` when `currentPose` is outside the array. -/
def handleServoCommand (command : Str) (s : State) : Option State :=
  let firstColon := indexOf command ':' 0
  let secondColon := indexOf command ':' (firstColon + 1).toNat
  if firstColon = -1 ∨ secondColon = -1 then some s
  else
    let servoIndex := toInt (substring command (firstColon + 1).toNat secondColon.toNat)
    let position := toInt (substringFrom command (secondColon + 1).toNat)
    if h : servoIndex < 0 ∨ servoIndex ≥ NUM_SERVOS then some s
    else
      let i : Fin NUM_SERVOS := ⟨servoIndex.toNat, by omega⟩
      let position := constrain position 0 180
      let poseIndex := s.currentConfig.currentPose
      if hp : 0 ≤ poseIndex ∧ poseIndex < NUM_POSES then
        let p : Fin NUM_POSES := ⟨poseIndex.toNat, by omega⟩
        some
          { s with
            currentConfig := s.currentConfig.setPosition p i position
            servoWrites := s.servoWrites ++ [(i, position)]
            needsSave := true }
      else none

/-- `MyCallbacks::onWrite`, with `value` the bytes written to the characteristic. -/
def onWrite (value : List Char) (s : State) : Option State :=
  if value.length > 0 then
    let command := cString value
    if command = "GET_CONFIG".toList then
      some { s with notifications := s.notifications ++ [getConfigJson s.currentConfig] }
    else if startsWith command "POSE:".toList then some (handlePoseCommand command s)
    else if startsWith command "SERVO:".toList then handleServoCommand command s
    else some s
  else some s

/-- The persistence test of `loop()`: `millis()` is read at real time `t1` by the
test and at real time `t2` by `saveConfig`. -/
def loop (t1 t2 : Nat) (s : State) : State :=
  if s.needsSave && decide ((t1 % 2 ^ 32 + 2 ^ 32 - s.lastSaveTime) % 2 ^ 32 ≥ SAVE_INTERVAL)
  then saveConfig t2 s
  else s

/-! ## Command texts used to state the properties -/

/-- Decimal text of an integer, as `%d` prints it. -/
def decimal (n : Int) : Str :=
  if n < 0 then '-' :: fmtInt n.natAbs else fmtInt n.natAbs

/-- Fields joined by single colons. -/
def joinFields : List Str → Str
  | [] => []
  | [f] => f
  | f :: g :: rest => f ++ ':' :: joinFields (g :: rest)

/-- Sequential writes of the clamped values of `fields` into channels
`k, k + 1, ...` of pose `p`, stopping after channel 7. -/
def applyFields (p : Fin NUM_POSES) : List Str → Nat → Config → Config
  | [], _, cfg => cfg
  | f :: fs, k, cfg =>
    if h : k < NUM_SERVOS then
      applyFields p fs (k + 1) (cfg.setPosition p ⟨k, h⟩ (constrain (toInt f) 0 180))
    else cfg

/-- The result of `handlePoseCommand` on an accepted command: pose `p` selected, the
fields applied to it, its angles sent to the servos, a save requested. -/
def poseAccepted (p : Fin NUM_POSES) (fields : List Str) (s : State) : State :=
  let cfg := applyFields p fields 0 s.currentConfig
  { s with
    currentConfig := { cfg with currentPose := (p.val : Int) }
    servoWrites := s.servoWrites ++
      (List.finRange NUM_SERVOS).map
        (fun i => (i, constrain ((cfg.poses p).servos i).position 0 180))
    needsSave := true }

/-- The text `POSE:<p>:<field>:...:<field>`. -/
def poseCommand (p : Int) (fields : List Str) : Str :=
  "POSE:".toList ++ (decimal p ++ ':' :: joinFields fields)

/-- The text `POSE:<p>:<a 0>:...:<a 7>`, all numbers in decimal. -/
def fullPoseCommand (p : Fin NUM_POSES) (a : Fin NUM_SERVOS → Int) : Str :=
  poseCommand p.val ((List.finRange NUM_SERVOS).map fun (i : Fin NUM_SERVOS) => decimal (a i))

/-- The text `SERVO:<i>:<v>`. -/
def servoCommand (i v : Int) : Str :=
  "SERVO:".toList ++ (decimal i ++ ':' :: decimal v)

/-- The result of `handleServoCommand` on an accepted command for channel `i` of the
current pose `p`. -/
def servoAccepted (p : Fin NUM_POSES) (i : Fin NUM_SERVOS) (position : Int) (s : State) :
    State :=
  { s with
    currentConfig := s.currentConfig.setPosition p i position
    servoWrites := s.servoWrites ++ [(i, position)]
    needsSave := true }

/-- `setup()`, as far as the configuration and the servos are concerned: `loadConfig`,
the initial `write(90)` to every servo, then `updateServos`.  It starts from the
initial values of the globals and the store content `prefs`. -/
def setup (prefs : Preferences) : State :=
  updateServos
    { currentConfig := loadConfig prefs Config.new
      needsSave := false
      lastSaveTime := 0
      preferences := prefs
      servoWrites := (List.finRange NUM_SERVOS).map fun i => (i, (90 : Int))
      notifications := []
      storageWrites := [] }

/-- An empty store. -/
def emptyPreferences : Preferences := fun _ => none

/-- The invariant `0 ≤ currentPose < NUM_POSES`. -/
def Config.poseInRange (cfg : Config) : Prop :=
  0 ≤ cfg.currentPose ∧ cfg.currentPose < NUM_POSES

/-- Every stored position is within `[0, 180]`. -/
def Config.positionsInRange (cfg : Config) : Prop :=
  ∀ (i : Fin NUM_POSES) (j : Fin NUM_SERVOS),
    0 ≤ ((cfg.poses i).servos j).position ∧ ((cfg.poses i).servos j).position ≤ 180

instance (cfg : Config) : Decidable cfg.poseInRange := by
  unfold Config.poseInRange; infer_instance

/-! ## Executions -/

/-- What the firmware reacts to: a write to the characteristic, or one iteration of
`loop()` whose two readings of `millis()` happen at real times `t1` and `t2`. -/
inductive Event where
  | write (value : List Char)
  | loop (t1 t2 : Nat)

/-- One event. -/
def step (e : Event) (s : State) : Option State :=
  match e with
  | Event.write value => onWrite value s
  | Event.loop t1 t2 => some (loop t1 t2 s)

/-- A sequence of events, oldest first. -/
def run : List Event → State → Option State
  | [], s => some s
  | e :: es, s => (step e s).bind (run es)

/-- The clock readings of the events never go back: they start at `t` or later, and
in an iteration of `loop()` the reading of `saveConfig` follows that of the test. -/
def clockOrdered : Nat → List Event → Prop
  | _, [] => True
  | t, Event.write _ :: es => clockOrdered t es
  | t, Event.loop t1 t2 :: es => t ≤ t1 ∧ t1 ≤ t2 ∧ clockOrdered t2 es

/-- The storage writes logged so far are `SAVE_INTERVAL` apart, none is later than
`t`, and `lastSaveTime` is the clock value of the latest one. -/
def SaveInv (t : Nat) (s : State) : Prop :=
  List.Pairwise (fun a b => a + SAVE_INTERVAL ≤ b) s.storageWrites ∧
  (s.storageWrites = [] ∨
    ∃ last, s.lastSaveTime = last % 2 ^ 32 ∧ last ≤ t ∧ ∀ w ∈ s.storageWrites, w ≤ last)

end IronManMask

namespace IronManMask

/-! ## The persistence scheduler of the specification -/

/-- The difference `now - last` of two clock values, as `unsigned long` arithmetic
computes it. -/
def elapsed32 (now last : Nat) : Nat := (now + 2 ^ 32 - last) % 2 ^ 32

/-- The two variables of the scheduler. -/
structure Scheduler where
  needsSave : Bool
  lastSaveTime : Nat
deriving DecidableEq

/-- The transition `tick(now)` of the specification: the new scheduler state, and
whether the store is to be written now. -/
def tick (now : Nat) (sch : Scheduler) : Scheduler × Bool :=
  if sch.needsSave = true ∧ elapsed32 now sch.lastSaveTime ≥ 5000 then
    ({ needsSave := false, lastSaveTime := now }, true)
  else (sch, false)

/-! ## Numeric fields -/

/-- Where the digits of a field are looked for: the field without its leading white
space and without one sign after it. -/
def digitsPart (f : Str) : Str :=
  match f.dropWhile isSpace with
  | '-' :: r => r
  | '+' :: r => r
  | r => r

/-- The field does not begin with an integer: after its leading white space and an
optional sign it is empty or goes on with something else than a digit. -/
def noLeadingInteger (f : Str) : Bool :=
  match digitsPart f with
  | [] => true
  | c :: _ => !c.isDigit

/-- The sign of a written integer: `-`, `+` or nothing. -/
def signText (neg plus : Bool) : Str :=
  if neg then ['-'] else if plus then ['+'] else []

/-- A field that begins with an integer: white space `ws`, a sign, `k` zeros, the
decimal digits of `n`, then `rest`. -/
def integerText (ws : Str) (neg plus : Bool) (k n : Nat) (rest : Str) : Str :=
  ws ++ (signText neg plus ++ (List.replicate k '0' ++ (fmtInt n ++ rest)))

/-- The integer written by `integerText`. -/
def integerValue (neg : Bool) (n : Nat) : Int :=
  if neg then -(n : Int) else (n : Int)

/-- The parts of an `integerText` are what they are meant to be: `ws` is white space
and `rest` does not go on with a digit. -/
def IntegerParts (ws rest : Str) : Prop :=
  (∀ c ∈ ws, isSpace c = true) ∧ (∀ c, rest.head? = some c → c.isDigit = false)

/-! ## The assignments of `handlePoseCommand` -/

/-- The assignments made by the `while` loop of `handlePoseCommand`, in order: at each
iteration the value of `servoIndex` and the position assigned to
`servos[servoIndex]`. -/
def poseLoopWrites (positionsStr : Str) : Nat → Nat → Int → List (Nat × Int)
  | 0, _, _ => []
  | fuel + 1, servoIndex, lastColon =>
    if servoIndex < NUM_SERVOS then
      let nextColon := indexOf positionsStr ':' lastColon.toNat
      let positionStr :=
        if nextColon = -1 then substringFrom positionsStr lastColon.toNat
        else substring positionsStr lastColon.toNat nextColon.toNat
      let position := toInt positionStr
      let position := constrain position 0 180
      (servoIndex, position) ::
        (if nextColon = -1 then []
          else poseLoopWrites positionsStr fuel (servoIndex + 1) (nextColon + 1))
    else []

/-- The array elements `poses[poseIndex].servos[servoIndex]` that
`handlePoseCommand(command)` assigns, as the pairs `(poseIndex, servoIndex)` of the
values the two variables have at each assignment. -/
def poseWriteTargets (command : Str) : List (Int × Nat) :=
  let firstColon := indexOf command ':' 0
  if firstColon = -1 then []
  else
    let secondColon := indexOf command ':' (firstColon + 1).toNat
    if secondColon = -1 then []
    else
      let poseIndex := toInt (substring command (firstColon + 1).toNat secondColon.toNat)
      if poseIndex < 0 ∨ poseIndex ≥ NUM_POSES then []
      else
        let positionsStr := substringFrom command (secondColon + 1).toNat
        (poseLoopWrites positionsStr NUM_SERVOS 0 0).map fun w => (poseIndex, w.1)

/-- The assignments `ws` applied in order to pose `p`. -/
def applyWrites (p : Fin NUM_POSES) : List (Nat × Int) → Config → Config
  | [], cfg => cfg
  | w :: ws, cfg =>
    if h : w.1 < NUM_SERVOS then applyWrites p ws (cfg.setPosition p ⟨w.1, h⟩ w.2)
    else applyWrites p ws cfg

/-- The value that the assignments `ws` leave in channel `j`, if they assign it. -/
def lastWrite : List (Nat × Int) → Nat → Option Int
  | [], _ => none
  | w :: ws, j =>
    match lastWrite ws j with
    | some v => some v
    | none => if w.1 = j then some w.2 else none

/-! ## A storage fault during `saveConfig` -/

/-- The `putInt` and `putString` calls of the `try` block of `saveConfig`, in program
order, each as the key and the value it writes. -/
def saveOps (cfg : Config) : List (Str × PrefValue) :=
  (keyCurrentPose, PrefValue.int cfg.currentPose) ::
    (List.finRange NUM_POSES).flatMap fun (poseIndex : Fin NUM_POSES) =>
      (keyName poseIndex, PrefValue.str (cfg.poses poseIndex).name) ::
        (List.finRange NUM_SERVOS).map fun (servoIndex : Fin NUM_SERVOS) =>
          (keyPos poseIndex servoIndex,
            PrefValue.int ((cfg.poses poseIndex).servos servoIndex).position)

/-- The store after the writes `ops`. -/
def applyOps (ops : List (Str × PrefValue)) (prefs : Preferences) : Preferences :=
  ops.foldl (fun pr op => Function.update pr op.1 (some op.2)) prefs

/-- `saveConfig()` at real time `t` when the store raises a fault in call number `k`
of the `try` block (counted from 0): the calls before it have written the store, the
`catch (...)` block takes the fault and the function returns.  `needsSave` and
`lastSaveTime` were assigned before the `try` block.  The pass did not complete and is
not logged in `storageWrites`. -/
def saveConfigFault (t k : Nat) (s : State) : State :=
  let currentTime := t % 2 ^ 32
  let s := { s with needsSave := true }
  if (currentTime + 2 ^ 32 - s.lastSaveTime) % 2 ^ 32 < SAVE_INTERVAL then s
  else
    { s with
      needsSave := false
      lastSaveTime := currentTime
      preferences := applyOps ((saveOps s.currentConfig).take k) s.preferences }

/-- The persistence test of `loop()` when the store raises a fault in call number `k`
of the `try` block of `saveConfig`. -/
def loopFault (t1 t2 k : Nat) (s : State) : State :=
  if s.needsSave && decide ((t1 % 2 ^ 32 + 2 ^ 32 - s.lastSaveTime) % 2 ^ 32 ≥ SAVE_INTERVAL)
  then saveConfigFault t2 k s
  else s

/-! ## The `GET_CONFIG` snapshot -/

/-- The snapshot the response to `GET_CONFIG` is specified to be: `currentPose`, and the
list of the 8 poses, each with its name and the list of its 8 servo positions. -/
def fullSnapshot (cfg : Config) : ConfigJson :=
  { currentPose := some cfg.currentPose
    poses := some ((List.finRange NUM_POSES).map fun (poseIndex : Fin NUM_POSES) =>
      { name := some (some (cfg.poses poseIndex).name)
        servos := some ((List.finRange NUM_SERVOS).map fun (servoIndex : Fin NUM_SERVOS) =>
          { position := some ((cfg.poses poseIndex).servos servoIndex).position }) }) }

/-- Bytes of the texts of a full snapshot: each name with its terminator. -/
def nameBytes (cfg : Config) : Nat :=
  ((List.finRange NUM_POSES).map fun (poseIndex : Fin NUM_POSES) =>
    (cfg.poses poseIndex).name.length + 1).sum

/-- Slots of one servo entry of a document: the element, and its member when present. -/
def ServoJson.slots (e : ServoJson) : Nat :=
  1 + (if e.position.isSome then 1 else 0)

/-- Slots of a list of servo entries. -/
def servosSlots (l : List ServoJson) : Nat :=
  (l.map ServoJson.slots).sum

/-- Slots of the member `name`. -/
def nameSlots (name : Option (Option Str)) : Nat :=
  if name.isSome then 1 else 0

/-- Slots of the member `servos` with its elements. -/
def servosMemberSlots (servos : Option (List ServoJson)) : Nat :=
  match servos with
  | none => 0
  | some l => 1 + servosSlots l

/-- Slots of one pose entry of a document. -/
def PoseJson.slots (p : PoseJson) : Nat :=
  1 + nameSlots p.name + servosMemberSlots p.servos

/-- Slots of a list of pose entries. -/
def posesSlots (l : List PoseJson) : Nat :=
  (l.map PoseJson.slots).sum

/-- A pose entry with the specified servo list: exactly 8 entries, each carrying a
position. -/
def PoseJson.hasAllEntries (p : PoseJson) : Bool :=
  match p.servos with
  | none => false
  | some sv => decide (sv.length = NUM_SERVOS) && sv.all fun e => e.position.isSome

/-- A document with the specified shape: a list of exactly 8 poses, each with a list
of exactly 8 servo entries that carry a position. -/
def ConfigJson.hasAllEntries (doc : ConfigJson) : Bool :=
  match doc.poses with
  | none => false
  | some l => decide (l.length = NUM_POSES) && l.all PoseJson.hasAllEntries

end IronManMask

namespace IronManMask

/-! ## Lemmas on the string primitives -/

theorem strchr_append_of_not_mem (ch : Char) (f rest : Str) (hf : ch ∉ f) :
    strchr ch (f ++ ch :: rest) = some f.length := by
  induction f with
  | nil => simp [strchr]
  | cons c cs ih =>
    have hc : c ≠ ch := fun h => hf (by simp [h])
    have hcs : ch ∉ cs := fun h => hf (by simp [h])
    simp [strchr, hc, ih hcs]

theorem strchr_of_not_mem (ch : Char) (f : Str) (hf : ch ∉ f) : strchr ch f = none := by
  induction f with
  | nil => simp [strchr]
  | cons c cs ih =>
    have hc : c ≠ ch := fun h => hf (by simp [h])
    have hcs : ch ∉ cs := fun h => hf (by simp [h])
    simp [strchr, hc, ih hcs]

theorem indexOf_found (ch : Char) (pre f rest : Str) (hf : ch ∉ f) :
    indexOf (pre ++ (f ++ ch :: rest)) ch pre.length = ((pre.length + f.length : Nat) : Int) := by
  unfold indexOf
  have h1 : ¬ pre.length ≥ (pre ++ (f ++ ch :: rest)).length := by
    simp
  rw [if_neg h1, List.drop_left, strchr_append_of_not_mem ch f rest hf]

theorem indexOf_not_found (ch : Char) (pre f : Str) (hf : ch ∉ f) :
    indexOf (pre ++ f) ch pre.length = -1 := by
  unfold indexOf
  split
  · rfl
  · rw [List.drop_left, strchr_of_not_mem ch f hf]

theorem substring_middle (pre f rest : Str) :
    substring (pre ++ (f ++ rest)) pre.length (pre.length + f.length) = f := by
  unfold substring
  have h1 : ¬ pre.length > pre.length + f.length := by omega
  simp only [if_neg h1]
  by_cases hl : pre.length ≥ (pre ++ (f ++ rest)).length
  · simp only [if_pos hl]
    simp only [List.length_append] at hl
    have : f.length = 0 := by omega
    exact (List.length_eq_zero.mp this).symm
  · simp only [if_neg hl]
    have h2 : ¬ pre.length + f.length > (pre ++ (f ++ rest)).length := by
      simp only [List.length_append]; omega
    simp only [if_neg h2, List.drop_left, Nat.add_sub_cancel_left, List.take_left]

theorem substringFrom_suffix (pre rest : Str) :
    substringFrom (pre ++ rest) pre.length = rest := by
  unfold substringFrom substring
  have h1 : ¬ pre.length > (pre ++ rest).length := by simp
  simp only [if_neg h1]
  by_cases hl : pre.length ≥ (pre ++ rest).length
  · simp only [if_pos hl]
    simp only [List.length_append] at hl
    have : rest.length = 0 := by omega
    exact (List.length_eq_zero.mp this).symm
  · simp only [if_neg hl, lt_self_iff_false, if_false, List.drop_left]
    simp

end IronManMask

namespace IronManMask

/-! ## Decimal texts and `toInt` -/

theorem toDigitsCore_append (fuel : Nat) : ∀ (n : Nat) (ds : List Char), n < fuel →
    Nat.toDigitsCore 10 fuel n ds = Nat.toDigitsCore 10 fuel n [] ++ ds := by
  induction fuel with
  | zero => intro n ds h; omega
  | succ fuel ih =>
    intro n ds h
    simp only [Nat.toDigitsCore]
    by_cases h0 : n / 10 = 0
    · simp [h0]
    · have hlt : n / 10 < fuel := by omega
      simp only [if_neg h0]
      rw [ih (n / 10) (Nat.digitChar (n % 10) :: ds) hlt, ih (n / 10) [Nat.digitChar (n % 10)] hlt]
      simp

theorem toDigitsCore_fuel (fuel : Nat) : ∀ (fuel2 n : Nat), n < fuel → n < fuel2 →
    Nat.toDigitsCore 10 fuel n [] = Nat.toDigitsCore 10 fuel2 n [] := by
  induction fuel with
  | zero => intro fuel2 n h; omega
  | succ fuel ih =>
    intro fuel2 n h h2
    cases fuel2 with
    | zero => omega
    | succ fuel2 =>
      simp only [Nat.toDigitsCore]
      by_cases h0 : n / 10 = 0
      · simp [h0]
      · have hlt : n / 10 < fuel := by omega
        have hlt2 : n / 10 < fuel2 := by omega
        simp only [if_neg h0]
        rw [toDigitsCore_append fuel _ _ hlt, toDigitsCore_append fuel2 _ _ hlt2,
          ih fuel2 (n / 10) hlt hlt2]

theorem fmtInt_small (n : Nat) (h : n < 10) : fmtInt n = [Nat.digitChar n] := by
  have h0 : n / 10 = 0 := by omega
  have hm : n % 10 = n := by omega
  simp [fmtInt, Nat.repr, Nat.toDigits, Nat.toDigitsCore, List.asString, h0, hm]

theorem fmtInt_eq_core (n : Nat) : fmtInt n = Nat.toDigitsCore 10 (n + 1) n [] := rfl

theorem fmtInt_step (n : Nat) (h : 10 ≤ n) :
    fmtInt n = fmtInt (n / 10) ++ [Nat.digitChar (n % 10)] := by
  have h0 : ¬ n / 10 = 0 := by omega
  rw [fmtInt_eq_core n, fmtInt_eq_core (n / 10)]
  conv_lhs => rw [Nat.toDigitsCore]
  simp only [if_neg h0]
  rw [toDigitsCore_append n _ _ (by omega),
    toDigitsCore_fuel n (n / 10 + 1) (n / 10) (by omega) (by omega)]

theorem digitChar_isDigit (d : Nat) (h : d < 10) :
    (Nat.digitChar d).isDigit = true ∧ (Nat.digitChar d).toNat - 48 = d := by
  interval_cases d <;> decide

theorem digitChar_ne (d : Nat) (h : d < 10) (c : Char) (hc : c.isDigit = false) :
    Nat.digitChar d ≠ c := by
  intro he
  rw [← he, (digitChar_isDigit d h).1] at hc
  exact Bool.noConfusion hc

theorem fmtInt_isDigit (n : Nat) : ∀ c ∈ fmtInt n, c.isDigit = true := by
  induction n using Nat.strong_induction_on with
  | _ n ih =>
    by_cases h : n < 10
    · rw [fmtInt_small n h]
      intro c hc
      rw [List.mem_singleton] at hc
      rw [hc]; exact (digitChar_isDigit n h).1
    · rw [fmtInt_step n (by omega)]
      intro c hc
      rcases List.mem_append.mp hc with hc | hc
      · exact ih (n / 10) (by omega) c hc
      · rw [List.mem_singleton] at hc
        rw [hc]; exact (digitChar_isDigit (n % 10) (by omega)).1

theorem fmtInt_ne_nil (n : Nat) : fmtInt n ≠ [] := by
  by_cases h : n < 10
  · rw [fmtInt_small n h]; simp
  · rw [fmtInt_step n (by omega)]; simp

theorem digitsValue_fmtInt (n : Nat) : ∀ rest : Str,
    digitsValue (fmtInt n ++ rest) 0 = digitsValue rest n := by
  induction n using Nat.strong_induction_on with
  | _ n ih =>
    intro rest
    by_cases h : n < 10
    · rw [fmtInt_small n h]
      simp [digitsValue, (digitChar_isDigit n h).1, (digitChar_isDigit n h).2]
    · rw [fmtInt_step n (by omega), List.append_assoc, ih (n / 10) (by omega)]
      have hd := digitChar_isDigit (n % 10) (by omega)
      simp only [List.singleton_append, digitsValue, hd.1, hd.2, if_true]
      congr 1
      omega

theorem digitsValue_stop (rest : Str) (acc : Nat)
    (h : ∀ c, rest.head? = some c → c.isDigit = false) : digitsValue rest acc = acc := by
  cases rest with
  | nil => rfl
  | cons c cs => simp [digitsValue, h c rfl]

theorem fmtInt_head (n : Nat) : ∃ c cs, fmtInt n = c :: cs ∧ c.isDigit = true := by
  cases hf : fmtInt n with
  | nil => exact absurd hf (fmtInt_ne_nil n)
  | cons c cs =>
    exact ⟨c, cs, rfl, fmtInt_isDigit n c (by rw [hf]; simp)⟩

/-- A digit is neither white space nor a sign. -/
theorem isDigit_facts (c : Char) (h : c.isDigit = true) :
    isSpace c = false ∧ c ≠ '-' ∧ c ≠ '+' ∧ c ≠ ':' ∧ c.toNat ≠ 0 := by
  simp only [Char.isDigit, Bool.and_eq_true, decide_eq_true_eq] at h
  have h1 : 48 ≤ c.toNat := by
    have := h.1
    rw [ge_iff_le, UInt32.le_def] at this
    simpa [Char.toNat, UInt32.toNat] using this
  have h2 : c.toNat ≤ 57 := by
    have := h.2
    rw [UInt32.le_def] at this
    simpa [Char.toNat, UInt32.toNat] using this
  refine ⟨?_, ?_, ?_, ?_, by omega⟩
  · simp only [isSpace, Bool.or_eq_false_iff, decide_eq_false_iff_not, Bool.and_eq_false_imp,
      decide_eq_true_eq]
    omega
  · rintro rfl; revert h1; decide
  · rintro rfl; revert h1; decide
  · rintro rfl; revert h2; decide

theorem toInt_fmtInt_append (n : Nat) (rest : Str)
    (h : ∀ c, rest.head? = some c → c.isDigit = false) :
    toInt (fmtInt n ++ rest) = saturate n := by
  obtain ⟨c, cs, hcs, hd⟩ := fmtInt_head n
  have hf := isDigit_facts c hd
  have hv : digitsValue (c :: (cs ++ rest)) 0 = n := by
    have := digitsValue_fmtInt n rest
    rw [hcs] at this
    rw [List.cons_append] at this
    rw [this, digitsValue_stop rest n h]
  unfold toInt
  rw [hcs, List.cons_append, List.dropWhile_cons, hf.1]
  simp only [Bool.false_eq_true, if_false]
  split
  · next heq => exact absurd (List.cons.inj heq).1 hf.2.1
  · next heq => exact absurd (List.cons.inj heq).1 hf.2.2.1
  · rw [hv]

theorem toInt_neg_fmtInt_append (n : Nat) (rest : Str)
    (h : ∀ c, rest.head? = some c → c.isDigit = false) :
    toInt ('-' :: (fmtInt n ++ rest)) = saturate (-(n : Int)) := by
  have hv : digitsValue (fmtInt n ++ rest) 0 = n := by
    rw [digitsValue_fmtInt n rest, digitsValue_stop rest n h]
  unfold toInt
  have hs : isSpace '-' = false := by decide
  rw [List.dropWhile_cons, hs]
  simp only [Bool.false_eq_true, if_false]
  rw [hv]

theorem toInt_decimal_append (a : Int) (rest : Str)
    (h : ∀ c, rest.head? = some c → c.isDigit = false) :
    toInt (decimal a ++ rest) = saturate a := by
  unfold decimal
  by_cases ha : a < 0
  · rw [if_pos ha, List.cons_append, toInt_neg_fmtInt_append _ _ h]
    congr 1; omega
  · rw [if_neg ha, toInt_fmtInt_append _ _ h]
    congr 1; omega

theorem toInt_decimal (a : Int) : toInt (decimal a) = saturate a := by
  have := toInt_decimal_append a [] (by simp)
  simpa using this

theorem decimal_no_colon (a : Int) : ':' ∉ decimal a := by
  unfold decimal
  intro hm
  have key : ':' ∉ fmtInt a.natAbs := fun h =>
    (isDigit_facts ':' (fmtInt_isDigit _ _ h)).2.2.2.1 rfl
  split at hm
  · rcases List.mem_cons.mp hm with h | h
    · revert h; decide
    · exact key h
  · exact key hm

theorem constrain_saturate (a : Int) : constrain (saturate a) 0 180 = constrain a 0 180 := by
  unfold constrain saturate
  split_ifs <;> omega

theorem saturate_small (a : Int) (h1 : -2147483648 ≤ a) (h2 : a ≤ 2147483647) :
    saturate a = a := by
  unfold saturate
  split_ifs <;> omega

end IronManMask

namespace IronManMask

/-! ## The field loop of `handlePoseCommand` -/

theorem poseLoop_zero (positionsStr : Str) (p : Fin NUM_POSES) (k : Nat) (lastColon : Int)
    (cfg : Config) : poseLoop positionsStr p 0 k lastColon cfg = cfg := rfl

theorem poseLoop_done (positionsStr : Str) (p : Fin NUM_POSES) (fuel k : Nat) (lastColon : Int)
    (cfg : Config) (hk : ¬ k < NUM_SERVOS) :
    poseLoop positionsStr p fuel k lastColon cfg = cfg := by
  cases fuel with
  | zero => rfl
  | succ fuel => simp only [poseLoop, dif_neg hk]

theorem poseLoop_last (pre f : Str) (p : Fin NUM_POSES) (fuel k : Nat) (cfg : Config)
    (hf : ':' ∉ f) (hk : k < NUM_SERVOS) :
    poseLoop (pre ++ f) p (fuel + 1) k (pre.length : Int) cfg =
      cfg.setPosition p ⟨k, hk⟩ (constrain (toInt f) 0 180) := by
  simp only [poseLoop, dif_pos hk, Int.toNat_ofNat, indexOf_not_found ':' pre f hf,
    substringFrom_suffix, if_true]

theorem poseLoop_more (pre f rest : Str) (p : Fin NUM_POSES) (fuel k : Nat) (cfg : Config)
    (hf : ':' ∉ f) (hk : k < NUM_SERVOS) :
    poseLoop (pre ++ (f ++ ':' :: rest)) p (fuel + 1) k (pre.length : Int) cfg =
      poseLoop (pre ++ (f ++ ':' :: rest)) p fuel (k + 1)
        (((pre ++ (f ++ [':'])).length : Nat) : Int)
        (cfg.setPosition p ⟨k, hk⟩ (constrain (toInt f) 0 180)) := by
  have hne : ¬ (((pre.length + f.length : Nat) : Int) = -1) := by omega
  have hlen : (((pre.length + f.length : Nat) : Int) + 1) =
      (((pre ++ (f ++ [':'])).length : Nat) : Int) := by
    simp only [List.length_append, List.length_singleton]; push_cast; ring
  simp only [poseLoop, dif_pos hk, Int.toNat_ofNat, indexOf_found ':' pre f rest hf, if_neg hne,
    substring_middle, hlen]

theorem poseLoop_join (p : Fin NUM_POSES) : ∀ (fields : List Str), fields ≠ [] →
    (∀ f ∈ fields, ':' ∉ f) → ∀ (pre : Str) (fuel k : Nat) (cfg : Config),
    NUM_SERVOS ≤ fuel + k →
    poseLoop (pre ++ joinFields fields) p fuel k (pre.length : Int) cfg =
      applyFields p fields k cfg := by
  intro fields
  induction fields with
  | nil => intro h; exact absurd rfl h
  | cons f fs ih =>
    intro _ hcol pre fuel k cfg hfuel
    have hf : ':' ∉ f := hcol f (by simp)
    by_cases hk : k < NUM_SERVOS
    · obtain ⟨fuel, rfl⟩ : ∃ m, fuel = m + 1 := ⟨fuel - 1, by omega⟩
      cases fs with
      | nil =>
        simp only [joinFields, applyFields, dif_pos hk]
        exact poseLoop_last pre f p fuel k cfg hf hk
      | cons g rest =>
        simp only [joinFields]
        rw [poseLoop_more pre f _ p fuel k cfg hf hk]
        have hsplit : pre ++ (f ++ ':' :: joinFields (g :: rest)) =
            (pre ++ (f ++ [':'])) ++ joinFields (g :: rest) := by simp
        rw [hsplit, ih (by simp) (fun x hx => hcol x (by simp [hx])) _ fuel (k + 1) _ (by omega)]
        simp only [applyFields, dif_pos hk]
    · rw [poseLoop_done _ p fuel k _ cfg hk]
      simp only [applyFields, dif_neg hk]

/-! ## Effect of `applyFields` -/

theorem setPosition_currentPose (cfg : Config) (p : Fin NUM_POSES) (i : Fin NUM_SERVOS) (v : Int) :
    (cfg.setPosition p i v).currentPose = cfg.currentPose := rfl

theorem setPosition_name (cfg : Config) (p q : Fin NUM_POSES) (i : Fin NUM_SERVOS) (v : Int) :
    ((cfg.setPosition p i v).poses q).name = (cfg.poses q).name := by
  unfold Config.setPosition
  by_cases h : q = p
  · subst h; simp
  · simp [Function.update_noteq h]

theorem setPosition_position (cfg : Config) (p q : Fin NUM_POSES) (i j : Fin NUM_SERVOS)
    (v : Int) :
    (((cfg.setPosition p i v).poses q).servos j).position =
      if q = p ∧ j = i then v else ((cfg.poses q).servos j).position := by
  unfold Config.setPosition
  by_cases h : q = p
  · subst h
    by_cases hj : j = i
    · subst hj; simp
    · simp [Function.update_noteq hj, hj]
  · simp [Function.update_noteq h, h]

theorem applyFields_currentPose (p : Fin NUM_POSES) : ∀ (fields : List Str) (k : Nat)
    (cfg : Config), (applyFields p fields k cfg).currentPose = cfg.currentPose := by
  intro fields
  induction fields with
  | nil => intro k cfg; rfl
  | cons f fs ih =>
    intro k cfg
    simp only [applyFields]
    split
    · rw [ih, setPosition_currentPose]
    · rfl

theorem applyFields_name (p q : Fin NUM_POSES) : ∀ (fields : List Str) (k : Nat)
    (cfg : Config), ((applyFields p fields k cfg).poses q).name = (cfg.poses q).name := by
  intro fields
  induction fields with
  | nil => intro k cfg; rfl
  | cons f fs ih =>
    intro k cfg
    simp only [applyFields]
    split
    · rw [ih, setPosition_name]
    · rfl

/-- Channel `j` of pose `q` after `applyFields p fields k`: the clamped value of field
`j - k` when `q = p` and that field exists, the old value otherwise. -/
theorem applyFields_position (p q : Fin NUM_POSES) (j : Fin NUM_SERVOS) :
    ∀ (fields : List Str) (k : Nat) (cfg : Config),
    (((applyFields p fields k cfg).poses q).servos j).position =
      if q = p ∧ k ≤ j.val then
        match fields.get? (j.val - k) with
        | some f => constrain (toInt f) 0 180
        | none => ((cfg.poses q).servos j).position
      else ((cfg.poses q).servos j).position := by
  intro fields
  induction fields with
  | nil => intro k cfg; simp [applyFields]
  | cons f fs ih =>
    intro k cfg
    simp only [applyFields]
    by_cases hk : k < NUM_SERVOS
    · rw [dif_pos hk, ih, setPosition_position]
      by_cases hq : q = p
      · subst hq
        by_cases hjk : j.val = k
        · have h1 : ¬ (k + 1 ≤ j.val) := by omega
          have h2 : j = ⟨k, hk⟩ := Fin.ext hjk
          simp [h1, h2]
        · have h2 : ¬ (j = ⟨k, hk⟩) := fun h => hjk (by rw [h])
          by_cases hle : k ≤ j.val
          · have h1 : k + 1 ≤ j.val := by omega
            have h3 : j.val - k = (j.val - (k + 1)) + 1 := by omega
            simp [h1, h2, hle, h3]
          · have h1 : ¬ (k + 1 ≤ j.val) := by omega
            simp [h1, h2, hle]
      · simp [hq]
    · rw [dif_neg hk]
      have : ¬ (k ≤ j.val) := by have := j.isLt; omega
      simp [this]

end IronManMask

namespace IronManMask

/-! ## `updateServos` -/

/-- The angles `updateServos` sends for pose `p` of `cfg`, in channel order. -/
theorem updateServos_fold (cfg : Config) (p : Fin NUM_POSES) :
    ∀ (l : List (Fin NUM_SERVOS)) (s : State), s.currentConfig = cfg →
    l.foldl
      (fun s (i : Fin NUM_SERVOS) =>
        let position := ((s.currentConfig.poses p).servos i).position
        let position := constrain position 0 180
        { s with servoWrites := s.servoWrites ++ [(i, position)] }) s =
    { s with servoWrites := s.servoWrites ++
        l.map (fun i => (i, constrain ((cfg.poses p).servos i).position 0 180)) } := by
  intro l
  induction l with
  | nil => intro s _; simp
  | cons i l ih =>
    intro s hs
    rw [List.foldl_cons, ih _ (by simpa using hs)]
    simp [hs, List.append_assoc]

theorem updateServos_inRange (s : State) (p : Fin NUM_POSES)
    (hp : s.currentConfig.currentPose = (p.val : Int)) :
    updateServos s =
      { s with
        servoWrites := s.servoWrites ++
          (List.finRange NUM_SERVOS).map
            (fun i => (i, constrain ((s.currentConfig.poses p).servos i).position 0 180)) } := by
  unfold updateServos
  have hlt : p.val < 8 := p.isLt
  have h : ¬ (s.currentConfig.currentPose < 0 ∨ s.currentConfig.currentPose ≥ NUM_POSES) := by
    rw [hp]; simp only [NUM_POSES]; omega
  simp only [dif_neg h]
  have hfin : (⟨s.currentConfig.currentPose.toNat, by omega⟩ : Fin NUM_POSES) = p := by
    apply Fin.ext; simp [hp]
  rw [hfin]
  exact updateServos_fold s.currentConfig p _ s rfl

theorem updateServos_outOfRange (s : State)
    (h : s.currentConfig.currentPose < 0 ∨ s.currentConfig.currentPose ≥ NUM_POSES) :
    updateServos s = s := by
  unfold updateServos
  simp only [dif_pos h]

/-! ## Commands with a well-formed header -/

theorem pose_header : "POSE:".toList = ['P', 'O', 'S', 'E'] ++ [':'] := rfl

theorem servo_header : "SERVO:".toList = ['S', 'E', 'R', 'V', 'O'] ++ [':'] := rfl

theorem handlePoseCommand_header (P rest : Str) (s : State) (hP : ':' ∉ P) :
    handlePoseCommand ("POSE:".toList ++ (P ++ ':' :: rest)) s =
      if h : toInt P < 0 ∨ toInt P ≥ NUM_POSES then s
      else
        { updateServos
            { s with
              currentConfig :=
                { poseLoop rest ⟨(toInt P).toNat, by omega⟩ NUM_SERVOS 0 0 s.currentConfig with
                  currentPose := toInt P } } with
          needsSave := true } := by
  have e1 : "POSE:".toList ++ (P ++ ':' :: rest) =
      [] ++ (['P', 'O', 'S', 'E'] ++ ':' :: (P ++ ':' :: rest)) := rfl
  have e2 : "POSE:".toList ++ (P ++ ':' :: rest) =
      ['P', 'O', 'S', 'E', ':'] ++ (P ++ ':' :: rest) := rfl
  have e3 : "POSE:".toList ++ (P ++ ':' :: rest) =
      (['P', 'O', 'S', 'E', ':'] ++ (P ++ [':'])) ++ rest := by
    rw [e2]; simp
  have h1 : indexOf ("POSE:".toList ++ (P ++ ':' :: rest)) ':' 0 = 4 := by
    rw [e1]
    exact indexOf_found ':' [] ['P', 'O', 'S', 'E'] _ (by decide)
  have h2 : indexOf ("POSE:".toList ++ (P ++ ':' :: rest)) ':' 5 = ((5 + P.length : Nat) : Int) := by
    rw [e2]
    exact indexOf_found ':' ['P', 'O', 'S', 'E', ':'] P rest hP
  have h3 : substring ("POSE:".toList ++ (P ++ ':' :: rest)) 5 (5 + P.length) = P := by
    rw [e2]
    exact substring_middle ['P', 'O', 'S', 'E', ':'] P (':' :: rest)
  have h4 : substringFrom ("POSE:".toList ++ (P ++ ':' :: rest)) (P.length + 6) = rest := by
    rw [e3]
    have := substringFrom_suffix (['P', 'O', 'S', 'E', ':'] ++ (P ++ [':'])) rest
    simpa using this
  have h5 : ((4 : Int) + 1).toNat = 5 := rfl
  have h6 : (((5 + P.length : Nat) : Int) + 1).toNat = P.length + 6 := by omega
  have h7 : ¬ ((4 : Int) = -1) := by decide
  have h8 : ¬ (((5 + P.length : Nat) : Int) = -1) := by omega
  unfold handlePoseCommand
  simp only [h1, h5, h2, h6, h3, h4, h7, h8, if_false, Int.toNat_ofNat]

end IronManMask

namespace IronManMask

theorem handlePoseCommand_accept (p : Fin NUM_POSES) (P : Str) (fields : List Str) (s : State)
    (hP : ':' ∉ P) (hv : toInt P = (p.val : Int)) (hne : fields ≠ [])
    (hcol : ∀ f ∈ fields, ':' ∉ f) :
    handlePoseCommand ("POSE:".toList ++ (P ++ ':' :: joinFields fields)) s =
      poseAccepted p fields s := by
  have hlt : p.val < 8 := p.isLt
  have hr : ¬ (toInt P < 0 ∨ toInt P ≥ NUM_POSES) := by
    rw [hv]; simp only [NUM_POSES]; omega
  rw [handlePoseCommand_header P _ s hP, dif_neg hr]
  have hfin : (⟨(toInt P).toNat, by simp only [NUM_POSES] at hr; omega⟩ : Fin NUM_POSES) = p := by
    apply Fin.ext; simp [hv]
  have hloop := poseLoop_join p fields hne hcol [] NUM_SERVOS 0 s.currentConfig (by simp)
  simp only [List.nil_append, List.length_nil, Nat.cast_zero] at hloop
  rw [hfin, hloop, updateServos_inRange _ p (by simp [hv])]
  simp [poseAccepted, hv]

theorem decimal_index (p : Fin 8) : toInt (decimal (p.val : Int)) = (p.val : Int) := by
  rw [toInt_decimal, saturate_small] <;> omega

theorem poseAccepted_position (p q : Fin NUM_POSES) (j : Fin NUM_SERVOS) (fields : List Str)
    (s : State) :
    (((poseAccepted p fields s).currentConfig.poses q).servos j).position =
      if q = p then
        match fields.get? j.val with
        | some f => constrain (toInt f) 0 180
        | none => ((s.currentConfig.poses q).servos j).position
      else ((s.currentConfig.poses q).servos j).position := by
  have := applyFields_position p q j fields 0 s.currentConfig
  simpa [poseAccepted] using this

theorem constrain_range (d : Int) : 0 ≤ constrain d 0 180 ∧ constrain d 0 180 ≤ 180 := by
  unfold constrain
  split_ifs <;> omega

theorem constrain_idem (d : Int) : constrain (constrain d 0 180) 0 180 = constrain d 0 180 := by
  unfold constrain
  split_ifs <;> omega

theorem map_decimal_get (a : Fin NUM_SERVOS → Int) (j : Fin NUM_SERVOS) :
    ((List.finRange NUM_SERVOS).map (fun i => decimal (a i))).get? j.val = some (decimal (a j)) := by
  simp [List.getElem?_eq_getElem, j.isLt]

theorem map_decimal_no_colon (a : Fin NUM_SERVOS → Int) :
    ∀ f ∈ (List.finRange NUM_SERVOS).map (fun i => decimal (a i)), ':' ∉ f := by
  intro f hf
  obtain ⟨i, _, rfl⟩ := List.mem_map.mp hf
  exact decimal_no_colon _

/-- C1: for every pose index `p` below 8 and all integers `a 0 .. a 7`, handling
`POSE:p:a0:...:a7` leaves `currentPose = p`, stores `constrain (a i) 0 180` in every
channel `i` of pose `p`, sends exactly these eight angles to the servos in channel
order, and leaves `needsSave` set.  It holds from every state, in particular from
those with `0 ≤ currentPose < 8`. -/
theorem handlePoseCommand_full (s : State) (p : Fin NUM_POSES) (a : Fin NUM_SERVOS → Int) :
    (handlePoseCommand (fullPoseCommand p a) s).currentConfig.currentPose = p.val ∧
    (∀ i : Fin NUM_SERVOS,
      (((handlePoseCommand (fullPoseCommand p a) s).currentConfig.poses p).servos i).position =
        constrain (a i) 0 180) ∧
    (handlePoseCommand (fullPoseCommand p a) s).servoWrites =
      s.servoWrites ++ (List.finRange NUM_SERVOS).map (fun i => (i, constrain (a i) 0 180)) ∧
    (handlePoseCommand (fullPoseCommand p a) s).needsSave = true := by
  have hacc := handlePoseCommand_accept p (decimal p.val) _ s (decimal_no_colon _)
    (decimal_index p) (by simp [List.finRange_succ_eq_map]) (map_decimal_no_colon a)
  have hpos : ∀ i : Fin NUM_SERVOS,
      (((poseAccepted p ((List.finRange NUM_SERVOS).map fun i => decimal (a i)) s
        ).currentConfig.poses p).servos i).position = constrain (a i) 0 180 := by
    intro i
    rw [poseAccepted_position, if_pos rfl, map_decimal_get]
    simp only [toInt_decimal, constrain_saturate]
  unfold fullPoseCommand poseCommand
  rw [hacc]
  refine ⟨rfl, hpos, ?_, rfl⟩
  have hw : ∀ i : Fin NUM_SERVOS,
      constrain (((applyFields p ((List.finRange NUM_SERVOS).map fun i => decimal (a i)) 0
        s.currentConfig).poses p).servos i).position 0 180 = constrain (a i) 0 180 := by
    intro i
    have := hpos i
    simp only [poseAccepted] at this
    rw [this, constrain_idem]
  simp only [poseAccepted, hw]

end IronManMask

namespace IronManMask

theorem handleServoCommand_header (I V : Str) (s : State) (hI : ':' ∉ I) :
    handleServoCommand ("SERVO:".toList ++ (I ++ ':' :: V)) s =
      if h : toInt I < 0 ∨ toInt I ≥ NUM_SERVOS then some s
      else if hp : 0 ≤ s.currentConfig.currentPose ∧ s.currentConfig.currentPose < NUM_POSES then
        some (servoAccepted ⟨s.currentConfig.currentPose.toNat, by omega⟩
          ⟨(toInt I).toNat, by omega⟩ (constrain (toInt V) 0 180) s)
      else none := by
  have e1 : "SERVO:".toList ++ (I ++ ':' :: V) =
      [] ++ (['S', 'E', 'R', 'V', 'O'] ++ ':' :: (I ++ ':' :: V)) := rfl
  have e2 : "SERVO:".toList ++ (I ++ ':' :: V) =
      ['S', 'E', 'R', 'V', 'O', ':'] ++ (I ++ ':' :: V) := rfl
  have e3 : "SERVO:".toList ++ (I ++ ':' :: V) =
      (['S', 'E', 'R', 'V', 'O', ':'] ++ (I ++ [':'])) ++ V := by
    rw [e2]; simp
  have h1 : indexOf ("SERVO:".toList ++ (I ++ ':' :: V)) ':' 0 = 5 := by
    rw [e1]
    exact indexOf_found ':' [] ['S', 'E', 'R', 'V', 'O'] _ (by decide)
  have h2 : indexOf ("SERVO:".toList ++ (I ++ ':' :: V)) ':' 6 = ((6 + I.length : Nat) : Int) := by
    rw [e2]
    exact indexOf_found ':' ['S', 'E', 'R', 'V', 'O', ':'] I V hI
  have h3 : substring ("SERVO:".toList ++ (I ++ ':' :: V)) 6 (6 + I.length) = I := by
    rw [e2]
    exact substring_middle ['S', 'E', 'R', 'V', 'O', ':'] I (':' :: V)
  have h4 : substringFrom ("SERVO:".toList ++ (I ++ ':' :: V)) (I.length + 7) = V := by
    rw [e3]
    have := substringFrom_suffix (['S', 'E', 'R', 'V', 'O', ':'] ++ (I ++ [':'])) V
    simpa using this
  have h5 : ((5 : Int) + 1).toNat = 6 := rfl
  have h6 : (((6 + I.length : Nat) : Int) + 1).toNat = I.length + 7 := by omega
  have h7 : ¬ ((5 : Int) = -1 ∨ ((6 + I.length : Nat) : Int) = -1) := by omega
  unfold handleServoCommand
  simp only [h1, h5, h2, h6, h3, h4, h7, if_false, Int.toNat_ofNat]
  rfl

/-- C2: for every state with `0 ≤ currentPose < 8`, every servo index `i` below 8 and
every integer `v`, handling `SERVO:i:v` succeeds, stores `constrain v 0 180` in channel
`i` of the current pose and changes nothing else in the configuration: `currentPose`,
every pose name, every other channel of the current pose and every channel of every
other pose keep their values. -/
theorem handleServoCommand_frame (s : State) (i : Fin NUM_SERVOS) (v : Int)
    (hcur : s.currentConfig.poseInRange) :
    ∃ s1, handleServoCommand (servoCommand i.val v) s = some s1 ∧
      s1.currentConfig.currentPose = s.currentConfig.currentPose ∧
      (∀ q : Fin NUM_POSES, (s1.currentConfig.poses q).name = (s.currentConfig.poses q).name) ∧
      (∀ (q : Fin NUM_POSES) (j : Fin NUM_SERVOS),
        ((s1.currentConfig.poses q).servos j).position =
          if (q.val : Int) = s.currentConfig.currentPose ∧ j = i then constrain v 0 180
          else ((s.currentConfig.poses q).servos j).position) := by
  have hlt : i.val < 8 := i.isLt
  have hi : toInt (decimal (i.val : Int)) = (i.val : Int) := decimal_index i
  have hr : ¬ (toInt (decimal (i.val : Int)) < 0 ∨ toInt (decimal (i.val : Int)) ≥ NUM_SERVOS) := by
    rw [hi]; simp only [NUM_SERVOS]; omega
  have hcur2 : 0 ≤ s.currentConfig.currentPose ∧ s.currentConfig.currentPose < NUM_POSES := hcur
  unfold servoCommand
  rw [handleServoCommand_header _ _ s (decimal_no_colon _), dif_neg hr, dif_pos hcur2]
  refine ⟨_, rfl, rfl, ?_, ?_⟩
  · intro q
    exact setPosition_name _ _ _ _ _
  · intro q j
    simp only [servoAccepted]
    rw [setPosition_position]
    have hv : constrain (toInt (decimal v)) 0 180 = constrain v 0 180 := by
      rw [toInt_decimal, constrain_saturate]
    rw [hv]
    have hq : ∀ h, (q = (⟨s.currentConfig.currentPose.toNat, h⟩ : Fin NUM_POSES)) ↔
        ((q.val : Int) = s.currentConfig.currentPose) := by
      intro h
      rw [Fin.ext_iff]
      simp only
      omega
    have hj : ∀ h, (j = (⟨(toInt (decimal (i.val : Int))).toNat, h⟩ : Fin NUM_SERVOS)) ↔
        j = i := by
      intro h
      rw [Fin.ext_iff, Fin.ext_iff]
      simp only [hi, Int.toNat_ofNat]
    simp only [hq, hj]

end IronManMask

namespace IronManMask

/-! ## What a command can change -/

theorem updateServos_frame (s : State) :
    ∃ w, updateServos s = { s with servoWrites := s.servoWrites ++ w } := by
  by_cases h : s.currentConfig.currentPose < 0 ∨ s.currentConfig.currentPose ≥ NUM_POSES
  · exact ⟨[], by rw [updateServos_outOfRange s h]; simp⟩
  · have h2 : 0 ≤ s.currentConfig.currentPose ∧ s.currentConfig.currentPose < 8 := by
      simp only [NUM_POSES] at h; omega
    have := updateServos_inRange s ⟨s.currentConfig.currentPose.toNat, by omega⟩
      (by simp only; omega)
    exact ⟨_, this⟩

theorem poseBranch_form (poseIndex : Int) (h : ¬ (poseIndex < 0 ∨ poseIndex ≥ NUM_POSES))
    (hlt : poseIndex.toNat < NUM_POSES) (ps : Str) (s : State) :
    ∃ w,
      { updateServos
          { s with
            currentConfig :=
              { poseLoop ps ⟨poseIndex.toNat, hlt⟩ NUM_SERVOS 0 0 s.currentConfig with
                currentPose := poseIndex } } with
        needsSave := true } =
      { s with
        currentConfig :=
          { poseLoop ps ⟨poseIndex.toNat, hlt⟩ NUM_SERVOS 0 0 s.currentConfig with
            currentPose := ((⟨poseIndex.toNat, hlt⟩ : Fin NUM_POSES).val : Int) }
        servoWrites := s.servoWrites ++ w
        needsSave := true } := by
  have h4 : 0 ≤ poseIndex := by omega
  obtain ⟨w, hw⟩ := updateServos_frame
    { s with
      currentConfig :=
        { poseLoop ps ⟨poseIndex.toNat, hlt⟩ NUM_SERVOS 0 0 s.currentConfig with
          currentPose := poseIndex } }
  refine ⟨w, ?_⟩
  rw [hw]
  simp only [Int.toNat_of_nonneg h4]

theorem handlePoseCommand_cases (command : Str) (s : State) :
    handlePoseCommand command s = s ∨
    ∃ (p : Fin NUM_POSES) (positionsStr : Str) (w : List (Fin NUM_SERVOS × Int)),
      handlePoseCommand command s =
        { s with
          currentConfig :=
            { poseLoop positionsStr p NUM_SERVOS 0 0 s.currentConfig with
              currentPose := (p.val : Int) }
          servoWrites := s.servoWrites ++ w
          needsSave := true } := by
  unfold handlePoseCommand
  simp only
  split_ifs with h1 h2 h3
  · exact Or.inl rfl
  · exact Or.inl rfl
  · exact Or.inl rfl
  · right
    obtain ⟨w, hw⟩ := poseBranch_form _ h3 (by omega) (substringFrom command
      (indexOf command ':' (indexOf command ':' 0 + 1).toNat + 1).toNat) s
    exact ⟨_, _, w, hw⟩

theorem handleServoCommand_cases (command : Str) (s : State) :
    handleServoCommand command s = some s ∨
    (∃ (p : Fin NUM_POSES) (i : Fin NUM_SERVOS) (d : Int),
      (p.val : Int) = s.currentConfig.currentPose ∧
      handleServoCommand command s = some (servoAccepted p i (constrain d 0 180) s)) ∨
    (handleServoCommand command s = none ∧ ¬ s.currentConfig.poseInRange) := by
  unfold handleServoCommand
  simp only
  split_ifs with h1 h2 h3
  · exact Or.inl rfl
  · exact Or.inl rfl
  · right; left
    exact ⟨_, _, _, by simp only; omega, rfl⟩
  · right; right
    exact ⟨rfl, h3⟩

theorem onWrite_cases (value : List Char) (s : State) :
    onWrite value s = some s ∨
    onWrite value s =
      some { s with notifications := s.notifications ++ [getConfigJson s.currentConfig] } ∨
    onWrite value s = some (handlePoseCommand (cString value) s) ∨
    onWrite value s = handleServoCommand (cString value) s := by
  unfold onWrite
  simp only
  split_ifs
  · exact Or.inr (Or.inl rfl)
  · exact Or.inr (Or.inr (Or.inl rfl))
  · exact Or.inr (Or.inr (Or.inr rfl))
  · exact Or.inl rfl
  · exact Or.inl rfl

/-- A write to the characteristic never touches the persistence state, and keeps
`currentPose` in range. -/
theorem onWrite_frame (value : List Char) (s s1 : State) (h : onWrite value s = some s1) :
    s1.lastSaveTime = s.lastSaveTime ∧ s1.storageWrites = s.storageWrites ∧
    s1.preferences = s.preferences ∧
    (s.currentConfig.poseInRange → s1.currentConfig.poseInRange) := by
  rcases onWrite_cases value s with h1 | h1 | h1 | h1
  · rw [h1] at h; cases h; exact ⟨rfl, rfl, rfl, id⟩
  · rw [h1] at h; cases h; exact ⟨rfl, rfl, rfl, id⟩
  · rw [h1] at h
    rcases handlePoseCommand_cases (cString value) s with h2 | ⟨p, ps, w, h2⟩
    · rw [h2] at h; cases h; exact ⟨rfl, rfl, rfl, id⟩
    · rw [h2] at h; cases h
      refine ⟨rfl, rfl, rfl, fun _ => ?_⟩
      have hp : p.val < 8 := p.isLt
      simp only [Config.poseInRange, NUM_POSES]
      omega
  · rw [h1] at h
    rcases handleServoCommand_cases (cString value) s with h2 | ⟨p, i, d, _, h2⟩ | ⟨h2, _⟩
    · rw [h2] at h; cases h; exact ⟨rfl, rfl, rfl, id⟩
    · rw [h2] at h; cases h; exact ⟨rfl, rfl, rfl, id⟩
    · rw [h2] at h; cases h

/-- With `currentPose` in range every write to the characteristic is handled. -/
theorem onWrite_total (value : List Char) (s : State) (hs : s.currentConfig.poseInRange) :
    ∃ s1, onWrite value s = some s1 := by
  rcases onWrite_cases value s with h1 | h1 | h1 | h1
  · exact ⟨_, h1⟩
  · exact ⟨_, h1⟩
  · exact ⟨_, h1⟩
  · rcases handleServoCommand_cases (cString value) s with h2 | ⟨p, i, d, _, h2⟩ | ⟨_, h2⟩
    · exact ⟨_, h1.trans h2⟩
    · exact ⟨_, h1.trans h2⟩
    · exact absurd hs h2

end IronManMask

namespace IronManMask

/-! ## Debounced persistence -/

theorem saveConfig_cases (t : Nat) (s : State) :
    saveConfig t s = { s with needsSave := true } ∧
      (t % 2 ^ 32 + 2 ^ 32 - s.lastSaveTime) % 2 ^ 32 < SAVE_INTERVAL ∨
    saveConfig t s =
      { s with
        needsSave := false
        lastSaveTime := t % 2 ^ 32
        preferences := saveWrites s.currentConfig s.preferences
        storageWrites := s.storageWrites ++ [t] } ∧
      ¬ (t % 2 ^ 32 + 2 ^ 32 - s.lastSaveTime) % 2 ^ 32 < SAVE_INTERVAL := by
  unfold saveConfig
  simp only
  split_ifs with h
  · exact Or.inl ⟨rfl, h⟩
  · exact Or.inr ⟨rfl, h⟩

theorem loop_cases (t1 t2 : Nat) (s : State) :
    loop t1 t2 s = s ∨ loop t1 t2 s = saveConfig t2 s := by
  unfold loop
  split_ifs
  · exact Or.inr rfl
  · exact Or.inl rfl

theorem saveConfig_currentConfig (t : Nat) (s : State) :
    (saveConfig t s).currentConfig = s.currentConfig := by
  rcases saveConfig_cases t s with ⟨h, _⟩ | ⟨h, _⟩ <;> rw [h]

theorem loop_currentConfig (t1 t2 : Nat) (s : State) :
    (loop t1 t2 s).currentConfig = s.currentConfig := by
  rcases loop_cases t1 t2 s with h | h
  · rw [h]
  · rw [h, saveConfig_currentConfig]

theorem SaveInv_mono (t u : Nat) (s : State) (h : SaveInv t s) (htu : t ≤ u) : SaveInv u s := by
  refine ⟨h.1, ?_⟩
  rcases h.2 with h2 | ⟨last, h3, h4, h5⟩
  · exact Or.inl h2
  · exact Or.inr ⟨last, h3, le_trans h4 htu, h5⟩

theorem SaveInv_saveConfig (t u : Nat) (s : State) (h : SaveInv t s) (htu : t ≤ u) :
    SaveInv u (saveConfig u s) := by
  rcases saveConfig_cases u s with ⟨he, _⟩ | ⟨he, hc⟩
  · rw [he]
    exact SaveInv_mono t u _ h htu
  · rw [he]
    have hall : ∀ w ∈ s.storageWrites, w + SAVE_INTERVAL ≤ u := by
      rcases h.2 with h2 | ⟨last, h3, h4, h5⟩
      · intro w hw; rw [h2] at hw; cases hw
      · intro w hw
        have hw2 := h5 w hw
        rw [h3] at hc
        simp only [SAVE_INTERVAL] at hc ⊢
        omega
    refine ⟨?_, Or.inr ⟨u, rfl, le_refl u, ?_⟩⟩
    · rw [List.pairwise_append]
      refine ⟨h.1, List.pairwise_singleton _ _, ?_⟩
      intro a ha b hb
      rw [List.mem_singleton] at hb
      rw [hb]
      exact hall a ha
    · intro w hw
      simp only [List.mem_append, List.mem_singleton] at hw
      rcases hw with hw | hw
      · have := hall w hw; omega
      · omega

theorem SaveInv_loop (t t1 t2 : Nat) (s : State) (h : SaveInv t s) (h1 : t ≤ t1) (h2 : t1 ≤ t2) :
    SaveInv t2 (loop t1 t2 s) := by
  rcases loop_cases t1 t2 s with he | he
  · rw [he]; exact SaveInv_mono t t2 s h (le_trans h1 h2)
  · rw [he]; exact SaveInv_saveConfig t t2 s h (le_trans h1 h2)

theorem SaveInv_onWrite (t : Nat) (value : List Char) (s s1 : State) (h : SaveInv t s)
    (he : onWrite value s = some s1) : SaveInv t s1 := by
  obtain ⟨h1, h2, _, _⟩ := onWrite_frame value s s1 he
  unfold SaveInv
  rw [h1, h2]
  exact h

/-- Every execution with an ordered clock from a state with `currentPose` in range
runs to the end and keeps the invariants. -/
theorem run_invariant : ∀ (evs : List Event) (t : Nat) (s : State),
    s.currentConfig.poseInRange → SaveInv t s → clockOrdered t evs →
    ∃ s1 t1, run evs s = some s1 ∧ s1.currentConfig.poseInRange ∧ SaveInv t1 s1 := by
  intro evs
  induction evs with
  | nil => intro t s hp hi _; exact ⟨s, t, rfl, hp, hi⟩
  | cons e es ih =>
    intro t s hp hi hc
    cases e with
    | write value =>
      obtain ⟨s1, h1⟩ := onWrite_total value s hp
      have hp1 := (onWrite_frame value s s1 h1).2.2.2 hp
      have hi1 := SaveInv_onWrite t value s s1 hi h1
      obtain ⟨s2, t2, h2, hp2, hi2⟩ := ih t s1 hp1 hi1 hc
      exact ⟨s2, t2, by simp [run, step, h1, h2], hp2, hi2⟩
    | loop t1 t2 =>
      obtain ⟨hc1, hc2, hc3⟩ := hc
      have hp1 : (loop t1 t2 s).currentConfig.poseInRange := by
        rw [loop_currentConfig]; exact hp
      have hi1 := SaveInv_loop t t1 t2 s hi hc1 hc2
      obtain ⟨s2, t3, h2, hp2, hi2⟩ := ih t2 _ hp1 hi1 hc3
      exact ⟨s2, t3, by simp [run, step, h2], hp2, hi2⟩

theorem window_at_most_one : ∀ (l : List Nat),
    List.Pairwise (fun a b => a + SAVE_INTERVAL ≤ b) l →
    ∀ t, (l.filter fun w => decide (t ≤ w ∧ w < t + SAVE_INTERVAL)).length ≤ 1 := by
  intro l
  induction l with
  | nil => intro _ t; simp
  | cons a l ih =>
    intro hp t
    rw [List.pairwise_cons] at hp
    by_cases ha : t ≤ a ∧ a < t + SAVE_INTERVAL
    · have hnone : (l.filter fun w => decide (t ≤ w ∧ w < t + SAVE_INTERVAL)) = [] := by
        rw [List.filter_eq_nil_iff]
        intro b hb
        have := hp.1 b hb
        simp only [decide_eq_true_eq, not_and, not_lt]
        intro _
        omega
      rw [List.filter_cons_of_pos (by simpa using ha), hnone]
      simp
    · rw [List.filter_cons_of_neg (by simpa using ha)]
      exact ih hp.2 t

/-- C3: in every execution from a state with no storage write yet and `currentPose` in
range, made of iterations of `loop()` (the test, then `saveConfig`) and of any writes to
the characteristic, with clock readings that never go back, every event is handled and
any two storage writes are at least `SAVE_INTERVAL` apart; hence every time window
shorter than `SAVE_INTERVAL` holds at most one storage write, whatever the number of
commands in it. -/
theorem storage_writes_debounced (evs : List Event) (s : State)
    (hp : s.currentConfig.poseInRange) (hw : s.storageWrites = [])
    (hc : clockOrdered 0 evs) :
    ∃ s1, run evs s = some s1 ∧
      List.Pairwise (fun a b => a + SAVE_INTERVAL ≤ b) s1.storageWrites ∧
      ∀ t, (s1.storageWrites.filter fun w => decide (t ≤ w ∧ w < t + SAVE_INTERVAL)).length ≤ 1 := by
  have hi : SaveInv 0 s := ⟨by rw [hw]; exact List.Pairwise.nil, Or.inl hw⟩
  obtain ⟨s1, t1, h1, _, hi1⟩ := run_invariant evs 0 s hp hi hc
  exact ⟨s1, h1, hi1.1, window_at_most_one _ hi1.1⟩

end IronManMask

namespace IronManMask

/-! ## Store keys -/

set_option maxRecDepth 100000 in
theorem keyPos_inj : ∀ i j i2 j2 : Fin 8, keyPos i j = keyPos i2 j2 → i = i2 ∧ j = j2 := by
  decide

theorem keyName_inj : ∀ i i2 : Fin 8, keyName i = keyName i2 → i = i2 := by
  decide

theorem keyPos_ne_keyName : ∀ i j i2 : Fin 8, keyPos i j ≠ keyName i2 := by
  decide

theorem keyPos_ne_cur : ∀ i j : Fin 8, keyPos i j ≠ keyCurrentPose := by
  decide

theorem keyName_ne_cur : ∀ i : Fin 8, keyName i ≠ keyCurrentPose := by
  decide

/-! ## `saveConfig`: the content of the store after the writes -/

/-- The writes of one pose: its name, then its eight positions. -/
theorem savePose_other (cfg : Config) (i : Fin NUM_POSES) (key : Str) :
    ∀ (l : List (Fin NUM_SERVOS)) (pr : Preferences), (∀ j ∈ l, keyPos i j ≠ key) →
    (l.foldl (fun pr (servoIndex : Fin NUM_SERVOS) => putInt pr (keyPos i servoIndex)
      ((cfg.poses i).servos servoIndex).position) pr) key = pr key := by
  intro l
  induction l with
  | nil => intro pr _; rfl
  | cons a l ih =>
    intro pr h
    rw [List.foldl_cons, ih _ (fun j hj => h j (by simp [hj]))]
    have : key ≠ keyPos i a := fun e => h a (by simp) e.symm
    simp [putInt, Function.update_noteq this]

theorem savePose_pos (cfg : Config) (i : Fin NUM_POSES) (j : Fin NUM_SERVOS) :
    ∀ (l : List (Fin NUM_SERVOS)) (pr : Preferences), j ∈ l →
    (l.foldl (fun pr (servoIndex : Fin NUM_SERVOS) => putInt pr (keyPos i servoIndex)
      ((cfg.poses i).servos servoIndex).position) pr) (keyPos i j) =
      some (PrefValue.int ((cfg.poses i).servos j).position) := by
  intro l
  induction l with
  | nil => intro pr h; cases h
  | cons a l ih =>
    intro pr h
    rw [List.foldl_cons]
    by_cases hj : j ∈ l
    · exact ih _ hj
    · have ha : j = a := by
        rcases List.mem_cons.mp h with h | h
        · exact h
        · exact absurd h hj
      subst ha
      rw [savePose_other cfg i (keyPos i j) l _
        (fun k hk e => hj (by rw [← (keyPos_inj i k i j e).2]; exact hk))]
      simp [putInt]

theorem saveLoop_other (cfg : Config) (key : Str) :
    ∀ (l : List (Fin NUM_POSES)) (pr : Preferences),
    (∀ i ∈ l, keyName i ≠ key ∧ ∀ j : Fin NUM_SERVOS, keyPos i j ≠ key) →
    (l.foldl
      (fun pr (poseIndex : Fin NUM_POSES) =>
        (List.finRange NUM_SERVOS).foldl
          (fun pr (servoIndex : Fin NUM_SERVOS) =>
            putInt pr (keyPos poseIndex servoIndex)
              ((cfg.poses poseIndex).servos servoIndex).position)
          (putString pr (keyName poseIndex) (cfg.poses poseIndex).name)) pr) key = pr key := by
  intro l
  induction l with
  | nil => intro pr _; rfl
  | cons a l ih =>
    intro pr h
    rw [List.foldl_cons, ih _ (fun i hi => h i (by simp [hi]))]
    rw [savePose_other cfg a key _ _ (fun j _ => (h a (by simp)).2 j)]
    have : key ≠ keyName a := fun e => (h a (by simp)).1 e.symm
    simp [putString, Function.update_noteq this]

theorem saveLoop_name (cfg : Config) (i : Fin NUM_POSES) :
    ∀ (l : List (Fin NUM_POSES)) (pr : Preferences), i ∈ l →
    (l.foldl
      (fun pr (poseIndex : Fin NUM_POSES) =>
        (List.finRange NUM_SERVOS).foldl
          (fun pr (servoIndex : Fin NUM_SERVOS) =>
            putInt pr (keyPos poseIndex servoIndex)
              ((cfg.poses poseIndex).servos servoIndex).position)
          (putString pr (keyName poseIndex) (cfg.poses poseIndex).name)) pr) (keyName i) =
      some (PrefValue.str (cfg.poses i).name) := by
  intro l
  induction l with
  | nil => intro pr h; cases h
  | cons a l ih =>
    intro pr h
    rw [List.foldl_cons]
    by_cases hi : i ∈ l
    · exact ih _ hi
    · have ha : i = a := by
        rcases List.mem_cons.mp h with h | h
        · exact h
        · exact absurd h hi
      subst ha
      rw [saveLoop_other cfg (keyName i) l _ (fun k hk =>
        ⟨fun e => hi (by rw [← keyName_inj k i e]; exact hk),
         fun j => keyPos_ne_keyName k j i⟩)]
      rw [savePose_other cfg i (keyName i) _ _ (fun j _ => keyPos_ne_keyName i j i)]
      simp [putString]

theorem saveLoop_pos (cfg : Config) (i : Fin NUM_POSES) (j : Fin NUM_SERVOS) :
    ∀ (l : List (Fin NUM_POSES)) (pr : Preferences), i ∈ l →
    (l.foldl
      (fun pr (poseIndex : Fin NUM_POSES) =>
        (List.finRange NUM_SERVOS).foldl
          (fun pr (servoIndex : Fin NUM_SERVOS) =>
            putInt pr (keyPos poseIndex servoIndex)
              ((cfg.poses poseIndex).servos servoIndex).position)
          (putString pr (keyName poseIndex) (cfg.poses poseIndex).name)) pr) (keyPos i j) =
      some (PrefValue.int ((cfg.poses i).servos j).position) := by
  intro l
  induction l with
  | nil => intro pr h; cases h
  | cons a l ih =>
    intro pr h
    rw [List.foldl_cons]
    by_cases hi : i ∈ l
    · exact ih _ hi
    · have ha : i = a := by
        rcases List.mem_cons.mp h with h | h
        · exact h
        · exact absurd h hi
      subst ha
      rw [saveLoop_other cfg (keyPos i j) l _ (fun k hk =>
        ⟨fun e => keyPos_ne_keyName i j k e.symm,
         fun j2 e => hi (by rw [← (keyPos_inj k j2 i j e).1]; exact hk)⟩)]
      exact savePose_pos cfg i j _ _ (List.mem_finRange j)

theorem saveWrites_currentPose (cfg : Config) (prefs : Preferences) :
    saveWrites cfg prefs keyCurrentPose = some (PrefValue.int cfg.currentPose) := by
  unfold saveWrites
  rw [saveLoop_other cfg keyCurrentPose _ _
    (fun i _ => ⟨keyName_ne_cur i, fun j => keyPos_ne_cur i j⟩)]
  simp [putInt]

theorem saveWrites_name (cfg : Config) (prefs : Preferences) (i : Fin NUM_POSES) :
    saveWrites cfg prefs (keyName i) = some (PrefValue.str (cfg.poses i).name) :=
  saveLoop_name cfg i _ _ (List.mem_finRange i)

theorem saveWrites_pos (cfg : Config) (prefs : Preferences) (i : Fin NUM_POSES)
    (j : Fin NUM_SERVOS) :
    saveWrites cfg prefs (keyPos i j) = some (PrefValue.int ((cfg.poses i).servos j).position) :=
  saveLoop_pos cfg i j _ _ (List.mem_finRange i)

/-! ## `loadConfig`: the configuration it builds -/

theorem setName_currentPose (cfg : Config) (p : Fin NUM_POSES) (n : Str) :
    (cfg.setName p n).currentPose = cfg.currentPose := rfl

theorem setName_name (cfg : Config) (p q : Fin NUM_POSES) (n : Str) :
    ((cfg.setName p n).poses q).name = if q = p then n else (cfg.poses q).name := by
  unfold Config.setName
  by_cases h : q = p
  · subst h; simp
  · simp [Function.update_noteq h, h]

theorem setName_position (cfg : Config) (p q : Fin NUM_POSES) (j : Fin NUM_SERVOS) (n : Str) :
    (((cfg.setName p n).poses q).servos j).position = ((cfg.poses q).servos j).position := by
  unfold Config.setName
  by_cases h : q = p
  · subst h; simp
  · simp [Function.update_noteq h]

/-- The inner loop of `loadConfig` for pose `i`, with `g` the loaded positions. -/
theorem loadPose_spec (i : Fin NUM_POSES) (g : Fin NUM_SERVOS → Int) :
    ∀ (l : List (Fin NUM_SERVOS)) (c : Config),
    (l.foldl (fun c (servoIndex : Fin NUM_SERVOS) => c.setPosition i servoIndex (g servoIndex)) c).currentPose =
      c.currentPose ∧
    (∀ q, ((l.foldl (fun c (servoIndex : Fin NUM_SERVOS) => c.setPosition i servoIndex (g servoIndex)) c).poses q).name =
      (c.poses q).name) ∧
    (∀ q k, (((l.foldl (fun c (servoIndex : Fin NUM_SERVOS) => c.setPosition i servoIndex (g servoIndex)) c).poses
      q).servos k).position = if q = i ∧ k ∈ l then g k else ((c.poses q).servos k).position) := by
  intro l
  induction l with
  | nil => intro c; simp
  | cons a l ih =>
    intro c
    rw [List.foldl_cons]
    obtain ⟨h1, h2, h3⟩ := ih (c.setPosition i a (g a))
    refine ⟨by rw [h1, setPosition_currentPose], fun q => by rw [h2, setPosition_name], ?_⟩
    intro q k
    rw [h3, setPosition_position]
    by_cases hq : q = i
    · by_cases hk : k ∈ l
      · simp [hq, hk]
      · by_cases hka : k = a
        · simp [hq, hka]
        · simp [hq, hk, hka]
    · simp [hq]

/-- The outer loop of `loadConfig`, with `n` the loaded names and `g` the loaded
positions. -/
theorem loadLoop_spec (n : Fin NUM_POSES → Str) (g : Fin NUM_POSES → Fin NUM_SERVOS → Int) :
    ∀ (l : List (Fin NUM_POSES)) (c : Config),
    (l.foldl (fun c (poseIndex : Fin NUM_POSES) =>
        (List.finRange NUM_SERVOS).foldl
          (fun c (servoIndex : Fin NUM_SERVOS) => c.setPosition poseIndex servoIndex (g poseIndex servoIndex))
          (c.setName poseIndex (n poseIndex))) c).currentPose = c.currentPose ∧
    (∀ q, ((l.foldl (fun c (poseIndex : Fin NUM_POSES) =>
        (List.finRange NUM_SERVOS).foldl
          (fun c (servoIndex : Fin NUM_SERVOS) => c.setPosition poseIndex servoIndex (g poseIndex servoIndex))
          (c.setName poseIndex (n poseIndex))) c).poses q).name =
      if q ∈ l then n q else (c.poses q).name) ∧
    (∀ q k, (((l.foldl (fun c (poseIndex : Fin NUM_POSES) =>
        (List.finRange NUM_SERVOS).foldl
          (fun c (servoIndex : Fin NUM_SERVOS) => c.setPosition poseIndex servoIndex (g poseIndex servoIndex))
          (c.setName poseIndex (n poseIndex))) c).poses q).servos k).position =
      if q ∈ l then g q k else ((c.poses q).servos k).position) := by
  intro l
  induction l with
  | nil => intro c; simp
  | cons a l ih =>
    intro c
    rw [List.foldl_cons]
    obtain ⟨h1, h2, h3⟩ := ih ((List.finRange NUM_SERVOS).foldl
      (fun c (servoIndex : Fin NUM_SERVOS) => c.setPosition a servoIndex (g a servoIndex)) (c.setName a (n a)))
    obtain ⟨p1, p2, p3⟩ := loadPose_spec a (g a) (List.finRange NUM_SERVOS) (c.setName a (n a))
    refine ⟨by rw [h1, p1, setName_currentPose], ?_, ?_⟩
    · intro q
      rw [h2, p2, setName_name]
      by_cases hq : q ∈ l
      · simp [hq]
      · by_cases hqa : q = a
        · simp [hqa]
        · simp [hq, hqa]
    · intro q k
      rw [h3, p3, setName_position]
      by_cases hq : q ∈ l
      · simp [hq]
      · by_cases hqa : q = a
        · simp [hqa, List.mem_finRange]
        · simp [hq, hqa]

theorem loadConfig_currentPose (prefs : Preferences) (cfg : Config) :
    (loadConfig prefs cfg).currentPose = getInt prefs keyCurrentPose 0 := by
  unfold loadConfig
  exact (loadLoop_spec
    (fun i => getString prefs (keyName i) ("Pose ".toList ++ fmtInt (i + 1)))
    (fun i j => getInt prefs (keyPos i j) 90) _ _).1

theorem loadConfig_name (prefs : Preferences) (cfg : Config) (i : Fin NUM_POSES) :
    ((loadConfig prefs cfg).poses i).name =
      getString prefs (keyName i) ("Pose ".toList ++ fmtInt (i + 1)) := by
  unfold loadConfig
  have := (loadLoop_spec
    (fun i => getString prefs (keyName i) ("Pose ".toList ++ fmtInt (i + 1)))
    (fun i j => getInt prefs (keyPos i j) 90) (List.finRange NUM_POSES)
    { cfg with currentPose := getInt prefs keyCurrentPose 0 }).2.1 i
  simpa [List.mem_finRange] using this

theorem loadConfig_position (prefs : Preferences) (cfg : Config) (i : Fin NUM_POSES)
    (j : Fin NUM_SERVOS) :
    (((loadConfig prefs cfg).poses i).servos j).position = getInt prefs (keyPos i j) 90 := by
  unfold loadConfig
  have := (loadLoop_spec
    (fun i => getString prefs (keyName i) ("Pose ".toList ++ fmtInt (i + 1)))
    (fun i j => getInt prefs (keyPos i j) 90) (List.finRange NUM_POSES)
    { cfg with currentPose := getInt prefs keyCurrentPose 0 }).2.2 i j
  simpa [List.mem_finRange] using this

/-- C4: for every configuration `cfg`, every initial content `prefs` of the store and
every configuration `old` held in memory before loading, running `loadConfig` on the
store left by the writes of `saveConfig` gives back `cfg`: the same `currentPose`, the
same 8 names and the same 64 positions. -/
theorem save_load_roundtrip (cfg old : Config) (prefs : Preferences) :
    loadConfig (saveWrites cfg prefs) old = cfg := by
  apply Config.ext
  · funext i
    apply Pose.ext
    · rw [loadConfig_name]
      simp [getString, saveWrites_name]
    · funext j
      apply ServoConfig.ext
      rw [loadConfig_position]
      simp [getInt, saveWrites_pos]
  · rw [loadConfig_currentPose]
    simp [getInt, saveWrites_currentPose]

end IronManMask

namespace IronManMask

/-! ## Rejected commands -/

theorem startsWith_iff (p : Str) : ∀ s : Str, startsWith s p = true ↔ ∃ t, s = p ++ t := by
  induction p with
  | nil => intro s; cases s <;> simp [startsWith]
  | cons c p ih =>
    intro s
    cases s with
    | nil => simp [startsWith]
    | cons d s =>
      simp only [startsWith, Bool.and_eq_true, beq_iff_eq, ih s, List.cons_append, List.cons.injEq]
      constructor
      · rintro ⟨h1, t, h2⟩; exact ⟨t, h1, h2⟩
      · rintro ⟨t, h1, h2⟩; exact ⟨h1, t, h2⟩

theorem cString_append (value : List Char) :
    cString value ++ value.dropWhile (fun c => decide (c.toNat ≠ 0)) = value := by
  unfold cString
  exact List.takeWhile_append_dropWhile _ _

theorem cString_count (value : List Char) (ch : Char) :
    (cString value).count ch ≤ value.count ch := by
  conv_rhs => rw [← cString_append value]
  rw [List.count_append]
  omega

theorem strchr_some_count (ch : Char) : ∀ (s : Str) (k : Nat), strchr ch s = some k →
    s.count ch = 1 + (s.drop (k + 1)).count ch := by
  intro s
  induction s with
  | nil => intro k h; simp [strchr] at h
  | cons c cs ih =>
    intro k h
    by_cases hc : c = ch
    · subst hc
      simp only [strchr, if_true, Option.some.injEq] at h
      subst h
      simp [Nat.add_comm]
    · simp only [strchr, if_neg hc, Option.map_eq_some'] at h
      obtain ⟨m, hm, rfl⟩ := h
      have := ih m hm
      simp only [List.drop_succ_cons]
      rw [List.count_cons_of_ne (fun e => hc e.symm), this]

theorem strchr_some_pos (ch : Char) (s : Str) (k : Nat) (h : strchr ch s = some k) :
    0 < s.count ch := by
  rw [strchr_some_count ch s k h]; omega

/-- A text with fewer than two colons has no second colon for the handlers. -/
theorem no_second_colon (command : Str) (h : command.count ':' < 2) :
    indexOf command ':' 0 = -1 ∨
    indexOf command ':' (indexOf command ':' 0 + 1).toNat = -1 := by
  by_cases h0 : (0 : Nat) ≥ command.length
  · left; unfold indexOf; rw [if_pos h0]
  · cases hs : strchr ':' command with
    | none => left; unfold indexOf; rw [if_neg h0]; simp [hs]
    | some k =>
      right
      have h1 : indexOf command ':' 0 = (k : Int) := by
        unfold indexOf; rw [if_neg h0]; simp [hs]
      rw [h1]
      have h2 : ((k : Int) + 1).toNat = k + 1 := by omega
      rw [h2]
      unfold indexOf
      split
      · rfl
      · cases hs2 : strchr ':' (command.drop (k + 1)) with
        | none => rfl
        | some m =>
          have c1 := strchr_some_count ':' command k hs
          have c2 := strchr_some_pos ':' _ m hs2
          omega

theorem handlePoseCommand_malformed (command : Str) (s : State) (h : command.count ':' < 2) :
    handlePoseCommand command s = s := by
  unfold handlePoseCommand
  simp only
  rcases no_second_colon command h with h1 | h1
  · rw [if_pos h1]
  · split_ifs
    · rfl
    · rfl

theorem handleServoCommand_malformed (command : Str) (s : State) (h : command.count ':' < 2) :
    handleServoCommand command s = some s := by
  unfold handleServoCommand
  simp only
  rw [if_pos]
  rcases no_second_colon command h with h1 | h1
  · exact Or.inl h1
  · exact Or.inr h1

/-- C5: a written text that does not start with `POSE:` or `SERVO:`, or that has fewer
than two colons, is handled by `onWrite` without any change of the configuration or of
`needsSave` and without any servo write; unless the text is the `GET_CONFIG` request,
the whole state is unchanged. -/
theorem malformed_command_ignored (value : List Char) (s : State)
    (h : ((¬ ∃ t, value = "POSE:".toList ++ t) ∧ (¬ ∃ t, value = "SERVO:".toList ++ t)) ∨
      value.count ':' < 2) :
    ∃ s1, onWrite value s = some s1 ∧
      s1.currentConfig = s.currentConfig ∧ s1.needsSave = s.needsSave ∧
      s1.servoWrites = s.servoWrites ∧
      (cString value ≠ "GET_CONFIG".toList → s1 = s) := by
  unfold onWrite
  simp only
  split_ifs with h1 h2 h3 h4
  · exact ⟨_, rfl, rfl, rfl, rfl, fun hn => absurd h2 hn⟩
  · rcases h with ⟨hp, _⟩ | hc
    · exfalso
      obtain ⟨t, ht⟩ := (startsWith_iff _ _).mp h3
      apply hp
      refine ⟨t ++ value.dropWhile (fun c => decide (c.toNat ≠ 0)), ?_⟩
      rw [← List.append_assoc, ← ht, cString_append]
    · rw [handlePoseCommand_malformed _ s (lt_of_le_of_lt (cString_count value ':') hc)]
      exact ⟨_, rfl, rfl, rfl, rfl, fun _ => rfl⟩
  · rcases h with ⟨_, hp⟩ | hc
    · exfalso
      obtain ⟨t, ht⟩ := (startsWith_iff _ _).mp h4
      apply hp
      refine ⟨t ++ value.dropWhile (fun c => decide (c.toNat ≠ 0)), ?_⟩
      rw [← List.append_assoc, ← ht, cString_append]
    · rw [handleServoCommand_malformed _ s (lt_of_le_of_lt (cString_count value ':') hc)]
      exact ⟨_, rfl, rfl, rfl, rfl, fun _ => rfl⟩
  · exact ⟨_, rfl, rfl, rfl, rfl, fun _ => rfl⟩
  · exact ⟨_, rfl, rfl, rfl, rfl, fun _ => rfl⟩

/-- C6: a `POSE` command whose index field parses to a value below 0 or above 7, and a
`SERVO` command whose index field parses to such a value, leave the whole state
unchanged (configuration, `needsSave`, servos), whatever follows the index field. -/
theorem out_of_range_index_rejected (P rest I V : Str) (s : State)
    (hP : ':' ∉ P) (hI : ':' ∉ I)
    (hp : toInt P < 0 ∨ toInt P ≥ 8) (hi : toInt I < 0 ∨ toInt I ≥ 8) :
    handlePoseCommand ("POSE:".toList ++ (P ++ ':' :: rest)) s = s ∧
    handleServoCommand ("SERVO:".toList ++ (I ++ ':' :: V)) s = some s := by
  constructor
  · rw [handlePoseCommand_header P rest s hP, dif_pos (by simpa [NUM_POSES] using hp)]
  · rw [handleServoCommand_header I V s hI, dif_pos (by simpa [NUM_SERVOS] using hi)]

end IronManMask

namespace IronManMask

/-! ## The field loop on an arbitrary text -/

theorem poseLoop_generic (ps : Str) (p : Fin NUM_POSES) :
    ∀ (fuel k : Nat) (lastColon : Int) (cfg : Config),
    (poseLoop ps p fuel k lastColon cfg).currentPose = cfg.currentPose ∧
    (∀ q, ((poseLoop ps p fuel k lastColon cfg).poses q).name = (cfg.poses q).name) ∧
    (∀ q j,
      (((poseLoop ps p fuel k lastColon cfg).poses q).servos j).position =
        ((cfg.poses q).servos j).position ∨
      (q = p ∧ 0 ≤ (((poseLoop ps p fuel k lastColon cfg).poses q).servos j).position ∧
        (((poseLoop ps p fuel k lastColon cfg).poses q).servos j).position ≤ 180)) := by
  intro fuel
  induction fuel with
  | zero => intro k lastColon cfg; exact ⟨rfl, fun _ => rfl, fun _ _ => Or.inl rfl⟩
  | succ fuel ih =>
    intro k lastColon cfg
    by_cases hk : k < NUM_SERVOS
    · have hset : ∀ (v : Int) q j,
          (((cfg.setPosition p ⟨k, hk⟩ (constrain v 0 180)).poses q).servos j).position =
            ((cfg.poses q).servos j).position ∨
          (q = p ∧ 0 ≤ (((cfg.setPosition p ⟨k, hk⟩ (constrain v 0 180)).poses q).servos
              j).position ∧
            (((cfg.setPosition p ⟨k, hk⟩ (constrain v 0 180)).poses q).servos j).position
              ≤ 180) := by
        intro v q j
        rw [setPosition_position]
        by_cases hc : q = p ∧ j = ⟨k, hk⟩
        · rw [if_pos hc]; exact Or.inr ⟨hc.1, constrain_range v⟩
        · rw [if_neg hc]; exact Or.inl rfl
      simp only [poseLoop, dif_pos hk]
      split_ifs with h1
      · exact ⟨rfl, fun q => setPosition_name _ _ _ _ _, hset _⟩
      · obtain ⟨i1, i2, i3⟩ := ih (k + 1)
          (indexOf ps ':' lastColon.toNat + 1)
          (cfg.setPosition p ⟨k, hk⟩ (constrain (toInt (substring ps lastColon.toNat
            (indexOf ps ':' lastColon.toNat).toNat)) 0 180))
        refine ⟨by rw [i1, setPosition_currentPose], fun q => by rw [i2, setPosition_name], ?_⟩
        intro q j
        rcases i3 q j with h | h
        · rw [h]; exact hset _ q j
        · exact Or.inr h
    · rw [poseLoop_done ps p _ k lastColon cfg hk]
      exact ⟨rfl, fun _ => rfl, fun _ _ => Or.inl rfl⟩

end IronManMask

namespace IronManMask

/-! ## Invariants of the configuration -/

theorem run_poseInRange : ∀ (evs : List Event) (s : State), s.currentConfig.poseInRange →
    ∃ s1, run evs s = some s1 ∧ s1.currentConfig.poseInRange := by
  intro evs
  induction evs with
  | nil => intro s hp; exact ⟨s, rfl, hp⟩
  | cons e es ih =>
    intro s hp
    cases e with
    | write value =>
      obtain ⟨s1, h1⟩ := onWrite_total value s hp
      obtain ⟨s2, h2, hp2⟩ := ih s1 ((onWrite_frame value s s1 h1).2.2.2 hp)
      exact ⟨s2, by simp [run, step, h1, h2], hp2⟩
    | loop t1 t2 =>
      obtain ⟨s2, h2, hp2⟩ := ih (loop t1 t2 s) (by rw [loop_currentConfig]; exact hp)
      exact ⟨s2, by simp [run, step, h2], hp2⟩

theorem setup_currentConfig (prefs : Preferences) :
    (setup prefs).currentConfig = loadConfig prefs Config.new := by
  unfold setup
  obtain ⟨w, hw⟩ := updateServos_frame
    { currentConfig := loadConfig prefs Config.new
      needsSave := false
      lastSaveTime := 0
      preferences := prefs
      servoWrites := (List.finRange NUM_SERVOS).map fun i => (i, (90 : Int))
      notifications := []
      storageWrites := [] }
  rw [hw]

theorem poseCommand_rejected (p : Int) (fields : List Str) (s : State) (hp : p < 0 ∨ 8 ≤ p) :
    handlePoseCommand (poseCommand p fields) s = s := by
  unfold poseCommand
  rw [handlePoseCommand_header _ _ s (decimal_no_colon p), dif_pos]
  rw [toInt_decimal]
  unfold saturate
  simp only [NUM_POSES]
  split_ifs <;> omega

/-- C7, counterexample: with `currentPose = 8` in the store, the state after
initialization has `currentPose` outside `0 .. 7`. -/
theorem load_breaks_pose_range :
    ¬ (setup (putInt emptyPreferences keyCurrentPose 8)).currentConfig.poseInRange := by
  rw [setup_currentConfig]
  unfold Config.poseInRange
  rw [loadConfig_currentPose]
  decide

/-- C7, amended: when the store holds no `currentPose` entry or one within `0 .. 7`
(as does every store written by `saveConfig` from a configuration with `currentPose`
in range), `0 ≤ currentPose < 8` holds after initialization and in every state reached
from there by any sequence of events, each of which is handled; and a `POSE` command
whose index `p` is below 0 or above 7 is rejected, the state (so `currentPose`)
keeping its previous value. -/
theorem currentPose_invariant (prefs : Preferences) (evs : List Event) (p : Int)
    (fields : List Str) (s : State)
    (hstore : 0 ≤ getInt prefs keyCurrentPose 0 ∧ getInt prefs keyCurrentPose 0 < 8)
    (hp : p < 0 ∨ 8 ≤ p) :
    (setup prefs).currentConfig.poseInRange ∧
    (∃ s1, run evs (setup prefs) = some s1 ∧ s1.currentConfig.poseInRange) ∧
    handlePoseCommand (poseCommand p fields) s = s ∧
    (∀ (cfg : Config) (before : Preferences), cfg.poseInRange →
      0 ≤ getInt (saveWrites cfg before) keyCurrentPose 0 ∧
        getInt (saveWrites cfg before) keyCurrentPose 0 < 8) := by
  have h0 : (setup prefs).currentConfig.poseInRange := by
    rw [setup_currentConfig]
    unfold Config.poseInRange
    rw [loadConfig_currentPose]
    simpa [NUM_POSES] using hstore
  refine ⟨h0, run_poseInRange evs _ h0, poseCommand_rejected p fields s hp, ?_⟩
  intro cfg before hcfg
  simp only [getInt, saveWrites_currentPose]
  simpa [Config.poseInRange, NUM_POSES] using hcfg

theorem currentPose_invariant_witness :
    (setup emptyPreferences).currentConfig.poseInRange ∧
    (∃ s1, run [Event.write "POSE:3:10:20".toList, Event.loop 6000 6001,
        Event.write "SERVO:9:1".toList, Event.write "SERVO:1:200".toList]
        (setup emptyPreferences) = some s1 ∧ s1.currentConfig.poseInRange) ∧
    handlePoseCommand (poseCommand 8 ["10".toList, "20".toList]) (setup emptyPreferences) =
      setup emptyPreferences :=
  have h := currentPose_invariant emptyPreferences
    [Event.write "POSE:3:10:20".toList, Event.loop 6000 6001,
      Event.write "SERVO:9:1".toList, Event.write "SERVO:1:200".toList]
    8 ["10".toList, "20".toList] (setup emptyPreferences) (by decide) (by decide)
  ⟨h.1, h.2.1, h.2.2.1⟩

/-- C8, counterexample: with 500 stored for channel 0 of pose 0, `loadConfig` yields a
position outside `[0, 180]`. -/
theorem load_breaks_position_range :
    ¬ (loadConfig (putInt emptyPreferences (keyPos 0 0) 500) Config.new).positionsInRange := by
  intro h
  have h2 := (h 0 0).2
  rw [loadConfig_position] at h2
  revert h2
  decide

theorem positionsInRange_setPosition (cfg : Config) (p : Fin NUM_POSES) (i : Fin NUM_SERVOS)
    (d : Int) (h : cfg.positionsInRange) :
    (cfg.setPosition p i (constrain d 0 180)).positionsInRange := by
  intro q j
  rw [setPosition_position]
  split
  · exact constrain_range d
  · exact h q j

theorem positionsInRange_onWrite (value : List Char) (s s1 : State)
    (h : onWrite value s = some s1) (hr : s.currentConfig.positionsInRange) :
    s1.currentConfig.positionsInRange := by
  rcases onWrite_cases value s with h1 | h1 | h1 | h1
  · rw [h1] at h; cases h; exact hr
  · rw [h1] at h; cases h; exact hr
  · rw [h1] at h
    rcases handlePoseCommand_cases (cString value) s with h2 | ⟨p, ps, w, h2⟩
    · rw [h2] at h; cases h; exact hr
    · rw [h2] at h; cases h
      intro q j
      rcases (poseLoop_generic ps p NUM_SERVOS 0 0 s.currentConfig).2.2 q j with h3 | h3
      · show 0 ≤ (((poseLoop ps p NUM_SERVOS 0 0 s.currentConfig).poses q).servos j).position ∧
          (((poseLoop ps p NUM_SERVOS 0 0 s.currentConfig).poses q).servos j).position ≤ 180
        rw [h3]; exact hr q j
      · exact h3.2
  · rw [h1] at h
    rcases handleServoCommand_cases (cString value) s with h2 | ⟨p, i, d, _, h2⟩ | ⟨h2, _⟩
    · rw [h2] at h; cases h; exact hr
    · rw [h2] at h; cases h
      exact positionsInRange_setPosition _ p i d hr
    · rw [h2] at h; cases h

/-- C8, amended: every stored position is within `[0, 180]` after construction; after
`loadConfig` when every position entry of the store is within `[0, 180]` (as in every
store written by `saveConfig` from a configuration with that property); and the
predicate is preserved by every write to the characteristic (`GET_CONFIG`, `POSE`,
`SERVO` or any other text): it holds in the state the write leads to, and there is
such a state whenever `currentPose` is in range. -/
theorem positions_in_range_invariant (prefs : Preferences) (cfg : Config)
    (value : List Char) (s : State)
    (hstore : ∀ (i : Fin NUM_POSES) (j : Fin NUM_SERVOS) (v : Int),
      prefs (keyPos i j) = some (PrefValue.int v) → 0 ≤ v ∧ v ≤ 180)
    (hs : s.currentConfig.positionsInRange) :
    Config.new.positionsInRange ∧ (loadConfig prefs cfg).positionsInRange ∧
    (∀ s1, onWrite value s = some s1 → s1.currentConfig.positionsInRange) ∧
    (s.currentConfig.poseInRange →
      ∃ s1, onWrite value s = some s1 ∧ s1.currentConfig.positionsInRange) ∧
    (∀ (i : Fin NUM_POSES) (j : Fin NUM_SERVOS) (v : Int) (before : Preferences),
      saveWrites s.currentConfig before (keyPos i j) = some (PrefValue.int v) →
        0 ≤ v ∧ v ≤ 180) := by
  refine ⟨fun i j => ⟨by simp [Config.new, Pose.new], by simp [Config.new, Pose.new]⟩, ?_,
    fun s1 hstep => positionsInRange_onWrite value s s1 hstep hs, ?_, ?_⟩
  · intro i j
    rw [loadConfig_position]
    unfold getInt
    split
    · next v hv => exact hstore i j v hv
    · decide
  · intro hp
    obtain ⟨s1, h1⟩ := onWrite_total value s hp
    exact ⟨s1, h1, positionsInRange_onWrite value s s1 h1 hs⟩
  · intro i j v before hv
    rw [saveWrites_pos] at hv
    cases hv
    exact hs i j

end IronManMask

namespace IronManMask

/-! ## Partial `POSE` commands, and `GET_CONFIG` -/

/-- C9: for every pose index `p` below 8 and every `POSE` command for `p` with `k ≥ 1`
colon-free position fields, `handlePoseCommand` stores the clamped parsed value of
field `j` in channel `j` of pose `p` for every channel `j < k`, leaves the channels
from `k` on (channels `k .. 7` when `k < 8`) at their stored values, sets
`currentPose = p` and sets `needsSave`. -/
theorem handlePoseCommand_short (s : State) (p : Fin NUM_POSES) (fields : List Str)
    (h1 : 1 ≤ fields.length) (hcol : ∀ f ∈ fields, ':' ∉ f) :
    (handlePoseCommand (poseCommand p.val fields) s).currentConfig.currentPose = p.val ∧
    (handlePoseCommand (poseCommand p.val fields) s).needsSave = true ∧
    (∀ (j : Fin NUM_SERVOS) (hj : j.val < fields.length),
      (((handlePoseCommand (poseCommand p.val fields) s).currentConfig.poses p).servos j).position =
        constrain (toInt (fields.get ⟨j.val, hj⟩)) 0 180) ∧
    (∀ j : Fin NUM_SERVOS, fields.length ≤ j.val →
      (((handlePoseCommand (poseCommand p.val fields) s).currentConfig.poses p).servos j).position =
        ((s.currentConfig.poses p).servos j).position) := by
  have hne : fields ≠ [] := by
    intro h; rw [h] at h1; simp at h1
  have hacc := handlePoseCommand_accept p (decimal p.val) fields s (decimal_no_colon _)
    (decimal_index p) hne hcol
  unfold poseCommand
  rw [hacc]
  refine ⟨rfl, rfl, ?_, ?_⟩
  · intro j hj
    rw [poseAccepted_position, if_pos rfl, List.get?_eq_get hj]
  · intro j hj
    rw [poseAccepted_position, if_pos rfl, List.get?_eq_none.mpr hj]

theorem handlePoseCommand_short_witness :
    (handlePoseCommand (poseCommand 3 ["10".toList, "200".toList])
      (setup emptyPreferences)).currentConfig.currentPose = 3 ∧
    (((handlePoseCommand (poseCommand 3 ["10".toList, "200".toList])
      (setup emptyPreferences)).currentConfig.poses 3).servos 1).position = 180 ∧
    (((handlePoseCommand (poseCommand 3 ["10".toList, "200".toList])
      (setup emptyPreferences)).currentConfig.poses 3).servos 2).position = 90 := by
  have h := handlePoseCommand_short (setup emptyPreferences) 3 ["10".toList, "200".toList]
    (by decide) (by decide)
  exact ⟨h.1, (h.2.2.1 1 (by decide)).trans (by decide),
    (h.2.2.2 2 (by decide)).trans (by decide)⟩

theorem run_append : ∀ (evs evs2 : List Event) (s : State),
    run (evs ++ evs2) s = (run evs s).bind (run evs2) := by
  intro evs
  induction evs with
  | nil => intro evs2 s; rfl
  | cons e es ih =>
    intro evs2 s
    simp only [List.cons_append, run]
    cases step e s with
    | none => rfl
    | some s1 => simp [ih]

theorem onWrite_getConfig (s : State) :
    onWrite "GET_CONFIG".toList s =
      some { s with notifications := s.notifications ++ [getConfigJson s.currentConfig] } := rfl

/-! ## Concrete runs -/

theorem fullPoseCommand_example :
    fullPoseCommand 3 (fun i => [1, 2, 3, 400, -5, 6, 7, 8].getD i.val 0) =
      "POSE:3:1:2:3:400:-5:6:7:8".toList := by
  decide

theorem servoCommand_example : servoCommand 2 200 = "SERVO:2:200".toList := by
  decide

theorem handlePoseCommand_example :
    (List.finRange NUM_SERVOS).map (fun i =>
      (((handlePoseCommand "POSE:3:1:2:3:400:-5:6:7:8".toList
        (setup emptyPreferences)).currentConfig.poses 3).servos i).position) =
      [1, 2, 3, 180, 0, 6, 7, 8] := by
  decide

theorem toInt_examples :
    toInt "  -12abc".toList = -12 ∧ toInt "abc".toList = 0 ∧ toInt [] = 0 ∧
    toInt "+7".toList = 7 ∧ toInt "99999999999".toList = 2147483647 := by
  decide

theorem handleServoCommand_frame_witness :
    ∃ s1, handleServoCommand (servoCommand 2 200) (setup emptyPreferences) = some s1 ∧
      s1.currentConfig.currentPose = 0 ∧
      ((s1.currentConfig.poses 0).servos 2).position = 180 ∧
      ((s1.currentConfig.poses 0).servos 3).position = 90 ∧
      ((s1.currentConfig.poses 1).servos 2).position = 90 := by
  obtain ⟨s1, h1, h2, _, h4⟩ :=
    handleServoCommand_frame (setup emptyPreferences) 2 200 (by decide)
  refine ⟨s1, h1, ?_, ?_, ?_, ?_⟩
  · rw [h2]; decide
  · rw [h4]; decide
  · rw [h4]; decide
  · rw [h4]; decide

theorem storage_writes_debounced_witness :
    ∃ s1, run [Event.write "POSE:1:10:20".toList, Event.loop 6000 6001,
        Event.write "SERVO:0:5".toList, Event.loop 7000 7000, Event.loop 12000 12003]
        (setup emptyPreferences) = some s1 ∧
      List.Pairwise (fun a b => a + SAVE_INTERVAL ≤ b) s1.storageWrites ∧
      ∀ t, (s1.storageWrites.filter fun w => decide (t ≤ w ∧ w < t + SAVE_INTERVAL)).length ≤ 1 :=
  storage_writes_debounced _ (setup emptyPreferences) (by decide) (by decide)
    (by simp [clockOrdered])

/-- In this run the store is written at 6001 and at 12003, and not at 7000. -/
theorem storage_writes_example :
    (run [Event.write "POSE:1:10:20".toList, Event.loop 6000 6001,
        Event.write "SERVO:0:5".toList, Event.loop 7000 7000, Event.loop 12000 12003]
        (setup emptyPreferences)).map (fun s => s.storageWrites) = some [6001, 12003] := by
  decide

theorem malformed_command_ignored_witness :
    (∃ s1, onWrite "FOO:1:2".toList (setup emptyPreferences) = some s1 ∧
      s1.currentConfig = (setup emptyPreferences).currentConfig ∧
      s1.needsSave = (setup emptyPreferences).needsSave ∧
      s1.servoWrites = (setup emptyPreferences).servoWrites ∧
      (cString "FOO:1:2".toList ≠ "GET_CONFIG".toList → s1 = setup emptyPreferences)) ∧
    (∃ s1, onWrite "POSE:3".toList (setup emptyPreferences) = some s1 ∧
      s1.currentConfig = (setup emptyPreferences).currentConfig ∧
      s1.needsSave = (setup emptyPreferences).needsSave ∧
      s1.servoWrites = (setup emptyPreferences).servoWrites ∧
      (cString "POSE:3".toList ≠ "GET_CONFIG".toList → s1 = setup emptyPreferences)) :=
  ⟨malformed_command_ignored "FOO:1:2".toList (setup emptyPreferences)
      (Or.inl ⟨(not_congr (startsWith_iff _ _)).mp (by decide),
        (not_congr (startsWith_iff _ _)).mp (by decide)⟩),
    malformed_command_ignored "POSE:3".toList (setup emptyPreferences) (Or.inr (by decide))⟩

theorem out_of_range_index_rejected_witness :
    handlePoseCommand ("POSE:".toList ++ ("8".toList ++ ':' :: "10:20:30".toList))
      (setup emptyPreferences) = setup emptyPreferences ∧
    handleServoCommand ("SERVO:".toList ++ ("-1".toList ++ ':' :: "90".toList))
      (setup emptyPreferences) = some (setup emptyPreferences) :=
  out_of_range_index_rejected _ _ _ _ _ (by decide) (by decide) (by decide) (by decide)

theorem positions_in_range_invariant_witness :
    (loadConfig emptyPreferences Config.new).positionsInRange ∧
    ∃ s1, onWrite "SERVO:1:200".toList (setup emptyPreferences) = some s1 ∧
      s1.currentConfig.positionsInRange :=
  have h := positions_in_range_invariant emptyPreferences Config.new "SERVO:1:200".toList
    (setup emptyPreferences)
    (by intro i j v h; simp [emptyPreferences] at h)
    (by
      intro i j
      rw [setup_currentConfig, loadConfig_position]
      simp [getInt, emptyPreferences])
  ⟨h.2.1, h.2.2.2.1 (by decide)⟩

end IronManMask

namespace IronManMask

/-! ## Clamping, loading, and the periodic check -/

/-- C14: for every integer `d`, `constrain d 0 180` lies in `[0, 180]`, equals `d` when
`0 ≤ d ≤ 180`, and clamping twice is clamping once. -/
theorem constrain_clamp (d : Int) :
    (0 ≤ constrain d 0 180 ∧ constrain d 0 180 ≤ 180) ∧
    (0 ≤ d ∧ d ≤ 180 → constrain d 0 180 = d) ∧
    constrain (constrain d 0 180) 0 180 = constrain d 0 180 := by
  unfold constrain
  refine ⟨?_, ?_, ?_⟩
  · split_ifs <;> omega
  · intro h
    split_ifs <;> omega
  · split_ifs <;> omega

theorem constrain_clamp_witness :
    constrain 500 0 180 = 180 ∧ constrain (-3) 0 180 = 0 ∧ constrain 90 0 180 = 90 :=
  ⟨by decide, by decide, (constrain_clamp 90).2.1 (by decide)⟩

/-- C13: for every content of the store, `loadConfig` gives each field the integer
(for `currentPose` and the positions) or the text (for the names) stored under its key,
and the default of the field when the key holds nothing of that type, in particular
when it is absent: 0 for `currentPose`, `Pose <i+1>` for the name of pose `i`, 90 for
every position.  From an empty store it yields `currentPose = 0`, the names `Pose 1`
to `Pose 8` and every position 90. -/
theorem loadConfig_fallback (prefs : Preferences) (cfg : Config) :
    ((loadConfig prefs cfg).currentPose =
      match prefs keyCurrentPose with
      | some (PrefValue.int v) => v
      | _ => 0) ∧
    (∀ i : Fin NUM_POSES, ((loadConfig prefs cfg).poses i).name =
      match prefs (keyName i) with
      | some (PrefValue.str n) => n
      | _ => "Pose ".toList ++ fmtInt (i.val + 1)) ∧
    (∀ (i : Fin NUM_POSES) (j : Fin NUM_SERVOS),
      (((loadConfig prefs cfg).poses i).servos j).position =
        match prefs (keyPos i j) with
        | some (PrefValue.int v) => v
        | _ => 90) ∧
    (loadConfig emptyPreferences cfg).currentPose = 0 ∧
    (List.finRange NUM_POSES).map (fun i => ((loadConfig emptyPreferences cfg).poses i).name) =
      ["Pose 1".toList, "Pose 2".toList, "Pose 3".toList, "Pose 4".toList, "Pose 5".toList,
        "Pose 6".toList, "Pose 7".toList, "Pose 8".toList] ∧
    (∀ (i : Fin NUM_POSES) (j : Fin NUM_SERVOS),
      (((loadConfig emptyPreferences cfg).poses i).servos j).position = 90) := by
  refine ⟨?_, ?_, ?_, ?_, ?_, ?_⟩
  · rw [loadConfig_currentPose]; rfl
  · intro i; rw [loadConfig_name]; rfl
  · intro i j; rw [loadConfig_position]; rfl
  · rw [loadConfig_currentPose]; rfl
  · simp only [loadConfig_name]
    decide
  · intro i j; rw [loadConfig_position]; rfl

/-- The store of this example holds `currentPose = 5`, a text under the key of the
position of channel 0 of pose 0, and nothing else. -/
theorem load_mixed_store_example :
    (loadConfig (putString (putInt emptyPreferences keyCurrentPose 5) (keyPos 0 0) "x".toList)
      Config.new).currentPose = 5 ∧
    (((loadConfig (putString (putInt emptyPreferences keyCurrentPose 5) (keyPos 0 0) "x".toList)
      Config.new).poses 0).servos 0).position = 90 ∧
    ((loadConfig (putString (putInt emptyPreferences keyCurrentPose 5) (keyPos 0 0) "x".toList)
      Config.new).poses 2).name = "Pose 3".toList := by
  decide

end IronManMask

namespace IronManMask

theorem loop_due (t1 t2 : Nat) (s : State) (hn : s.needsSave = true)
    (h1 : (t1 % 2 ^ 32 + 2 ^ 32 - s.lastSaveTime) % 2 ^ 32 ≥ SAVE_INTERVAL)
    (h2 : ¬ (t2 % 2 ^ 32 + 2 ^ 32 - s.lastSaveTime) % 2 ^ 32 < SAVE_INTERVAL) :
    loop t1 t2 s =
      { s with
        needsSave := false
        lastSaveTime := t2 % 2 ^ 32
        preferences := saveWrites s.currentConfig s.preferences
        storageWrites := s.storageWrites ++ [t2] } := by
  unfold loop
  rw [if_pos (by rw [hn, Bool.true_and]; exact decide_eq_true h1)]
  unfold saveConfig
  simp only
  rw [if_neg h2]

theorem loop_not_due (t1 t2 : Nat) (s : State)
    (h : ¬ (s.needsSave = true ∧
      (t1 % 2 ^ 32 + 2 ^ 32 - s.lastSaveTime) % 2 ^ 32 ≥ SAVE_INTERVAL)) :
    loop t1 t2 s = s := by
  unfold loop
  rw [if_neg]
  intro hc
  rw [Bool.and_eq_true, decide_eq_true_eq] at hc
  exact h hc

/-- C12: one periodic check at clock value `now` (the test of `loop()` and
`saveConfig`, both reading `now`) is the transition `tick now` on `needsSave` and
`lastSaveTime`, with `now - lastSaveTime` taken in unsigned 32-bit arithmetic (the plain
difference when `lastSaveTime ≤ now`).  When `needsSave` is set and the difference is
at least 5000, exactly one storage write is performed, `needsSave` becomes false and
`lastSaveTime` becomes `now`; otherwise the state is unchanged: no write, and a pending
request stays pending. -/
theorem periodic_check_tick (s : State) (now : Nat) (hnow : now < 2 ^ 32) :
    (loop now now s).needsSave =
      (tick now { needsSave := s.needsSave, lastSaveTime := s.lastSaveTime }).1.needsSave ∧
    (loop now now s).lastSaveTime =
      (tick now { needsSave := s.needsSave, lastSaveTime := s.lastSaveTime }).1.lastSaveTime ∧
    (loop now now s).storageWrites = s.storageWrites ++
      (if (tick now { needsSave := s.needsSave, lastSaveTime := s.lastSaveTime }).2 = true
        then [now] else []) ∧
    (loop now now s).currentConfig = s.currentConfig ∧
    (s.needsSave = true ∧ elapsed32 now s.lastSaveTime ≥ 5000 →
      loop now now s =
        { s with
          needsSave := false
          lastSaveTime := now
          preferences := saveWrites s.currentConfig s.preferences
          storageWrites := s.storageWrites ++ [now] }) ∧
    (¬ (s.needsSave = true ∧ elapsed32 now s.lastSaveTime ≥ 5000) → loop now now s = s) ∧
    (s.lastSaveTime ≤ now → elapsed32 now s.lastSaveTime = now - s.lastSaveTime) := by
  have hmod : now % 2 ^ 32 = now := Nat.mod_eq_of_lt hnow
  have hdue : s.needsSave = true ∧ elapsed32 now s.lastSaveTime ≥ 5000 →
      loop now now s =
        { s with
          needsSave := false
          lastSaveTime := now
          preferences := saveWrites s.currentConfig s.preferences
          storageWrites := s.storageWrites ++ [now] } := by
    intro h
    have h1 : (now % 2 ^ 32 + 2 ^ 32 - s.lastSaveTime) % 2 ^ 32 ≥ SAVE_INTERVAL := by
      rw [hmod]; exact h.2
    have := loop_due now now s h.1 h1 (by unfold SAVE_INTERVAL at h1 ⊢; omega)
    rw [hmod] at this
    exact this
  have hnot : ¬ (s.needsSave = true ∧ elapsed32 now s.lastSaveTime ≥ 5000) →
      loop now now s = s := by
    intro h
    apply loop_not_due
    rw [hmod]
    exact h
  have hplain : s.lastSaveTime ≤ now → elapsed32 now s.lastSaveTime = now - s.lastSaveTime := by
    intro h
    unfold elapsed32
    omega
  by_cases hc : s.needsSave = true ∧ elapsed32 now s.lastSaveTime ≥ 5000
  · rw [hdue hc]
    exact ⟨by simp [tick, hc], by simp [tick, hc], by simp [tick, hc], rfl, fun _ => rfl,
      fun h => absurd hc h, hplain⟩
  · rw [hnot hc]
    exact ⟨by simp [tick, hc], by simp [tick, hc], by simp [tick, hc], rfl,
      fun h => absurd h hc, fun _ => rfl, hplain⟩

theorem periodic_check_tick_witness :
    (loop 6000 6000 (handlePoseCommand "POSE:1:10".toList (setup emptyPreferences))).needsSave
      = false ∧
    (loop 6000 6000 (handlePoseCommand "POSE:1:10".toList (setup emptyPreferences))).lastSaveTime
      = 6000 ∧
    (loop 6000 6000 (handlePoseCommand "POSE:1:10".toList (setup emptyPreferences))).storageWrites
      = [6000] ∧
    loop 4000 4000 (handlePoseCommand "POSE:1:10".toList (setup emptyPreferences)) =
      handlePoseCommand "POSE:1:10".toList (setup emptyPreferences) ∧
    loop 6000 6000 (setup emptyPreferences) = setup emptyPreferences := by
  have h1 := periodic_check_tick
    (handlePoseCommand "POSE:1:10".toList (setup emptyPreferences)) 6000 (by decide)
  have h2 := periodic_check_tick
    (handlePoseCommand "POSE:1:10".toList (setup emptyPreferences)) 4000 (by decide)
  have h3 := periodic_check_tick (setup emptyPreferences) 6000 (by decide)
  refine ⟨h1.1.trans (by decide), h1.2.1.trans (by decide), h1.2.2.1.trans (by decide),
    h2.2.2.2.2.2.1 (by decide), h3.2.2.2.2.2.1 (by decide)⟩

/-- C20: for every clock value `lastSaveTime` and every true elapsed time `e` below
`2 ^ 32`, the unsigned 32-bit difference between `now = (lastSaveTime + e) mod 2 ^ 32`
and `lastSaveTime` is `e`, so that the periodic check at `now` with `needsSave` set
performs a storage write if and only if `e ≥ 5000`, also when the clock has wrapped
around in between; when `e < 5000` the check leaves the state unchanged. -/
theorem elapsed_test_wraps (s : State) (e : Nat) (hn : s.needsSave = true)
    (hl : s.lastSaveTime < 2 ^ 32) (he : e < 2 ^ 32) :
    elapsed32 ((s.lastSaveTime + e) % 2 ^ 32) s.lastSaveTime = e ∧
    ((loop ((s.lastSaveTime + e) % 2 ^ 32) ((s.lastSaveTime + e) % 2 ^ 32) s).storageWrites =
      s.storageWrites ++ [(s.lastSaveTime + e) % 2 ^ 32] ↔ 5000 ≤ e) ∧
    ((loop ((s.lastSaveTime + e) % 2 ^ 32) ((s.lastSaveTime + e) % 2 ^ 32) s).preferences =
      saveWrites s.currentConfig s.preferences ∨
      loop ((s.lastSaveTime + e) % 2 ^ 32) ((s.lastSaveTime + e) % 2 ^ 32) s = s) ∧
    (e < 5000 →
      loop ((s.lastSaveTime + e) % 2 ^ 32) ((s.lastSaveTime + e) % 2 ^ 32) s = s) := by
  have hel : elapsed32 ((s.lastSaveTime + e) % 2 ^ 32) s.lastSaveTime = e := by
    unfold elapsed32; omega
  have hmod : (s.lastSaveTime + e) % 2 ^ 32 % 2 ^ 32 = (s.lastSaveTime + e) % 2 ^ 32 :=
    Nat.mod_mod _ _
  have hraw : ((s.lastSaveTime + e) % 2 ^ 32 % 2 ^ 32 + 2 ^ 32 - s.lastSaveTime) % 2 ^ 32 = e := by
    rw [hmod]; exact hel
  by_cases h5 : 5000 ≤ e
  · have hd := loop_due ((s.lastSaveTime + e) % 2 ^ 32) ((s.lastSaveTime + e) % 2 ^ 32) s hn
      (by rw [hraw]; exact h5) (by rw [hraw]; unfold SAVE_INTERVAL; omega)
    rw [hd]
    exact ⟨hel, ⟨fun _ => h5, fun _ => rfl⟩, Or.inl rfl, fun h => absurd h5 (by omega)⟩
  · have hd := loop_not_due ((s.lastSaveTime + e) % 2 ^ 32) ((s.lastSaveTime + e) % 2 ^ 32) s
      (by rw [hraw]; unfold SAVE_INTERVAL; omega)
    rw [hd]
    refine ⟨hel, ⟨fun h => ?_, fun h => absurd h h5⟩, Or.inr rfl, fun _ => rfl⟩
    have := congrArg List.length h
    simp at this

theorem elapsed_test_wraps_witness :
    elapsed32 ((4294967290 + 5006) % 2 ^ 32) 4294967290 = 5006 ∧
    (loop 5000 5000
      { handlePoseCommand "POSE:1:10".toList (setup emptyPreferences) with
        lastSaveTime := 4294967290 }).storageWrites = [5000] := by
  have h := elapsed_test_wraps
    { handlePoseCommand "POSE:1:10".toList (setup emptyPreferences) with
      lastSaveTime := 4294967290 } 5006 (by decide) (by decide) (by decide)
  exact ⟨h.1, (h.2.1.mpr (by decide)).trans (by decide)⟩

end IronManMask

namespace IronManMask

/-! ## Fields with and without a leading integer -/

theorem saturate_zero : saturate 0 = 0 := by decide

theorem toInt_noLeadingInteger (f : Str) (h : noLeadingInteger f = true) : toInt f = 0 := by
  have hstop : digitsValue (digitsPart f) 0 = 0 := by
    apply digitsValue_stop
    intro c hc
    unfold noLeadingInteger at h
    cases hd : digitsPart f with
    | nil => rw [hd] at hc; cases hc
    | cons d ds =>
      rw [hd] at hc h
      simp only [List.head?_cons, Option.some.injEq] at hc
      subst hc
      simpa using h
  unfold toInt
  unfold digitsPart at hstop
  split
  · next r heq =>
      rw [heq] at hstop
      simp only at hstop
      rw [hstop]; decide
  · next r heq =>
      rw [heq] at hstop
      simp only at hstop
      rw [hstop]; decide
  · next r h1 h2 =>
      split at hstop
      · next r2 heq => exact absurd heq (h1 r2)
      · next r2 heq => exact absurd heq (h2 r2)
      · rw [hstop]; decide

theorem digitsValue_zeros (k : Nat) (body : Str) :
    digitsValue (List.replicate k '0' ++ body) 0 = digitsValue body 0 := by
  induction k with
  | zero => rfl
  | succ k ih =>
    rw [List.replicate_succ, List.cons_append]
    have : digitsValue ('0' :: (List.replicate k '0' ++ body)) 0 =
        digitsValue (List.replicate k '0' ++ body) 0 := by
      simp [digitsValue]
    rw [this, ih]

theorem digits_head_isDigit (k n : Nat) (rest : Str) :
    ∃ c cs, List.replicate k '0' ++ (fmtInt n ++ rest) = c :: cs ∧ c.isDigit = true := by
  cases k with
  | zero =>
    obtain ⟨c, cs, h, hd⟩ := fmtInt_head n
    exact ⟨c, cs ++ rest, by simp [h], hd⟩
  | succ k =>
    exact ⟨'0', List.replicate k '0' ++ (fmtInt n ++ rest), by simp [List.replicate_succ],
      by decide⟩

theorem toInt_signed_digits (neg plus : Bool) (body : Str) (c : Char) (cs : Str)
    (hb : body = c :: cs) (hd : c.isDigit = true) :
    toInt (signText neg plus ++ body) = saturate (integerValue neg (digitsValue body 0)) := by
  have hf := isDigit_facts c hd
  cases neg with
  | true =>
    have hs : isSpace '-' = false := by decide
    show toInt ('-' :: body) = saturate (-(digitsValue body 0 : Int))
    unfold toInt
    rw [List.dropWhile_cons, hs]
    simp
  | false =>
    cases plus with
    | true =>
      have hs : isSpace '+' = false := by decide
      show toInt ('+' :: body) = saturate (digitsValue body 0 : Int)
      unfold toInt
      rw [List.dropWhile_cons, hs]
      simp
    | false =>
      show toInt body = saturate (digitsValue body 0 : Int)
      unfold toInt
      rw [hb, List.dropWhile_cons, hf.1]
      simp only [Bool.false_eq_true, if_false]
      split
      · next heq => exact absurd (List.cons.inj heq).1 hf.2.1
      · next heq => exact absurd (List.cons.inj heq).1 hf.2.2.1
      · rfl

theorem toInt_white (ws body : Str) (hws : ∀ c ∈ ws, isSpace c = true) :
    toInt (ws ++ body) = toInt body := by
  induction ws with
  | nil => rfl
  | cons w ws ih =>
    have h1 : toInt (w :: (ws ++ body)) = toInt (ws ++ body) := by
      unfold toInt
      rw [List.dropWhile_cons, hws w (by simp)]
      simp
    rw [List.cons_append, h1]
    exact ih (fun c hc => hws c (by simp [hc]))

theorem toInt_integerText (ws : Str) (neg plus : Bool) (k n : Nat) (rest : Str)
    (h : IntegerParts ws rest) :
    toInt (integerText ws neg plus k n rest) = saturate (integerValue neg n) := by
  have hv : digitsValue (List.replicate k '0' ++ (fmtInt n ++ rest)) 0 = n := by
    rw [digitsValue_zeros, digitsValue_fmtInt, digitsValue_stop rest n h.2]
  obtain ⟨c, cs, hcs, hd⟩ := digits_head_isDigit k n rest
  unfold integerText
  rw [toInt_white ws _ h.1, toInt_signed_digits neg plus _ c cs hcs hd, hv]

/-- What is stored for a field: 0 when it does not begin with an integer, the clamped
integer when it does. -/
theorem stored_value (f : Str) :
    (noLeadingInteger f = true → constrain (toInt f) 0 180 = 0) ∧
    (∀ (ws : Str) (neg plus : Bool) (k n : Nat) (rest : Str),
      f = integerText ws neg plus k n rest → IntegerParts ws rest →
        constrain (toInt f) 0 180 = constrain (integerValue neg n) 0 180) := by
  constructor
  · intro h
    rw [toInt_noLeadingInteger f h]; decide
  · intro ws neg plus k n rest hf hp
    rw [hf, toInt_integerText ws neg plus k n rest hp, constrain_saturate]

/-! ## Every field is of one of the two kinds -/

theorem isDigit_bounds (c : Char) (h : c.isDigit = true) : 48 ≤ c.toNat ∧ c.toNat ≤ 57 := by
  simp only [Char.isDigit, Bool.and_eq_true, decide_eq_true_eq] at h
  constructor
  · have := h.1
    rw [ge_iff_le, UInt32.le_def] at this
    simpa [Char.toNat, UInt32.toNat] using this
  · have := h.2
    rw [UInt32.le_def] at this
    simpa [Char.toNat, UInt32.toNat] using this

theorem digitChar_of_isDigit (c : Char) (h : c.isDigit = true) :
    Nat.digitChar (c.toNat - 48) = c := by
  have h1 := isDigit_bounds c h
  have h2 : c = Char.ofNat c.toNat := (Char.ofNat_toNat c).symm
  obtain ⟨m, hm⟩ : ∃ m, c.toNat = m := ⟨_, rfl⟩
  rw [h2, hm]
  rw [hm] at h1
  obtain ⟨a, b⟩ := h1
  interval_cases m <;> decide

theorem digitsValue_append (rest : Str) : ∀ (ds : Str) (acc : Nat),
    (∀ c ∈ ds, c.isDigit = true) →
    digitsValue (ds ++ rest) acc = digitsValue rest (digitsValue ds acc) := by
  intro ds
  induction ds with
  | nil => intro acc _; rfl
  | cons c cs ih =>
    intro acc h
    simp only [List.cons_append, digitsValue, h c (by simp), if_true]
    exact ih _ (fun x hx => h x (by simp [hx]))

theorem digitsValue_ge : ∀ (ds : Str) (acc : Nat), acc ≤ digitsValue ds acc := by
  intro ds
  induction ds with
  | nil => intro acc; exact le_refl _
  | cons c cs ih =>
    intro acc
    simp only [digitsValue]
    split
    · exact le_trans (by omega) (ih _)
    · exact le_refl _

theorem digitsValue_pos (c : Char) (cs : Str) (hd : c.isDigit = true) (h0 : c ≠ '0') :
    1 ≤ digitsValue (c :: cs) 0 := by
  have hb := isDigit_bounds c hd
  have hne : c.toNat ≠ 48 := by
    intro h
    apply h0
    rw [← Char.ofNat_toNat c, h]
  simp only [digitsValue, hd, if_true]
  exact le_trans (by omega) (digitsValue_ge cs _)

theorem digitsValue_single (c : Char) (acc : Nat) (hc : c.isDigit = true) :
    digitsValue [c] acc = acc * 10 + (c.toNat - 48) := by
  simp [digitsValue, hc]

/-- A digit string without leading zero is the decimal text of its value. -/
theorem fmtInt_digitsValue (ds : Str) : ds ≠ [] → (∀ c ∈ ds, c.isDigit = true) →
    ds.head? ≠ some '0' → fmtInt (digitsValue ds 0) = ds := by
  induction ds using List.reverseRecOn with
  | nil => intro h; exact absurd rfl h
  | append_singleton init c ih =>
    intro _ hd hz
    have hc : c.isDigit = true := hd c (by simp)
    have hcb := isDigit_bounds c hc
    have hinit : ∀ x ∈ init, x.isDigit = true := fun x hx => hd x (by simp [hx])
    rw [digitsValue_append [c] init 0 hinit, digitsValue_single c _ hc]
    cases init with
    | nil =>
      show fmtInt (0 * 10 + (c.toNat - 48)) = [c]
      rw [Nat.zero_mul, Nat.zero_add, fmtInt_small _ (by omega), digitChar_of_isDigit c hc]
    | cons a as =>
      have ha : a ≠ '0' := by
        intro h; apply hz; simp [h]
      have hv := digitsValue_pos a as (hinit a (by simp)) ha
      have hih := ih (by simp) hinit (by simp [ha])
      rw [fmtInt_step _ (by omega)]
      have e1 : (digitsValue (a :: as) 0 * 10 + (c.toNat - 48)) / 10 = digitsValue (a :: as) 0 := by
        omega
      have e2 : (digitsValue (a :: as) 0 * 10 + (c.toNat - 48)) % 10 = c.toNat - 48 := by
        omega
      rw [e1, e2, hih, digitChar_of_isDigit c hc]

/-- Every non-empty digit string is some zeros followed by the decimal text of a
number. -/
theorem digits_decompose : ∀ (ds : Str), ds ≠ [] → (∀ c ∈ ds, c.isDigit = true) →
    ∃ k n, ds = List.replicate k '0' ++ fmtInt n := by
  intro ds
  induction ds with
  | nil => intro h; exact absurd rfl h
  | cons c cs ih =>
    intro _ hd
    by_cases h0 : c = '0'
    · cases cs with
      | nil => exact ⟨0, 0, by rw [h0]; rfl⟩
      | cons a as =>
        obtain ⟨k, n, hkn⟩ := ih (by simp) (fun x hx => hd x (by simp [hx]))
        exact ⟨k + 1, n, by rw [h0, hkn, List.replicate_succ, List.cons_append]⟩
    · exact ⟨0, digitsValue (c :: cs) 0,
        by rw [fmtInt_digitsValue (c :: cs) (by simp) hd (by simp [h0])]; rfl⟩

/-- A text that starts with a digit splits into an `integerText` without white space
and sign. -/
theorem leading_digits (r : Str) (c : Char) (cs : Str) (hr : r = c :: cs)
    (hc : c.isDigit = true) :
    ∃ k n rest, r = List.replicate k '0' ++ (fmtInt n ++ rest) ∧
      ∀ x, rest.head? = some x → x.isDigit = false := by
  have hsplit := List.takeWhile_append_dropWhile Char.isDigit r
  have hne : r.takeWhile Char.isDigit ≠ [] := by
    rw [hr, List.takeWhile_cons, hc]; simp
  obtain ⟨k, n, hkn⟩ := digits_decompose _ hne (fun x hx => List.mem_takeWhile_imp hx)
  refine ⟨k, n, r.dropWhile Char.isDigit, ?_, ?_⟩
  · rw [← List.append_assoc, ← hkn, hsplit]
  · intro x hx
    have := List.head?_dropWhile_not Char.isDigit r
    rw [hx] at this
    exact this

theorem field_cases (f : Str) :
    noLeadingInteger f = true ∨
    ∃ (ws : Str) (neg plus : Bool) (k n : Nat) (rest : Str),
      f = integerText ws neg plus k n rest ∧ IntegerParts ws rest := by
  have hsplit := List.takeWhile_append_dropWhile isSpace f
  have hws : ∀ c ∈ f.takeWhile isSpace, isSpace c = true := fun c hc => List.mem_takeWhile_imp hc
  by_cases hn : noLeadingInteger f = true
  · exact Or.inl hn
  · right
    unfold noLeadingInteger at hn
    cases hd : digitsPart f with
    | nil => rw [hd] at hn; exact absurd rfl hn
    | cons c cs =>
      rw [hd] at hn
      have hc : c.isDigit = true := by simpa using hn
      obtain ⟨k, n, rest, hr, hrest⟩ := leading_digits (c :: cs) c cs rfl hc
      unfold digitsPart at hd
      split at hd
      · next r heq =>
          refine ⟨f.takeWhile isSpace, true, false, k, n, rest, ?_, hws, hrest⟩
          unfold integerText signText
          rw [if_pos rfl, ← hr, ← hd, List.singleton_append, ← heq, hsplit]
      · next r heq =>
          refine ⟨f.takeWhile isSpace, false, true, k, n, rest, ?_, hws, hrest⟩
          unfold integerText signText
          rw [if_neg (by decide), if_pos rfl, ← hr, ← hd, List.singleton_append, ← heq, hsplit]
      · refine ⟨f.takeWhile isSpace, false, false, k, n, rest, ?_, hws, hrest⟩
        unfold integerText signText
        rw [if_neg (by decide), if_neg (by decide), List.nil_append, ← hr, ← hd, hsplit]

end IronManMask

namespace IronManMask

/-! ## Accepted commands, by their index field -/

theorem handleServoCommand_accept (p : Fin NUM_POSES) (i : Fin NUM_SERVOS) (I V : Str)
    (s : State) (hI : ':' ∉ I) (hv : toInt I = (i.val : Int))
    (hp : s.currentConfig.currentPose = (p.val : Int)) :
    handleServoCommand ("SERVO:".toList ++ (I ++ ':' :: V)) s =
      some (servoAccepted p i (constrain (toInt V) 0 180) s) := by
  have hi8 : i.val < 8 := i.isLt
  have hp8 : p.val < 8 := p.isLt
  have hr : ¬ (toInt I < 0 ∨ toInt I ≥ NUM_SERVOS) := by
    rw [hv]; simp only [NUM_SERVOS]; omega
  have hc : 0 ≤ s.currentConfig.currentPose ∧ s.currentConfig.currentPose < NUM_POSES := by
    rw [hp]; simp only [NUM_POSES]; omega
  rw [handleServoCommand_header I V s hI, dif_neg hr, dif_pos hc]
  have e1 : ∀ h, (⟨s.currentConfig.currentPose.toNat, h⟩ : Fin NUM_POSES) = p := by
    intro h; apply Fin.ext; simp [hp]
  have e2 : ∀ h, (⟨(toInt I).toNat, h⟩ : Fin NUM_SERVOS) = i := by
    intro h; apply Fin.ext; simp [hv]
  rw [e1, e2]

theorem servoAccepted_position (p q : Fin NUM_POSES) (i j : Fin NUM_SERVOS) (v : Int)
    (s : State) :
    (((servoAccepted p i v s).currentConfig.poses q).servos j).position =
      if q = p ∧ j = i then v else ((s.currentConfig.poses q).servos j).position := by
  unfold servoAccepted
  exact setPosition_position _ _ _ _ _ _

/-- C11: numeric fields never make a command fail.  For every `POSE` command whose
index field parses to a pose `p` below 8 and every `SERVO` command whose index field
parses to a channel `i` below 8 (in a state with `currentPose` in range), the command
is accepted (`needsSave` is set, `POSE` selects `p`); a position field that does not
begin with an integer (after optional white space and sign no digit follows: text
without number, or empty text) stores 0 in its channel; a position field that begins
with an integer (optional white space, optional sign, decimal digits) stores that
integer clamped to `[0, 180]`.  Every text is of one of these two kinds. -/
theorem numeric_field_never_fails (s : State) (p : Fin NUM_POSES) (P : Str)
    (fields : List Str) (i : Fin NUM_SERVOS) (I V : Str)
    (hP : ':' ∉ P) (hPv : toInt P = (p.val : Int)) (hne : fields ≠ [])
    (hcol : ∀ f ∈ fields, ':' ∉ f)
    (hI : ':' ∉ I) (hIv : toInt I = (i.val : Int)) (hcur : s.currentConfig.poseInRange) :
    (handlePoseCommand ("POSE:".toList ++ (P ++ ':' :: joinFields fields)) s
      ).currentConfig.currentPose = p.val ∧
    (handlePoseCommand ("POSE:".toList ++ (P ++ ':' :: joinFields fields)) s).needsSave = true ∧
    (∀ (j : Fin NUM_SERVOS) (hj : j.val < fields.length),
      (noLeadingInteger (fields.get ⟨j.val, hj⟩) = true →
        (((handlePoseCommand ("POSE:".toList ++ (P ++ ':' :: joinFields fields)) s
          ).currentConfig.poses p).servos j).position = 0) ∧
      (∀ (ws : Str) (neg plus : Bool) (k n : Nat) (rest : Str),
        fields.get ⟨j.val, hj⟩ = integerText ws neg plus k n rest → IntegerParts ws rest →
        (((handlePoseCommand ("POSE:".toList ++ (P ++ ':' :: joinFields fields)) s
          ).currentConfig.poses p).servos j).position = constrain (integerValue neg n) 0 180)) ∧
    (∃ s1, handleServoCommand ("SERVO:".toList ++ (I ++ ':' :: V)) s = some s1 ∧
      s1.needsSave = true ∧
      ∀ q : Fin NUM_POSES, (q.val : Int) = s.currentConfig.currentPose →
        (noLeadingInteger V = true → ((s1.currentConfig.poses q).servos i).position = 0) ∧
        (∀ (ws : Str) (neg plus : Bool) (k n : Nat) (rest : Str),
          V = integerText ws neg plus k n rest → IntegerParts ws rest →
          ((s1.currentConfig.poses q).servos i).position =
            constrain (integerValue neg n) 0 180)) ∧
    (∀ f : Str, noLeadingInteger f = true ∨
      ∃ (ws : Str) (neg plus : Bool) (k n : Nat) (rest : Str),
        f = integerText ws neg plus k n rest ∧ IntegerParts ws rest) := by
  rw [handlePoseCommand_accept p P fields s hP hPv hne hcol]
  refine ⟨rfl, rfl, ?_, ?_, field_cases⟩
  · intro j hj
    have hpos : (((poseAccepted p fields s).currentConfig.poses p).servos j).position =
        constrain (toInt (fields.get ⟨j.val, hj⟩)) 0 180 := by
      rw [poseAccepted_position, if_pos rfl, List.get?_eq_get hj]
    rw [hpos]
    exact stored_value _
  · have hp8 : 0 ≤ s.currentConfig.currentPose ∧ s.currentConfig.currentPose < 8 := hcur
    have hcp : s.currentConfig.currentPose =
        (((⟨s.currentConfig.currentPose.toNat, by simp only [NUM_POSES]; omega⟩ :
          Fin NUM_POSES).val : Nat) : Int) := by
      simp only; omega
    refine ⟨_, handleServoCommand_accept _ i I V s hI hIv hcp, rfl, ?_⟩
    intro q hq
    have hqe : q = (⟨s.currentConfig.currentPose.toNat, by simp only [NUM_POSES]; omega⟩ :
        Fin NUM_POSES) := by
      apply Fin.ext; simp only; omega
    rw [servoAccepted_position, if_pos ⟨hqe, rfl⟩]
    exact stored_value _

theorem numeric_field_never_fails_witness :
    (((handlePoseCommand "POSE:3:abc: +007x::250".toList (setup emptyPreferences)
      ).currentConfig.poses 3).servos 0).position = 0 ∧
    (((handlePoseCommand "POSE:3:abc: +007x::250".toList (setup emptyPreferences)
      ).currentConfig.poses 3).servos 1).position = 7 ∧
    (((handlePoseCommand "POSE:3:abc: +007x::250".toList (setup emptyPreferences)
      ).currentConfig.poses 3).servos 2).position = 0 ∧
    (((handlePoseCommand "POSE:3:abc: +007x::250".toList (setup emptyPreferences)
      ).currentConfig.poses 3).servos 3).position = 180 ∧
    ∃ s1, handleServoCommand "SERVO:2:x9".toList (setup emptyPreferences) = some s1 ∧
      s1.needsSave = true ∧ ((s1.currentConfig.poses 0).servos 2).position = 0 := by
  have h := numeric_field_never_fails (setup emptyPreferences) 3 "3".toList
    ["abc".toList, " +007x".toList, [], "250".toList] 2 "2".toList "x9".toList
    (by decide) (by decide) (by decide) (by decide) (by decide) (by decide) (by decide)
  obtain ⟨_, _, hpose, ⟨s1, hs1, hn, hservo⟩, _⟩ := h
  refine ⟨(hpose 0 (by decide)).1 (by decide),
    ((hpose 1 (by decide)).2 [' '] false true 2 7 ['x'] (by decide)
      ⟨by decide, fun c hc => by cases hc; decide⟩).trans (by decide),
    (hpose 2 (by decide)).1 (by decide),
    ((hpose 3 (by decide)).2 [] false false 0 250 [] (by decide)
      ⟨by decide, fun c hc => by cases hc⟩).trans (by decide),
    s1, hs1, hn, (hservo 0 (by decide)).1 (by decide)⟩

end IronManMask

namespace IronManMask

theorem poseCommand_empty_list (p : Int) : poseCommand p [[]] = "POSE:".toList ++ (decimal p ++ [':']) :=
  rfl

/-- C17: an accepted `POSE` command overwrites at least channel 0.  For every pose index
`p` below 8 the command `POSE:p:` (header, then an empty value list) is accepted: it
stores 0 in channel 0 of pose `p`, leaves channels 1 to 7 of pose `p` at their values,
sets `currentPose = p` and sets `needsSave`; and whatever colon-free fields follow the
header, channel 0 receives the clamped value of the first one. -/
theorem empty_value_list_writes_channel0 (s : State) (p : Fin NUM_POSES) :
    (handlePoseCommand ("POSE:".toList ++ (decimal p.val ++ [':'])) s
      ).currentConfig.currentPose = p.val ∧
    (handlePoseCommand ("POSE:".toList ++ (decimal p.val ++ [':'])) s).needsSave = true ∧
    (((handlePoseCommand ("POSE:".toList ++ (decimal p.val ++ [':'])) s
      ).currentConfig.poses p).servos 0).position = 0 ∧
    (∀ j : Fin NUM_SERVOS, j ≠ 0 →
      (((handlePoseCommand ("POSE:".toList ++ (decimal p.val ++ [':'])) s
        ).currentConfig.poses p).servos j).position =
        ((s.currentConfig.poses p).servos j).position) ∧
    (∀ (f : Str) (fs : List Str), (∀ g ∈ f :: fs, ':' ∉ g) →
      (((handlePoseCommand (poseCommand p.val (f :: fs)) s).currentConfig.poses p).servos
        0).position = constrain (toInt f) 0 180) := by
  have hacc := handlePoseCommand_accept p (decimal p.val) [[]] s (decimal_no_colon _)
    (decimal_index p) (by simp) (by simp)
  have he : "POSE:".toList ++ (decimal (p.val : Int) ++ ':' :: joinFields [[]]) =
      "POSE:".toList ++ (decimal (p.val : Int) ++ [':']) := rfl
  rw [he] at hacc
  rw [hacc]
  refine ⟨rfl, rfl, ?_, ?_, ?_⟩
  · rw [poseAccepted_position, if_pos rfl]
    show constrain (toInt []) 0 180 = 0
    decide
  · intro j hj
    have hj1 : 1 ≤ j.val := by
      rcases Nat.eq_zero_or_pos j.val with h | h
      · exact absurd (Fin.ext h) hj
      · exact h
    rw [poseAccepted_position, if_pos rfl, List.get?_eq_none.mpr (by simpa using hj1)]
  · intro f fs hcol
    unfold poseCommand
    rw [handlePoseCommand_accept p (decimal p.val) (f :: fs) s (decimal_no_colon _)
      (decimal_index p) (by simp) hcol, poseAccepted_position, if_pos rfl]
    rfl

theorem empty_value_list_writes_channel0_witness :
    (((handlePoseCommand "POSE:5:".toList
      (handlePoseCommand "POSE:5:1:2:3:4:5:6:7:8".toList (setup emptyPreferences))
      ).currentConfig.poses 5).servos 0).position = 0 ∧
    (((handlePoseCommand "POSE:5:".toList
      (handlePoseCommand "POSE:5:1:2:3:4:5:6:7:8".toList (setup emptyPreferences))
      ).currentConfig.poses 5).servos 1).position = 2 ∧
    (((handlePoseCommand (poseCommand 5 ["33".toList, "44".toList])
      (setup emptyPreferences)).currentConfig.poses 5).servos 0).position = 33 := by
  have h := empty_value_list_writes_channel0
    (handlePoseCommand "POSE:5:1:2:3:4:5:6:7:8".toList (setup emptyPreferences)) 5
  have h2 := (empty_value_list_writes_channel0 (setup emptyPreferences) 5).2.2.2.2
    "33".toList ["44".toList] (by decide)
  exact ⟨h.2.2.1, (h.2.2.2.1 1 (by decide)).trans (by decide), h2.trans (by decide)⟩

/-- C18: the index field is parsed like a position field, with 0 as default.  A `POSE`
command whose index field does not begin with an integer (empty or text without number,
as in `POSE::10` and `POSE:x:10`) is accepted as pose 0: pose 0 receives the fields and
`currentPose` becomes 0.  A `SERVO` command whose index field does not begin with an
integer is accepted, in a state with `currentPose` in range, as channel 0 of the
current pose. -/
theorem index_field_defaults_to_zero (s : State) (P I V : Str) (fields : List Str)
    (hP : ':' ∉ P) (hPn : noLeadingInteger P = true) (hne : fields ≠ [])
    (hcol : ∀ f ∈ fields, ':' ∉ f)
    (hI : ':' ∉ I) (hIn : noLeadingInteger I = true) (hcur : s.currentConfig.poseInRange) :
    (handlePoseCommand ("POSE:".toList ++ (P ++ ':' :: joinFields fields)) s
      ).currentConfig.currentPose = 0 ∧
    (handlePoseCommand ("POSE:".toList ++ (P ++ ':' :: joinFields fields)) s).needsSave = true ∧
    (∀ (j : Fin NUM_SERVOS) (hj : j.val < fields.length),
      (((handlePoseCommand ("POSE:".toList ++ (P ++ ':' :: joinFields fields)) s
        ).currentConfig.poses 0).servos j).position =
        constrain (toInt (fields.get ⟨j.val, hj⟩)) 0 180) ∧
    (∃ s1, handleServoCommand ("SERVO:".toList ++ (I ++ ':' :: V)) s = some s1 ∧
      s1.needsSave = true ∧
      s1.servoWrites = s.servoWrites ++ [(0, constrain (toInt V) 0 180)] ∧
      ∀ (q : Fin NUM_POSES) (j : Fin NUM_SERVOS),
        ((s1.currentConfig.poses q).servos j).position =
          if (q.val : Int) = s.currentConfig.currentPose ∧ j = 0 then constrain (toInt V) 0 180
          else ((s.currentConfig.poses q).servos j).position) := by
  have hP0 : toInt P = (((0 : Fin NUM_POSES).val : Nat) : Int) := toInt_noLeadingInteger P hPn
  have hI0 : toInt I = (((0 : Fin NUM_SERVOS).val : Nat) : Int) := toInt_noLeadingInteger I hIn
  rw [handlePoseCommand_accept 0 P fields s hP hP0 hne hcol]
  refine ⟨rfl, rfl, ?_, ?_⟩
  · intro j hj
    rw [poseAccepted_position, if_pos rfl, List.get?_eq_get hj]
  · have hp8 : 0 ≤ s.currentConfig.currentPose ∧ s.currentConfig.currentPose < 8 := hcur
    have hcp : s.currentConfig.currentPose =
        (((⟨s.currentConfig.currentPose.toNat, by simp only [NUM_POSES]; omega⟩ :
          Fin NUM_POSES).val : Nat) : Int) := by
      simp only; omega
    refine ⟨_, handleServoCommand_accept _ 0 I V s hI hI0 hcp, rfl, rfl, ?_⟩
    intro q j
    rw [servoAccepted_position]
    have hq : (q = (⟨s.currentConfig.currentPose.toNat, by simp only [NUM_POSES]; omega⟩ :
        Fin NUM_POSES)) ↔ ((q.val : Int) = s.currentConfig.currentPose) := by
      rw [Fin.ext_iff]
      simp only
      omega
    simp only [hq]

theorem index_field_defaults_to_zero_witness :
    (handlePoseCommand "POSE:x:10".toList
      (handlePoseCommand "POSE:4:1".toList (setup emptyPreferences))
      ).currentConfig.currentPose = 0 ∧
    (((handlePoseCommand "POSE:x:10".toList
      (handlePoseCommand "POSE:4:1".toList (setup emptyPreferences))
      ).currentConfig.poses 0).servos 0).position = 10 ∧
    (handlePoseCommand "POSE::10".toList
      (handlePoseCommand "POSE:4:1".toList (setup emptyPreferences))
      ).currentConfig.currentPose = 0 ∧
    ∃ s1, handleServoCommand "SERVO::77".toList
        (handlePoseCommand "POSE:4:1".toList (setup emptyPreferences)) = some s1 ∧
      ((s1.currentConfig.poses 4).servos 0).position = 77 := by
  have h := index_field_defaults_to_zero
    (handlePoseCommand "POSE:4:1".toList (setup emptyPreferences))
    "x".toList [] "77".toList ["10".toList]
    (by decide) (by decide) (by decide) (by decide) (by decide) (by decide) (by decide)
  have h2 := index_field_defaults_to_zero
    (handlePoseCommand "POSE:4:1".toList (setup emptyPreferences))
    [] [] "77".toList ["10".toList]
    (by decide) (by decide) (by decide) (by decide) (by decide) (by decide) (by decide)
  obtain ⟨a, _, b, s1, hs1, _, _, hpos⟩ := h
  exact ⟨a, (b 0 (by decide)).trans (by decide), h2.1, s1, hs1,
    (hpos 4 0).trans (by decide)⟩

end IronManMask

namespace IronManMask

/-! ## The loop of `handlePoseCommand` as a list of assignments -/

theorem poseLoop_eq_applyWrites (ps : Str) (p : Fin NUM_POSES) :
    ∀ (fuel k : Nat) (lastColon : Int) (cfg : Config),
    poseLoop ps p fuel k lastColon cfg = applyWrites p (poseLoopWrites ps fuel k lastColon) cfg := by
  intro fuel
  induction fuel with
  | zero => intro k lastColon cfg; rfl
  | succ fuel ih =>
    intro k lastColon cfg
    by_cases hk : k < NUM_SERVOS
    · simp only [poseLoop, poseLoopWrites, dif_pos hk, if_pos hk]
      split_ifs with h1
      · simp only [applyWrites, dif_pos hk]
      · simp only [applyWrites, dif_pos hk]
        exact ih _ _ _
    · simp only [poseLoop, poseLoopWrites, dif_neg hk, if_neg hk, applyWrites]

theorem poseLoopWrites_inRange (ps : Str) :
    ∀ (fuel k : Nat) (lastColon : Int), ∀ w ∈ poseLoopWrites ps fuel k lastColon,
      w.1 < NUM_SERVOS ∧ 0 ≤ w.2 ∧ w.2 ≤ 180 := by
  intro fuel
  induction fuel with
  | zero => intro k lastColon w hw; simp [poseLoopWrites] at hw
  | succ fuel ih =>
    intro k lastColon w hw
    by_cases hk : k < NUM_SERVOS
    · simp only [poseLoopWrites, if_pos hk, List.mem_cons] at hw
      rcases hw with hw | hw
      · rw [hw]
        exact ⟨hk, constrain_range _⟩
      · split_ifs at hw with h1
        · cases hw
        · exact ih _ _ w hw
    · simp [poseLoopWrites, if_neg hk] at hw

theorem applyWrites_spec (p : Fin NUM_POSES) : ∀ (ws : List (Nat × Int)) (cfg : Config),
    (applyWrites p ws cfg).currentPose = cfg.currentPose ∧
    (∀ q, ((applyWrites p ws cfg).poses q).name = (cfg.poses q).name) ∧
    (∀ (q : Fin NUM_POSES) (j : Fin NUM_SERVOS),
      (((applyWrites p ws cfg).poses q).servos j).position =
        if q = p then
          match lastWrite ws j.val with
          | some v => v
          | none => ((cfg.poses q).servos j).position
        else ((cfg.poses q).servos j).position) := by
  intro ws
  induction ws with
  | nil => intro cfg; simp [applyWrites, lastWrite]
  | cons w ws ih =>
    intro cfg
    by_cases hw : w.1 < NUM_SERVOS
    · simp only [applyWrites, dif_pos hw]
      obtain ⟨h1, h2, h3⟩ := ih (cfg.setPosition p ⟨w.1, hw⟩ w.2)
      refine ⟨by rw [h1, setPosition_currentPose], fun q => by rw [h2, setPosition_name], ?_⟩
      intro q j
      rw [h3, setPosition_position]
      by_cases hq : q = p
      · simp only [hq, if_true, true_and, lastWrite]
        cases hl : lastWrite ws j.val with
        | some v => rfl
        | none =>
          by_cases hj : w.1 = j.val
          · have hje : j = ⟨w.1, hw⟩ := Fin.ext hj.symm
            simp only [if_pos hj, if_pos hje]
          · have hje : ¬ j = ⟨w.1, hw⟩ := fun e => hj (by rw [e])
            simp only [if_neg hj, if_neg hje]
      · simp [hq]
    · simp only [applyWrites, dif_neg hw]
      obtain ⟨h1, h2, h3⟩ := ih cfg
      refine ⟨h1, h2, ?_⟩
      intro q j
      rw [h3]
      by_cases hq : q = p
      · simp only [hq, if_true, lastWrite]
        cases hl : lastWrite ws j.val with
        | some v => rfl
        | none =>
          have hj : ¬ w.1 = j.val := fun e => hw (by rw [e]; exact j.isLt)
          simp only [if_neg hj]
      · simp [hq]

theorem config_eq (c1 c2 : Config) (h1 : c1.currentPose = c2.currentPose)
    (h2 : ∀ q, (c1.poses q).name = (c2.poses q).name)
    (h3 : ∀ q j, ((c1.poses q).servos j).position = ((c2.poses q).servos j).position) :
    c1 = c2 := by
  apply Config.ext
  · funext q
    apply Pose.ext
    · exact h2 q
    · funext j
      exact ServoConfig.ext (h3 q j)
  · exact h1

/-- Applying the assignments of a command a second time, after `currentPose` has been
set, changes nothing. -/
theorem applyWrites_twice (p : Fin NUM_POSES) (ws : List (Nat × Int)) (cfg : Config) (x : Int) :
    applyWrites p ws { applyWrites p ws cfg with currentPose := x } =
      { applyWrites p ws cfg with currentPose := x } := by
  obtain ⟨a1, a2, a3⟩ := applyWrites_spec p ws { applyWrites p ws cfg with currentPose := x }
  obtain ⟨b1, b2, b3⟩ := applyWrites_spec p ws cfg
  apply config_eq
  · rw [a1]
  · intro q; rw [a2]
  · intro q j
    rw [a3]
    show (if q = p then
        match lastWrite ws j.val with
        | some v => v
        | none => (((applyWrites p ws cfg).poses q).servos j).position
      else (((applyWrites p ws cfg).poses q).servos j).position) =
      (((applyWrites p ws cfg).poses q).servos j).position
    rw [b3]
    by_cases hq : q = p
    · simp only [hq, if_true]
      cases lastWrite ws j.val <;> rfl
    · simp [hq]

theorem setPosition_twice (cfg : Config) (p : Fin NUM_POSES) (i : Fin NUM_SERVOS) (v : Int) :
    (cfg.setPosition p i v).setPosition p i v = cfg.setPosition p i v := by
  apply config_eq
  · rfl
  · intro q; rw [setPosition_name]
  · intro q j
    rw [setPosition_position]
    split
    · next h => rw [setPosition_position, if_pos h]
    · rfl

end IronManMask

namespace IronManMask

/-! ## A command does the same thing in every state -/

theorem handlePoseCommand_uniform (command : Str) :
    ((∀ s, handlePoseCommand command s = s) ∧ poseWriteTargets command = []) ∨
    ∃ (p : Fin NUM_POSES) (ps : Str),
      (∀ s, ∃ w, handlePoseCommand command s =
        { s with
          currentConfig :=
            { poseLoop ps p NUM_SERVOS 0 0 s.currentConfig with currentPose := (p.val : Int) }
          servoWrites := s.servoWrites ++ w
          needsSave := true }) ∧
      poseWriteTargets command =
        (poseLoopWrites ps NUM_SERVOS 0 0).map fun w => ((p.val : Int), w.1) := by
  by_cases h1 : indexOf command ':' 0 = -1
  · left
    constructor
    · intro s; unfold handlePoseCommand; simp only; rw [if_pos h1]
    · unfold poseWriteTargets; simp only; rw [if_pos h1]
  · by_cases h2 : indexOf command ':' (indexOf command ':' 0 + 1).toNat = -1
    · left
      constructor
      · intro s; unfold handlePoseCommand; simp only; rw [if_neg h1, if_pos h2]
      · unfold poseWriteTargets; simp only; rw [if_neg h1, if_pos h2]
    · by_cases h3 : toInt (substring command (indexOf command ':' 0 + 1).toNat
          (indexOf command ':' (indexOf command ':' 0 + 1).toNat).toNat) < 0 ∨
        toInt (substring command (indexOf command ':' 0 + 1).toNat
          (indexOf command ':' (indexOf command ':' 0 + 1).toNat).toNat) ≥ NUM_POSES
      · left
        constructor
        · intro s; unfold handlePoseCommand; simp only; rw [if_neg h1, if_neg h2, dif_pos h3]
        · unfold poseWriteTargets; simp only; rw [if_neg h1, if_neg h2, if_pos h3]
      · right
        have h4 : 0 ≤ toInt (substring command (indexOf command ':' 0 + 1).toNat
            (indexOf command ':' (indexOf command ':' 0 + 1).toNat).toNat) ∧
          (toInt (substring command (indexOf command ':' 0 + 1).toNat
            (indexOf command ':' (indexOf command ':' 0 + 1).toNat).toNat)).toNat < NUM_POSES := by
          simp only [NUM_POSES] at h3 ⊢; omega
        refine ⟨⟨_, h4.2⟩, substringFrom command
          (indexOf command ':' (indexOf command ':' 0 + 1).toNat + 1).toNat, ?_, ?_⟩
        · intro s
          obtain ⟨w, hw⟩ := poseBranch_form _ h3 h4.2 (substringFrom command
            (indexOf command ':' (indexOf command ':' 0 + 1).toNat + 1).toNat) s
          refine ⟨w, ?_⟩
          rw [← hw]
          unfold handlePoseCommand
          simp only
          rw [if_neg h1, if_neg h2, dif_neg h3]
        · unfold poseWriteTargets
          simp only
          rw [if_neg h1, if_neg h2, if_neg h3]
          simp only [Int.toNat_of_nonneg h4.1]

theorem handleServoCommand_uniform (command : Str) :
    (∀ s, handleServoCommand command s = some s) ∨
    ∃ (i : Fin NUM_SERVOS) (d : Int),
      ∀ s, (∀ p : Fin NUM_POSES, s.currentConfig.currentPose = (p.val : Int) →
          handleServoCommand command s = some (servoAccepted p i (constrain d 0 180) s)) ∧
        (¬ s.currentConfig.poseInRange → handleServoCommand command s = none) := by
  by_cases h1 : indexOf command ':' 0 = -1 ∨
      indexOf command ':' (indexOf command ':' 0 + 1).toNat = -1
  · left
    intro s; unfold handleServoCommand; simp only; rw [if_pos h1]
  · by_cases h3 : toInt (substring command (indexOf command ':' 0 + 1).toNat
          (indexOf command ':' (indexOf command ':' 0 + 1).toNat).toNat) < 0 ∨
        toInt (substring command (indexOf command ':' 0 + 1).toNat
          (indexOf command ':' (indexOf command ':' 0 + 1).toNat).toNat) ≥ NUM_SERVOS
    · left
      intro s; unfold handleServoCommand; simp only; rw [if_neg h1, dif_pos h3]
    · right
      have h4 : (toInt (substring command (indexOf command ':' 0 + 1).toNat
            (indexOf command ':' (indexOf command ':' 0 + 1).toNat).toNat)).toNat <
          NUM_SERVOS := by
        simp only [NUM_SERVOS] at h3 ⊢; omega
      refine ⟨⟨_, h4⟩, toInt (substringFrom command
        (indexOf command ':' (indexOf command ':' 0 + 1).toNat + 1).toNat), ?_⟩
      intro s
      constructor
      · intro p hp
        have hp8 : p.val < 8 := p.isLt
        have hc : 0 ≤ s.currentConfig.currentPose ∧ s.currentConfig.currentPose < NUM_POSES := by
          rw [hp]; simp only [NUM_POSES]; omega
        unfold handleServoCommand
        simp only
        rw [if_neg h1, dif_neg h3, dif_pos hc]
        have e1 : ∀ h, (⟨s.currentConfig.currentPose.toNat, h⟩ : Fin NUM_POSES) = p := by
          intro h; apply Fin.ext; simp [hp]
        simp only [e1]
        rfl
      · intro hn
        have hn2 : ¬ (0 ≤ s.currentConfig.currentPose ∧
            s.currentConfig.currentPose < NUM_POSES) := hn
        unfold handleServoCommand
        simp only
        rw [if_neg h1, dif_neg h3, dif_neg hn2]

end IronManMask

namespace IronManMask

/-! ## Bounds of the writes, extra fields, idempotence -/

theorem lastWrite_some : ∀ (ws : List (Nat × Int)) (j : Nat) (v : Int),
    lastWrite ws j = some v → ∃ w ∈ ws, w.1 = j := by
  intro ws
  induction ws with
  | nil => intro j v h; simp [lastWrite] at h
  | cons w ws ih =>
    intro j v h
    simp only [lastWrite] at h
    cases hl : lastWrite ws j with
    | some x =>
      obtain ⟨w2, hw2, he⟩ := ih j x hl
      exact ⟨w2, by simp [hw2], he⟩
    | none =>
      rw [hl] at h
      simp only at h
      by_cases hj : w.1 = j
      · exact ⟨w, by simp, hj⟩
      · rw [if_neg hj] at h; cases h

theorem applyFields_take (p : Fin NUM_POSES) : ∀ (fields : List Str) (k : Nat) (cfg : Config),
    applyFields p fields k cfg = applyFields p (fields.take (NUM_SERVOS - k)) k cfg := by
  intro fields
  induction fields with
  | nil => intro k cfg; simp [applyFields]
  | cons f fs ih =>
    intro k cfg
    by_cases hk : k < NUM_SERVOS
    · have h1 : NUM_SERVOS - k = (NUM_SERVOS - (k + 1)) + 1 := by omega
      rw [h1, List.take_succ_cons]
      simp only [applyFields, dif_pos hk]
      exact ih _ _
    · have h0 : NUM_SERVOS - k = 0 := by omega
      rw [h0, List.take_zero]
      simp only [applyFields, dif_neg hk]

theorem poseLoop_fields (p : Fin NUM_POSES) (fields : List Str) (cfg : Config)
    (hne : fields ≠ []) (hcol : ∀ f ∈ fields, ':' ∉ f) :
    poseLoop (joinFields fields) p NUM_SERVOS 0 0 cfg = applyFields p fields 0 cfg := by
  have hloop := poseLoop_join p fields hne hcol [] NUM_SERVOS 0 cfg (by simp)
  simpa only [List.nil_append, List.length_nil, Nat.cast_zero] using hloop

/-- The loop of `handlePoseCommand` ends within `NUM_SERVOS` iterations: a larger
bound on their number gives the same assignments. -/
theorem poseLoopWrites_fuel (ps : Str) : ∀ (fuel k : Nat) (lastColon : Int),
    NUM_SERVOS ≤ fuel + k →
    poseLoopWrites ps fuel k lastColon = poseLoopWrites ps (NUM_SERVOS - k) k lastColon := by
  intro fuel
  induction fuel with
  | zero =>
    intro k lastColon h
    have : NUM_SERVOS - k = 0 := by omega
    rw [this]
  | succ fuel ih =>
    intro k lastColon h
    by_cases hk : k < NUM_SERVOS
    · obtain ⟨m, hm⟩ : ∃ m, NUM_SERVOS - k = m + 1 := ⟨NUM_SERVOS - k - 1, by omega⟩
      have hm2 : m = NUM_SERVOS - (k + 1) := by omega
      rw [hm]
      simp only [poseLoopWrites, if_pos hk]
      rw [ih (k + 1) _ (by omega), hm2]
    · have : NUM_SERVOS - k = 0 := by omega
      rw [this]
      simp only [poseLoopWrites, if_neg hk]

/-- C19: `handlePoseCommand` never writes outside the 8 x 8 model, whatever the text.
Every assignment `poses[poseIndex].servos[servoIndex] = ...` it makes has
`0 ≤ poseIndex < 8` and `servoIndex < 8` (the loop making them ends within 8
iterations); a stored position that differs after the command is one of these
assignments; and a `POSE` command with more than 8 colon-free value fields leaves
exactly the state that the command cut to its first 8 value fields leaves. -/
theorem pose_writes_stay_in_model (command : Str) (s : State) (P : Str) (fields : List Str)
    (hP : ':' ∉ P) (hcol : ∀ f ∈ fields, ':' ∉ f) (hlen : 8 < fields.length) :
    (∀ t ∈ poseWriteTargets command, 0 ≤ t.1 ∧ t.1 < 8 ∧ t.2 < 8) ∧
    (∀ n : Nat, poseLoopWrites command (NUM_SERVOS + n) 0 0 =
      poseLoopWrites command NUM_SERVOS 0 0) ∧
    (∀ (q : Fin NUM_POSES) (j : Fin NUM_SERVOS),
      (((handlePoseCommand command s).currentConfig.poses q).servos j).position ≠
        ((s.currentConfig.poses q).servos j).position →
      ((q.val : Int), j.val) ∈ poseWriteTargets command) ∧
    handlePoseCommand ("POSE:".toList ++ (P ++ ':' :: joinFields fields)) s =
      handlePoseCommand ("POSE:".toList ++ (P ++ ':' :: joinFields (fields.take 8))) s := by
  refine ⟨?_, fun n => poseLoopWrites_fuel command (NUM_SERVOS + n) 0 0 (by omega), ?_, ?_⟩
  · intro t ht
    rcases handlePoseCommand_uniform command with ⟨_, h0⟩ | ⟨p, ps, _, hw⟩
    · rw [h0] at ht; cases ht
    · rw [hw] at ht
      obtain ⟨w, hwm, rfl⟩ := List.mem_map.mp ht
      have hp8 : p.val < 8 := p.isLt
      have := (poseLoopWrites_inRange ps NUM_SERVOS 0 0 w hwm).1
      simp only [NUM_SERVOS] at this
      exact ⟨by simp, by simp only; omega, this⟩
  · intro q j hne
    rcases handlePoseCommand_uniform command with ⟨h0, _⟩ | ⟨p, ps, hs, hw⟩
    · rw [h0 s] at hne; exact absurd rfl hne
    · obtain ⟨w, hsw⟩ := hs s
      rw [hsw] at hne
      have hpos : (((poseLoop ps p NUM_SERVOS 0 0 s.currentConfig).poses q).servos j).position ≠
          ((s.currentConfig.poses q).servos j).position := hne
      rw [poseLoop_eq_applyWrites, (applyWrites_spec p _ s.currentConfig).2.2 q j] at hpos
      by_cases hq : q = p
      · rw [if_pos hq] at hpos
        cases hl : lastWrite (poseLoopWrites ps NUM_SERVOS 0 0) j.val with
        | none => rw [hl] at hpos; exact absurd rfl hpos
        | some v =>
          obtain ⟨w2, hw2, he⟩ := lastWrite_some _ _ v hl
          rw [hw, hq]
          exact List.mem_map.mpr ⟨w2, hw2, by rw [he]⟩
      · rw [if_neg hq] at hpos; exact absurd rfl hpos
  · have hne : fields ≠ [] := by
      intro h; rw [h] at hlen; simp at hlen
    have hne8 : fields.take 8 ≠ [] := by
      intro h
      have h2 : (fields.take 8).length = min 8 fields.length := List.length_take _ _
      rw [h] at h2
      simp only [List.length_nil] at h2
      omega
    have hcol8 : ∀ f ∈ fields.take 8, ':' ∉ f := fun f hf => hcol f (List.mem_of_mem_take hf)
    rw [handlePoseCommand_header P _ s hP, handlePoseCommand_header P _ s hP]
    by_cases hr : toInt P < 0 ∨ toInt P ≥ NUM_POSES
    · rw [dif_pos hr, dif_pos hr]
    · rw [dif_neg hr, dif_neg hr, poseLoop_fields _ fields _ hne hcol,
        poseLoop_fields _ (fields.take 8) _ hne8 hcol8, applyFields_take _ fields 0]
      rfl

theorem pose_writes_stay_in_model_witness :
    poseWriteTargets "POSE:2:1:2:3:4:5:6:7:8:9:10".toList =
      [(2, 0), (2, 1), (2, 2), (2, 3), (2, 4), (2, 5), (2, 6), (2, 7)] ∧
    (∀ t ∈ poseWriteTargets "POSE:2:1:2:3:4:5:6:7:8:9:10".toList, 0 ≤ t.1 ∧ t.1 < 8 ∧ t.2 < 8) ∧
    handlePoseCommand ("POSE:".toList ++ ("2".toList ++ ':' :: joinFields
        ["1".toList, "2".toList, "3".toList, "4".toList, "5".toList, "6".toList, "7".toList,
          "8".toList, "9".toList, "10".toList])) (setup emptyPreferences) =
      handlePoseCommand ("POSE:".toList ++ ("2".toList ++ ':' :: joinFields
        (["1".toList, "2".toList, "3".toList, "4".toList, "5".toList, "6".toList, "7".toList,
          "8".toList, "9".toList, "10".toList].take 8))) (setup emptyPreferences) := by
  have h := pose_writes_stay_in_model "POSE:2:1:2:3:4:5:6:7:8:9:10".toList
    (setup emptyPreferences) "2".toList
    ["1".toList, "2".toList, "3".toList, "4".toList, "5".toList, "6".toList, "7".toList,
      "8".toList, "9".toList, "10".toList] (by decide) (by decide) (by decide)
  exact ⟨by decide, h.1, h.2.2.2⟩

end IronManMask

namespace IronManMask

theorem poseLoop_twice (ps : Str) (p : Fin NUM_POSES) (cfg : Config) (x : Int) :
    poseLoop ps p NUM_SERVOS 0 0 { poseLoop ps p NUM_SERVOS 0 0 cfg with currentPose := x } =
      { poseLoop ps p NUM_SERVOS 0 0 cfg with currentPose := x } := by
  rw [poseLoop_eq_applyWrites, poseLoop_eq_applyWrites]
  exact applyWrites_twice p _ cfg x

/-- C16: handling a command twice in a row gives the configuration and the `needsSave`
value that handling it once gives.  For every state with `0 ≤ currentPose < 8` and
every written text (a `POSE` or `SERVO` command, `GET_CONFIG` or anything else), both
writes are handled, and the second one leaves the configuration and `needsSave` as the
first one left them. -/
theorem command_idempotent (value : List Char) (s : State)
    (hcur : s.currentConfig.poseInRange) :
    ∃ s1 s2, onWrite value s = some s1 ∧ onWrite value s1 = some s2 ∧
      s2.currentConfig = s1.currentConfig ∧ s2.needsSave = s1.needsSave := by
  unfold onWrite
  simp only
  split_ifs with h0 h1 h2 h3
  · exact ⟨_, _, rfl, rfl, rfl, rfl⟩
  · rcases handlePoseCommand_uniform (cString value) with ⟨hs, _⟩ | ⟨p, ps, hs, _⟩
    · exact ⟨_, _, rfl, rfl, by rw [hs, hs], by rw [hs, hs]⟩
    · obtain ⟨w1, e1⟩ := hs s
      obtain ⟨w2, e2⟩ := hs (handlePoseCommand (cString value) s)
      refine ⟨_, _, rfl, rfl, ?_, ?_⟩
      · rw [e2, e1]
        show ({ poseLoop ps p NUM_SERVOS 0 0
            { poseLoop ps p NUM_SERVOS 0 0 s.currentConfig with currentPose := (p.val : Int) } with
            currentPose := (p.val : Int) } : Config) =
          { poseLoop ps p NUM_SERVOS 0 0 s.currentConfig with currentPose := (p.val : Int) }
        rw [poseLoop_twice]
      · rw [e2, e1]
  · rcases handleServoCommand_uniform (cString value) with hs | ⟨i, d, hs⟩
    · exact ⟨s, s, hs s, hs s, rfl, rfl⟩
    · have hp8 : 0 ≤ s.currentConfig.currentPose ∧ s.currentConfig.currentPose < 8 := hcur
      have hcp : s.currentConfig.currentPose =
          (((⟨s.currentConfig.currentPose.toNat, by simp only [NUM_POSES]; omega⟩ :
            Fin NUM_POSES).val : Nat) : Int) := by
        simp only; omega
      have e1 := (hs s).1 _ hcp
      have e2 := (hs (servoAccepted ⟨s.currentConfig.currentPose.toNat,
        by simp only [NUM_POSES]; omega⟩ i (constrain d 0 180) s)).1
          ⟨s.currentConfig.currentPose.toNat, by simp only [NUM_POSES]; omega⟩ hcp
      refine ⟨_, _, e1, e2, ?_, rfl⟩
      exact setPosition_twice _ _ _ _
  · exact ⟨_, _, rfl, rfl, rfl, rfl⟩
  · exact ⟨_, _, rfl, rfl, rfl, rfl⟩

theorem command_idempotent_witness :
    (∃ s1 s2, onWrite "POSE:3:10:20".toList (setup emptyPreferences) = some s1 ∧
      onWrite "POSE:3:10:20".toList s1 = some s2 ∧
      s2.currentConfig = s1.currentConfig ∧ s2.needsSave = s1.needsSave) ∧
    (∃ s1 s2, onWrite "SERVO:1:200".toList (setup emptyPreferences) = some s1 ∧
      onWrite "SERVO:1:200".toList s1 = some s2 ∧
      s2.currentConfig = s1.currentConfig ∧ s2.needsSave = s1.needsSave) :=
  ⟨command_idempotent "POSE:3:10:20".toList (setup emptyPreferences) (by decide),
    command_idempotent "SERVO:1:200".toList (setup emptyPreferences) (by decide)⟩

end IronManMask

namespace IronManMask

/-! ## A failed storage write -/

theorem foldl_bind_ops (α : Type) (g : α → List (Str × PrefValue)) :
    ∀ (l : List α) (pr : Preferences),
    applyOps (l.flatMap g) pr = l.foldl (fun pr a => applyOps (g a) pr) pr := by
  intro l
  induction l with
  | nil => intro pr; rfl
  | cons a l ih =>
    intro pr
    rw [List.flatMap_cons, List.foldl_cons, ← ih]
    unfold applyOps
    rw [List.foldl_append]

/-- Without a fault the calls of `saveOps` leave the store that `saveWrites` describes. -/
theorem applyOps_saveOps (cfg : Config) (prefs : Preferences) :
    applyOps (saveOps cfg) prefs = saveWrites cfg prefs := by
  unfold saveOps saveWrites
  have h1 : ∀ (ops : List (Str × PrefValue)) (op : Str × PrefValue) (pr : Preferences),
      applyOps (op :: ops) pr = applyOps ops (Function.update pr op.1 (some op.2)) := by
    intro ops op pr; rfl
  rw [h1, foldl_bind_ops]
  congr 1

theorem run_writes_frame : ∀ (cmds : List (List Char)) (s s2 : State),
    run (cmds.map Event.write) s = some s2 →
    s2.lastSaveTime = s.lastSaveTime ∧ s2.storageWrites = s.storageWrites ∧
      s2.preferences = s.preferences := by
  intro cmds
  induction cmds with
  | nil => intro s s2 h; cases h; exact ⟨rfl, rfl, rfl⟩
  | cons c cs ih =>
    intro s s2 h
    simp only [List.map_cons, run, step] at h
    cases h1 : onWrite c s with
    | none => rw [h1] at h; cases h
    | some s1 =>
      rw [h1] at h
      obtain ⟨a1, a2, a3, _⟩ := onWrite_frame c s s1 h1
      obtain ⟨b1, b2, b3⟩ := ih s1 s2 h
      exact ⟨b1.trans a1, b2.trans a2, b3.trans a3⟩

theorem loopFault_due (t k : Nat) (s : State) (hn : s.needsSave = true)
    (h1 : (t % 2 ^ 32 + 2 ^ 32 - s.lastSaveTime) % 2 ^ 32 ≥ SAVE_INTERVAL) :
    loopFault t t k s =
      { s with
        needsSave := false
        lastSaveTime := t % 2 ^ 32
        preferences := applyOps ((saveOps s.currentConfig).take k) s.preferences } := by
  unfold loopFault
  rw [if_pos (by rw [hn, Bool.true_and]; exact decide_eq_true h1)]
  unfold saveConfigFault
  simp only
  rw [if_neg (by unfold SAVE_INTERVAL at h1 ⊢; omega)]

/-- C15, counterexample: the write attempted at 6000 ms fails, then the command
`SERVO:0:5` (received at 7000 ms, say) leaves a save request pending; the next periodic
check, at `2 ^ 32 + 6100` ms, follows that command by more than `SAVE_INTERVAL`, yet it
performs no write, the request stays pending and the store still lacks the entry of
pose 1: the 32-bit clock reads 6100 there, 100 ms past `lastSaveTime`. -/
theorem retry_skipped_after_clock_wrap :
    (run [Event.write "SERVO:0:5".toList]
      (loopFault 6000 6000 3
        (handlePoseCommand "POSE:1:10".toList (setup emptyPreferences)))).map
      (fun s2 =>
        (s2.needsSave, s2.lastSaveTime,
          (loop (2 ^ 32 + 6100) (2 ^ 32 + 6100) s2).storageWrites,
          (loop (2 ^ 32 + 6100) (2 ^ 32 + 6100) s2).needsSave,
          (loop (2 ^ 32 + 6100) (2 ^ 32 + 6100) s2).preferences (keyPos 1 0))) =
      some (true, 6000, [], true, none) := by
  decide

/-- C15, amended: a storage fault during `saveConfig` is contained and the write is
retried on the next dirty cycle, provided its check comes less than `2 ^ 32` ms after
the failed attempt.  When the periodic check at time `t0` attempts the write and the
store raises a fault in call number `k` of the `try` block, `saveConfig` returns with
the configuration unchanged, `needsSave = false` and `lastSaveTime` the clock value of
`t0` (the store holding the writes made before the fault); later checks do not write
as long as no command sets `needsSave` again; and once commands have left a save
request pending, a periodic check at least `SAVE_INTERVAL` after `t0` (so any check at
least `SAVE_INTERVAL` after the command) and less than `2 ^ 32` ms after `t0` performs
the complete write of the configuration. -/
theorem failed_save_contained_and_retried (s s2 : State) (t0 k : Nat)
    (cmds : List (List Char)) (t1 t2 : Nat)
    (hn : s.needsSave = true)
    (hdue : (t0 % 2 ^ 32 + 2 ^ 32 - s.lastSaveTime) % 2 ^ 32 ≥ SAVE_INTERVAL)
    (hcmds : run (cmds.map Event.write) (loopFault t0 t0 k s) = some s2)
    (hpending : s2.needsSave = true)
    (h1 : t0 + SAVE_INTERVAL ≤ t1) (h12 : t1 ≤ t2) (hwrap : t2 < t0 + 2 ^ 32) :
    (loopFault t0 t0 k s).currentConfig = s.currentConfig ∧
    (loopFault t0 t0 k s).needsSave = false ∧
    (loopFault t0 t0 k s).lastSaveTime = t0 % 2 ^ 32 ∧
    (loopFault t0 t0 k s).preferences =
      applyOps ((saveOps s.currentConfig).take k) s.preferences ∧
    (∀ u1 u2, loop u1 u2 (loopFault t0 t0 k s) = loopFault t0 t0 k s) ∧
    (loop t1 t2 s2).preferences = saveWrites s2.currentConfig s2.preferences ∧
    (loop t1 t2 s2).storageWrites = s2.storageWrites ++ [t2] ∧
    (loop t1 t2 s2).needsSave = false ∧
    (loop t1 t2 s2).currentConfig = s2.currentConfig := by
  have hf := loopFault_due t0 k s hn hdue
  have hlast : s2.lastSaveTime = t0 % 2 ^ 32 := by
    rw [(run_writes_frame cmds _ s2 hcmds).1, hf]
  have hretry := loop_due t1 t2 s2 hpending
    (by rw [hlast]; unfold SAVE_INTERVAL at h1 ⊢; omega)
    (by rw [hlast]; unfold SAVE_INTERVAL at h1 ⊢; omega)
  rw [hretry]
  refine ⟨by rw [hf], by rw [hf], by rw [hf], by rw [hf], ?_, rfl, rfl, rfl, rfl⟩
  intro u1 u2
  apply loop_not_due
  rw [hf]
  simp

theorem failed_save_contained_and_retried_witness :
    (loopFault 6000 6000 3
      (handlePoseCommand "POSE:1:10".toList (setup emptyPreferences))).needsSave = false ∧
    (loopFault 6000 6000 3
      (handlePoseCommand "POSE:1:10".toList (setup emptyPreferences))).lastSaveTime = 6000 ∧
    (loopFault 6000 6000 3
      (handlePoseCommand "POSE:1:10".toList (setup emptyPreferences))).preferences (keyPos 0 0) =
        some (PrefValue.int 90) ∧
    (loopFault 6000 6000 3
      (handlePoseCommand "POSE:1:10".toList (setup emptyPreferences))).preferences (keyPos 0 1) =
        none ∧
    (loop 11000 11001 (servoAccepted 1 0 5 (loopFault 6000 6000 3
      (handlePoseCommand "POSE:1:10".toList (setup emptyPreferences))))).storageWrites =
        [11001] ∧
    (loop 11000 11001 (servoAccepted 1 0 5 (loopFault 6000 6000 3
      (handlePoseCommand "POSE:1:10".toList (setup emptyPreferences))))).preferences
        (keyPos 1 0) = some (PrefValue.int 5) := by
  have h := failed_save_contained_and_retried
    (handlePoseCommand "POSE:1:10".toList (setup emptyPreferences))
    (servoAccepted 1 0 5 (loopFault 6000 6000 3
      (handlePoseCommand "POSE:1:10".toList (setup emptyPreferences))))
    6000 3 ["SERVO:0:5".toList] 11000 11001
    (by decide) (by decide) (by rfl) (by rfl) (by decide) (by decide) (by decide)
  obtain ⟨_, h2, h3, h4, _, h6, h7, _, _⟩ := h
  refine ⟨h2, h3.trans (by decide), ?_, ?_, h7.trans (by decide), ?_⟩
  · rw [h4]; decide
  · rw [h4]; decide
  · rw [h6]
    exact (saveWrites_pos _ _ (1 : Fin NUM_POSES) (0 : Fin NUM_SERVOS)).trans (by decide)

end IronManMask
namespace IronManMask

/-! ## The `GET_CONFIG` document and its capacity -/

theorem allocVariant_free (pool pool1 : MemoryPool) (h : pool.allocVariant = some pool1) :
    pool1.free + SLOT_SIZE = pool.free ∧ pool1.strings = pool.strings := by
  unfold MemoryPool.allocVariant at h
  split_ifs at h with h1
  cases h
  exact ⟨Nat.sub_add_cancel h1, rfl⟩

theorem saveString_free (pool pool1 : MemoryPool) (s : Str)
    (h : pool.saveString s = some pool1) : pool1.free ≤ pool.free := by
  unfold MemoryPool.saveString at h
  split_ifs at h with h1 h2
  · cases h; exact le_rfl
  · cases h; exact Nat.sub_le _ _

theorem servosSlots_append (l : List ServoJson) (e : ServoJson) :
    servosSlots (l ++ [e]) = servosSlots l + e.slots := by
  simp [servosSlots]

theorem posesSlots_append (l : List PoseJson) (p : PoseJson) :
    posesSlots (l ++ [p]) = posesSlots l + p.slots := by
  simp [posesSlots]

theorem addServoJson_slots (position : Int) (acc : MemoryPool × List ServoJson) :
    (addServoJson position acc).1.free + SLOT_SIZE * servosSlots (addServoJson position acc).2 ≤
      acc.1.free + SLOT_SIZE * servosSlots acc.2 := by
  cases h1 : acc.1.allocVariant with
  | none => simp only [addServoJson, h1]; exact le_rfl
  | some pool1 =>
    have a1 := (allocVariant_free _ _ h1).1
    cases h2 : pool1.allocVariant with
    | none =>
      simp only [addServoJson, h1, h2, servosSlots_append, ServoJson.slots]
      simp only [SLOT_SIZE] at a1 ⊢
      simp
      omega
    | some pool2 =>
      have a2 := (allocVariant_free _ _ h2).1
      simp only [addServoJson, h1, h2, servosSlots_append, ServoJson.slots]
      simp only [SLOT_SIZE] at a1 a2 ⊢
      simp
      omega

theorem servoLoop_slots (f : Fin NUM_SERVOS → Int) :
    ∀ (l : List (Fin NUM_SERVOS)) (acc : MemoryPool × List ServoJson),
    (l.foldl (fun acc (servoIndex : Fin NUM_SERVOS) => addServoJson (f servoIndex) acc) acc).1.free +
      SLOT_SIZE * servosSlots
        (l.foldl (fun acc (servoIndex : Fin NUM_SERVOS) => addServoJson (f servoIndex) acc) acc).2 ≤
      acc.1.free + SLOT_SIZE * servosSlots acc.2 := by
  intro l
  induction l with
  | nil => intro acc; exact le_rfl
  | cons j l ih =>
    intro acc
    rw [List.foldl_cons]
    exact (ih _).trans (addServoJson_slots _ _)

theorem addNameJson_slots (name : Str) (pool : MemoryPool) :
    (addNameJson name pool).1.free + SLOT_SIZE * nameSlots (addNameJson name pool).2 ≤
      pool.free := by
  cases h1 : pool.allocVariant with
  | none => simp [addNameJson, h1, nameSlots]
  | some pool1 =>
    have a1 := (allocVariant_free _ _ h1).1
    cases h2 : pool1.saveString name with
    | none =>
      simp only [addNameJson, h1, h2, nameSlots]
      simp
      omega
    | some pool2 =>
      have a2 := saveString_free _ _ _ h2
      simp only [addNameJson, h1, h2, nameSlots]
      simp
      omega

theorem addServosJson_slots (pose : Pose) (pool : MemoryPool) :
    (addServosJson pose pool).1.free +
      SLOT_SIZE * servosMemberSlots (addServosJson pose pool).2 ≤ pool.free := by
  cases h1 : pool.allocVariant with
  | none => simp [addServosJson, h1, servosMemberSlots]
  | some pool1 =>
    have a1 := (allocVariant_free _ _ h1).1
    have a2 := servoLoop_slots (fun servoIndex => (pose.servos servoIndex).position)
      (List.finRange NUM_SERVOS) (pool1, [])
    simp only [addServosJson, h1, servosMemberSlots]
    simp only [servosSlots, List.map_nil, List.sum_nil, Nat.mul_zero, Nat.add_zero] at a2
    rw [Nat.mul_add]
    simp only [servosSlots]
    omega

theorem addPoseJson_slots (pose : Pose) (acc : MemoryPool × List PoseJson) :
    (addPoseJson pose acc).1.free + SLOT_SIZE * posesSlots (addPoseJson pose acc).2 ≤
      acc.1.free + SLOT_SIZE * posesSlots acc.2 := by
  cases h1 : acc.1.allocVariant with
  | none => simp only [addPoseJson, h1]; exact le_rfl
  | some pool1 =>
    have a1 := (allocVariant_free _ _ h1).1
    have a2 := addNameJson_slots pose.name pool1
    have a3 := addServosJson_slots pose (addNameJson pose.name pool1).1
    simp only [addPoseJson, h1, posesSlots_append, PoseJson.slots]
    simp only [Nat.mul_add, Nat.mul_one]
    omega

theorem poseLoopJson_slots (cfg : Config) :
    ∀ (l : List (Fin NUM_POSES)) (acc : MemoryPool × List PoseJson),
    (l.foldl (fun acc (poseIndex : Fin NUM_POSES) => addPoseJson (cfg.poses poseIndex) acc) acc).1.free +
      SLOT_SIZE * posesSlots
        (l.foldl (fun acc (poseIndex : Fin NUM_POSES) => addPoseJson (cfg.poses poseIndex) acc) acc).2 ≤
      acc.1.free + SLOT_SIZE * posesSlots acc.2 := by
  intro l
  induction l with
  | nil => intro acc; exact le_rfl
  | cons j l ih =>
    intro acc
    rw [List.foldl_cons]
    exact (ih _).trans (addPoseJson_slots _ _)

/-- The pose entries of a document take no more slots than its capacity holds. -/
theorem buildConfigJson_slots (capacity : Nat) (cfg : Config) (l : List PoseJson)
    (h : (buildConfigJson capacity cfg).poses = some l) :
    SLOT_SIZE * (1 + posesSlots l) ≤ capacity := by
  unfold buildConfigJson at h
  simp only at h
  cases h1 : (MemoryPool.new capacity).allocVariant with
  | none =>
    rw [h1] at h
    simp only at h
    rw [h1] at h
    cases h
  | some pool1 =>
    have a1 := (allocVariant_free _ _ h1).1
    rw [h1] at h
    simp only at h
    cases h2 : pool1.allocVariant with
    | none => rw [h2] at h; cases h
    | some pool2 =>
      have a2 := (allocVariant_free _ _ h2).1
      rw [h2] at h
      simp only [Option.some.injEq] at h
      have a3 := poseLoopJson_slots cfg (List.finRange NUM_POSES) (pool2, [])
      rw [h] at a3
      simp only [posesSlots, List.map_nil, List.sum_nil, Nat.mul_zero, Nat.add_zero] at a3
      simp only [posesSlots, Nat.mul_add, Nat.mul_one]
      have a0 : (MemoryPool.new capacity).free = capacity := rfl
      omega

theorem length_mul_le_sum_map {α : Type} (f : α → Nat) (k : Nat) :
    ∀ l : List α, (∀ x ∈ l, k ≤ f x) → k * l.length ≤ (l.map f).sum := by
  intro l
  induction l with
  | nil => intro _; simp
  | cons a l ih =>
    intro h
    have h1 := h a (List.mem_cons_self _ _)
    have h2 := ih fun x hx => h x (List.mem_cons_of_mem _ hx)
    simp only [List.length_cons, List.map_cons, List.sum_cons, Nat.mul_succ]
    omega

theorem hasAllEntries_slots (p : PoseJson) (h : p.hasAllEntries = true) : 18 ≤ p.slots := by
  unfold PoseJson.hasAllEntries at h
  unfold PoseJson.slots servosMemberSlots
  cases hs : p.servos with
  | none => rw [hs] at h; cases h
  | some sv =>
    rw [hs] at h
    simp only [Bool.and_eq_true, decide_eq_true_eq, List.all_eq_true] at h
    have h2 := length_mul_le_sum_map ServoJson.slots 2 sv (by
      intro e he
      have := h.2 e he
      simp [ServoJson.slots, this])
    rw [h.1] at h2
    simp only [servosSlots]
    simp only [NUM_SERVOS] at h2
    omega

/-- A document with all the specified entries takes at least 145 slots. -/
theorem hasAllEntries_capacity (capacity : Nat) (cfg : Config)
    (h : (buildConfigJson capacity cfg).hasAllEntries = true) :
    145 * SLOT_SIZE ≤ capacity := by
  unfold ConfigJson.hasAllEntries at h
  cases hp : (buildConfigJson capacity cfg).poses with
  | none => rw [hp] at h; cases h
  | some l =>
    rw [hp] at h
    simp only [Bool.and_eq_true, decide_eq_true_eq, List.all_eq_true] at h
    have h1 := buildConfigJson_slots capacity cfg l hp
    have h2 := length_mul_le_sum_map PoseJson.slots 18 l fun p hp2 =>
      hasAllEntries_slots p (h.2 p hp2)
    rw [h.1] at h2
    simp only [posesSlots, SLOT_SIZE] at h1 ⊢
    simp only [NUM_POSES] at h2
    omega

theorem fullSnapshot_hasAllEntries (cfg : Config) : (fullSnapshot cfg).hasAllEntries = true := by
  simp [ConfigJson.hasAllEntries, fullSnapshot, PoseJson.hasAllEntries]

/-- The document of `getConfigJson` never has all the specified entries. -/
theorem getConfigJson_incomplete (cfg : Config) : (getConfigJson cfg).hasAllEntries = false := by
  cases h : (getConfigJson cfg).hasAllEntries with
  | false => rfl
  | true =>
    have h1 := hasAllEntries_capacity 2048 cfg h
    simp only [SLOT_SIZE] at h1
    omega

theorem allocVariant_enough (pool : MemoryPool) (h : SLOT_SIZE ≤ pool.free) :
    pool.allocVariant = some { free := pool.free - SLOT_SIZE, strings := pool.strings } := by
  unfold MemoryPool.allocVariant
  rw [if_pos h]

theorem addServoJson_enough (position : Int) (acc : MemoryPool × List ServoJson)
    (h : 2 * SLOT_SIZE ≤ acc.1.free) :
    addServoJson position acc =
      ({ free := acc.1.free - 2 * SLOT_SIZE, strings := acc.1.strings },
        acc.2 ++ [{ position := some position }]) := by
  have h1 := allocVariant_enough acc.1 (by omega)
  have h2 := allocVariant_enough { free := acc.1.free - SLOT_SIZE, strings := acc.1.strings }
    (by show SLOT_SIZE ≤ acc.1.free - SLOT_SIZE; omega)
  have h3 : acc.1.free - SLOT_SIZE - SLOT_SIZE = acc.1.free - 2 * SLOT_SIZE := by omega
  simp only [addServoJson, h1, h2, h3]

theorem servoLoop_enough (f : Fin NUM_SERVOS → Int) :
    ∀ (l : List (Fin NUM_SERVOS)) (acc : MemoryPool × List ServoJson),
    2 * SLOT_SIZE * l.length ≤ acc.1.free →
    l.foldl (fun acc (servoIndex : Fin NUM_SERVOS) => addServoJson (f servoIndex) acc) acc =
      ({ free := acc.1.free - 2 * SLOT_SIZE * l.length, strings := acc.1.strings },
        acc.2 ++ l.map fun servoIndex => { position := some (f servoIndex) }) := by
  intro l
  induction l with
  | nil => intro acc _; simp
  | cons j l ih =>
    intro acc h
    simp only [List.length_cons, Nat.mul_succ] at h
    rw [List.foldl_cons, addServoJson_enough _ _ (by omega),
      ih _ (by show _ ≤ acc.1.free - _; omega)]
    have h3 : acc.1.free - 2 * SLOT_SIZE - 2 * SLOT_SIZE * l.length =
        acc.1.free - 2 * SLOT_SIZE * (l.length + 1) := by
      rw [Nat.mul_succ]; omega
    simp only [List.length_cons, List.map_cons, List.append_assoc, List.singleton_append, h3]

theorem addNameJson_enough (name : Str) (pool : MemoryPool)
    (h : SLOT_SIZE + (name.length + 1) ≤ pool.free) :
    (addNameJson name pool).2 = some (some name) ∧
      pool.free ≤ (addNameJson name pool).1.free + (SLOT_SIZE + (name.length + 1)) := by
  have h1 := allocVariant_enough pool (by omega)
  by_cases hm : name ∈ pool.strings
  · have e : addNameJson name pool =
        ({ free := pool.free - SLOT_SIZE, strings := pool.strings }, some (some name)) := by
      simp only [addNameJson, h1, MemoryPool.saveString, if_pos hm]
    rw [e]
    exact ⟨rfl, by show pool.free ≤ pool.free - SLOT_SIZE + _; omega⟩
  · have e : addNameJson name pool =
        ({ free := pool.free - SLOT_SIZE - (name.length + 1),
           strings := pool.strings ++ [name] }, some (some name)) := by
      have hf : name.length + 1 ≤ pool.free - SLOT_SIZE := by omega
      simp only [addNameJson, h1, MemoryPool.saveString, if_neg hm, if_pos hf]
    rw [e]
    exact ⟨rfl, by show pool.free ≤ pool.free - SLOT_SIZE - (name.length + 1) + _; omega⟩

theorem addServosJson_enough (pose : Pose) (pool : MemoryPool)
    (h : SLOT_SIZE + 2 * SLOT_SIZE * NUM_SERVOS ≤ pool.free) :
    (addServosJson pose pool).2 =
      some ((List.finRange NUM_SERVOS).map fun (servoIndex : Fin NUM_SERVOS) =>
        { position := some (pose.servos servoIndex).position }) ∧
      pool.free ≤ (addServosJson pose pool).1.free + (SLOT_SIZE + 2 * SLOT_SIZE * NUM_SERVOS) := by
  have h1 := allocVariant_enough pool (by omega)
  have h2 := servoLoop_enough (fun servoIndex => (pose.servos servoIndex).position)
    (List.finRange NUM_SERVOS) ({ free := pool.free - SLOT_SIZE, strings := pool.strings }, [])
    (by rw [List.length_finRange]; show _ ≤ pool.free - SLOT_SIZE; omega)
  have e : addServosJson pose pool =
      ({ free := pool.free - SLOT_SIZE - 2 * SLOT_SIZE * NUM_SERVOS, strings := pool.strings },
        some ((List.finRange NUM_SERVOS).map fun (servoIndex : Fin NUM_SERVOS) =>
          { position := some (pose.servos servoIndex).position })) := by
    simp only [addServosJson, h1, h2, List.nil_append, List.length_finRange]
  rw [e]
  exact ⟨rfl, by show pool.free ≤ pool.free - SLOT_SIZE - 2 * SLOT_SIZE * NUM_SERVOS + _; omega⟩

theorem addPoseJson_enough (pose : Pose) (acc : MemoryPool × List PoseJson)
    (h : 3 * SLOT_SIZE + 2 * SLOT_SIZE * NUM_SERVOS + (pose.name.length + 1) ≤ acc.1.free) :
    (addPoseJson pose acc).2 =
      acc.2 ++ [{ name := some (some pose.name)
                  servos := some ((List.finRange NUM_SERVOS).map
                    fun (servoIndex : Fin NUM_SERVOS) =>
                      { position := some (pose.servos servoIndex).position }) }] ∧
      acc.1.free ≤ (addPoseJson pose acc).1.free +
        (3 * SLOT_SIZE + 2 * SLOT_SIZE * NUM_SERVOS + (pose.name.length + 1)) := by
  have h1 := allocVariant_enough acc.1 (by omega)
  generalize hp1 : ({ free := acc.1.free - SLOT_SIZE, strings := acc.1.strings } : MemoryPool) =
    pool1 at h1
  have hf1 : pool1.free = acc.1.free - SLOT_SIZE := by rw [← hp1]
  have h2 := addNameJson_enough pose.name pool1 (by omega)
  have h3 := addServosJson_enough pose (addNameJson pose.name pool1).1 (by omega)
  have e : addPoseJson pose acc =
      ((addServosJson pose (addNameJson pose.name pool1).1).1,
        acc.2 ++ [{ name := (addNameJson pose.name pool1).2
                    servos := (addServosJson pose (addNameJson pose.name pool1).1).2 }]) := by
    simp only [addPoseJson, h1]
  rw [e, h2.1, h3.1]
  exact ⟨rfl, by show acc.1.free ≤ (addServosJson pose (addNameJson pose.name pool1).1).1.free + _; omega⟩

theorem poseLoopJson_enough (cfg : Config) :
    ∀ (l : List (Fin NUM_POSES)) (acc : MemoryPool × List PoseJson),
    (l.map fun (poseIndex : Fin NUM_POSES) =>
      3 * SLOT_SIZE + 2 * SLOT_SIZE * NUM_SERVOS + ((cfg.poses poseIndex).name.length + 1)).sum ≤
        acc.1.free →
    (l.foldl (fun acc (poseIndex : Fin NUM_POSES) => addPoseJson (cfg.poses poseIndex) acc)
      acc).2 =
      acc.2 ++ l.map fun (poseIndex : Fin NUM_POSES) =>
        { name := some (some (cfg.poses poseIndex).name)
          servos := some ((List.finRange NUM_SERVOS).map fun (servoIndex : Fin NUM_SERVOS) =>
            { position := some ((cfg.poses poseIndex).servos servoIndex).position }) } := by
  intro l
  induction l with
  | nil => intro acc _; simp
  | cons i l ih =>
    intro acc h
    simp only [List.map_cons, List.sum_cons] at h
    have h1 := addPoseJson_enough (cfg.poses i) acc (by omega)
    rw [List.foldl_cons, ih _ (by omega), h1.1]
    simp

theorem sum_map_add_const {α : Type} (f : α → Nat) (k : Nat) :
    ∀ l : List α, (l.map fun x => k + f x).sum = k * l.length + (l.map f).sum := by
  intro l
  induction l with
  | nil => simp
  | cons a l ih =>
    simp only [List.map_cons, List.sum_cons, List.length_cons, Nat.mul_succ, ih]
    omega

/-- With room for the 154 slots of the 8 by 8 document and for the names, the loops of
`getConfigJson()` build the specified snapshot. -/
theorem buildConfigJson_enough (capacity : Nat) (cfg : Config)
    (h : 154 * SLOT_SIZE + nameBytes cfg ≤ capacity) :
    buildConfigJson capacity cfg = fullSnapshot cfg := by
  have h1 := allocVariant_enough (MemoryPool.new capacity)
    (by show SLOT_SIZE ≤ capacity; omega)
  have h2 := allocVariant_enough { free := capacity - SLOT_SIZE, strings := [] }
    (by show SLOT_SIZE ≤ capacity - SLOT_SIZE; omega)
  have h3 := poseLoopJson_enough cfg (List.finRange NUM_POSES)
    ({ free := capacity - SLOT_SIZE - SLOT_SIZE, strings := [] }, [])
    (by
      rw [sum_map_add_const, List.length_finRange]
      show _ ≤ capacity - SLOT_SIZE - SLOT_SIZE
      unfold nameBytes at h
      simp only [NUM_POSES, NUM_SERVOS, SLOT_SIZE] at h ⊢
      omega)
  have h1 : (MemoryPool.new capacity).allocVariant =
      some { free := capacity - SLOT_SIZE, strings := [] } := h1
  have h2 : ({ free := capacity - SLOT_SIZE, strings := [] } : MemoryPool).allocVariant =
      some { free := capacity - SLOT_SIZE - SLOT_SIZE, strings := [] } := h2
  simp only [buildConfigJson, fullSnapshot, h1, h2, h3, List.nil_append]

/-- After any sequence of events a `GET_CONFIG` request appends the document of the
configuration these events have produced. -/
theorem run_getConfig (s0 : State) (evs : List Event) :
    run (evs ++ [Event.write "GET_CONFIG".toList]) s0 =
      (run evs s0).map fun s1 =>
        { s1 with notifications := s1.notifications ++ [getConfigJson s1.currentConfig] } := by
  rw [run_append]
  cases run evs s0 with
  | none => rfl
  | some s1 =>
    show (onWrite "GET_CONFIG".toList s1).bind (run []) = _
    rw [onWrite_getConfig]
    rfl

theorem getConfigJson_currentPose (cfg : Config) :
    (getConfigJson cfg).currentPose = some cfg.currentPose := by
  have h1 : (MemoryPool.new 2048).allocVariant = some { free := 2032, strings := [] } := by
    decide
  have h2 : ({ free := 2032, strings := [] } : MemoryPool).allocVariant =
      some { free := 2016, strings := [] } := by
    decide
  simp only [getConfigJson, buildConfigJson, h1, h2]

/-- C10: handling `GET_CONFIG` changes neither the configuration nor `needsSave` and
notifies the document of `getConfigJson`, whose `currentPose` is the stored one; but
for no configuration does that document have 8 poses with 8 servo entries carrying a
position each, so it never is the specified snapshot: the 8 by 8 document takes 154
slots and `StaticJsonDocument<2048>` holds 128.  After a boot with an empty store the
notified document ends inside the seventh pose: `Pose 1` to `Pose 6` complete, `Pose 7`
with two positions and an empty third servo entry, and no eighth pose. -/
theorem getConfig_document_truncated (s : State) :
    (∃ s1, onWrite "GET_CONFIG".toList s = some s1 ∧
      s1.currentConfig = s.currentConfig ∧ s1.needsSave = s.needsSave ∧
      s1.notifications = s.notifications ++ [getConfigJson s.currentConfig]) ∧
    (getConfigJson s.currentConfig).currentPose = some s.currentConfig.currentPose ∧
    (getConfigJson s.currentConfig).hasAllEntries = false ∧
    getConfigJson s.currentConfig ≠ fullSnapshot s.currentConfig ∧
    (onWrite "GET_CONFIG".toList (setup emptyPreferences)).map (fun s1 => s1.notifications) =
      some [{ currentPose := some 0
              poses := some
                ((["Pose 1", "Pose 2", "Pose 3", "Pose 4", "Pose 5", "Pose 6"].map fun n =>
                    { name := some (some n.toList)
                      servos := some (List.replicate 8 { position := some 90 }) }) ++
                  [{ name := some (some "Pose 7".toList)
                     servos := some [{ position := some 90 }, { position := some 90 },
                       { position := none }] }]) }] := by
  refine ⟨⟨_, onWrite_getConfig s, rfl, rfl, rfl⟩, getConfigJson_currentPose _,
    getConfigJson_incomplete _, ?_, by decide⟩
  intro h
  have h1 := getConfigJson_incomplete s.currentConfig
  rw [h, fullSnapshot_hasAllEntries] at h1
  cases h1

/-- The default names take 56 bytes: a document of 2520 bytes holds the snapshot of the
configuration of a first boot, one of 2519 bytes does not. -/
theorem buildConfigJson_example :
    buildConfigJson 2520 (setup emptyPreferences).currentConfig =
      fullSnapshot (setup emptyPreferences).currentConfig ∧
    buildConfigJson 2519 (setup emptyPreferences).currentConfig ≠
      fullSnapshot (setup emptyPreferences).currentConfig := by
  decide

end IronManMask
